import Mathlib

/-!
# The `CustomEvent` mixin of `src/src/customEvent.js`

A shallow embedding of the publish/subscribe mixin.  The registry `this._events`
is one JavaScript object whose keys are built by string concatenation
(`type`, `type + '_idx'`, `type + '_len'`), so it is modelled as one map from
strings to JavaScript values, and every function below follows its source line
by line on that map.

Modelling conventions:
* the registry is created as a plain object `{}`: a key of it that was not
  written reads as the property inherited from `Object.prototype`, if there is
  one of that name (`constructor`, `toString`, ...), and as `undefined`
  otherwise; the other objects (records, payloads, events) are the finite maps
  of their own properties;
* numbers are the integers that are doubles, `Infinity` and `NaN`: a sum or
  difference is rounded to the nearest double, ties to the even one;
* a handler is a JavaScript function: either a user function, whose body is a
  list of calls on the host looked up in a program table, or the closure
  `onceHandler` created by `once`;
* a `for ... in` loop enumerates the keys present when the loop starts, in
  insertion order (array indices first), and skips a key that is gone when it
  is reached.
-/

namespace CustomEvent

/-- A value passed as handler, as context or as `this`. -/
inductive Arg where
  | undefined
  | host
  | object (id : Nat)
  | function (id : Nat)
  | onceHandler (serial : Nat) (types : Option String) (fn : Arg) (context : Arg)
  deriving DecidableEq

/-- The first argument of `on`, `off` and `once`. -/
inductive Types where
  | undefined
  | null
  | string (s : String)
  | object (own : List (String × Arg))
  deriving DecidableEq

/-- A listener record: `{fn: fn}` on the plain path (no `ctx` property, so
`ctx` reads as `undefined`), `{fn: fn, ctx: context}` on the indexed path. -/
structure Entry where
  fn : Arg
  ctx : Arg
  deriving DecidableEq

/-- The key `stamp(fn) + '_' + stamp(context)` of the indexed path. -/
structure Key where
  fn : Arg
  ctx : Arg
  deriving DecidableEq

/-- Modelled from the spec: `ne.object.stamp` is not among the sources; the spec
describes it as "assigning a hidden unique id to arbitrary objects on first
use".  Distinct objects get distinct ids and an object keeps its id, so the id
is modelled by the object itself; stamping `undefined` is a `TypeError`. -/
def stamp : Arg → Option Arg
  | .undefined => none
  | a => some a

/-- The names of the properties that a plain object `{}` inherits from
`Object.prototype` in a browser. -/
def inheritedNames : List String :=
  ["constructor", "hasOwnProperty", "isPrototypeOf", "propertyIsEnumerable", "toLocaleString",
   "toString", "valueOf", "__defineGetter__", "__defineSetter__", "__lookupGetter__",
   "__lookupSetter__", "__proto__"]

/-- The name is one that a plain object inherits. -/
def inherited (name : String) : Bool := inheritedNames.contains name

/-- The string conversion of the value inherited under a name: the text of a
built-in function (as the browsers print it), that of `Object.prototype`
itself for `__proto__`. -/
def inheritedText (name : String) : String :=
  if name = "__proto__" then "[object Object]"
  else if name = "constructor" then "function Object() \x7b [native code] \x7d"
  else "function " ++ name ++ "() \x7b [native code] \x7d"

/-- A JavaScript value stored in (or read from) the registry object.
`inherited name props` is the value that `{}` inherits under `name`: a
built-in function (`Object.prototype` itself for `__proto__`), with the
properties that the code may have added to it. -/
inductive Val where
  | undefined
  | null
  | number (n : Int)
  | infinity (negative : Bool)
  | nan
  | string (s : String)
  | array (elems : List Entry) (props : List (Key × Option Entry))
  | object (props : List (Key × Option Entry))
  | inherited (name : String) (props : List (Key × Option Entry))
  deriving DecidableEq

/-- JavaScript truthiness. -/
def truthy : Val → Bool
  | .undefined => false
  | .null => false
  | .number n => n != 0
  | .infinity _ => true
  | .nan => false
  | .string s => s != ""
  | .array _ _ => true
  | .object _ => true
  | .inherited _ _ => true

/-- Truthiness of a context value (`context && ...`). -/
def Arg.truthy : Arg → Bool
  | .undefined => false
  | _ => true

/-- Lookup in a property list; `none` is an absent property. -/
def lookup (k : Key) : List (Key × Option Entry) → Option (Option Entry)
  | [] => none
  | (k', v) :: rest => if k' = k then some v else lookup k rest

/-- Assignment in a property list: an existing property keeps its place in the
enumeration order, a new one goes last. -/
def assign (k : Key) (v : Option Entry) : List (Key × Option Entry) → List (Key × Option Entry)
  | [] => [(k, v)]
  | (k', v') :: rest => if k' = k then (k', v) :: rest else (k', v') :: assign k v rest

/-- The truthiness of `typeIndex[id]`: only a live record is truthy; an absent
property, a tombstone `null` and every property of a primitive are falsy. -/
def Val.has (v : Val) (id : Key) : Bool :=
  match v with
  | .array _ props => (lookup id props).join.isSome
  | .object props => (lookup id props).join.isSome
  | .inherited _ props => (lookup id props).join.isSome
  | _ => false

/-- The assignment `typeIndex[id] = x`; `none` is the `TypeError` of strict mode
for an assignment to a property of a primitive. -/
def Val.setProp (v : Val) (id : Key) (x : Option Entry) : Option Val :=
  match v with
  | .array elems props => some (.array elems (assign id x props))
  | .object props => some (.object (assign id x props))
  | .inherited name props => some (.inherited name (assign id x props))
  | _ => none

/-- The call `listeners.push(e)`; `none` is the `TypeError` raised when the
value has no `push` method. -/
def Val.push (v : Val) (e : Entry) : Option Val :=
  match v with
  | .array elems props => some (.array (elems ++ [e]) props)
  | _ => none

/-- The value of a decimal digit. -/
def digitChar (c : Char) : Option Nat :=
  if c.isDigit then some (c.toNat - 48) else none

/-- The number value of an integer: the integer itself below `2 ^ 53` in
absolute value, otherwise the nearest double (53 significant bits, a tie going
to the even one), `Infinity` from `2 ^ 1024` on. -/
def roundNumber (n : Int) : Val :=
  let a := n.natAbs
  if a < 2 ^ 53 then .number n
  else
    let e := Nat.log2 a - 52
    let q := a / 2 ^ e
    let r := a % 2 ^ e
    let q1 := if 2 ^ e < 2 * r ∨ (2 * r = 2 ^ e ∧ q % 2 = 1) then q + 1 else q
    if q1 * 2 ^ e < 2 ^ 1024 then
      .number (if n < 0 then -((q1 * 2 ^ e : Nat) : Int) else ((q1 * 2 ^ e : Nat) : Int))
    else .infinity (decide (n < 0))

/-- The integer written by a string of decimal digits (0 for the empty string);
`none` when a character is not a digit. -/
def digitsValue (s : String) : Option Nat :=
  s.data.foldl (fun acc c => match acc, digitChar c with
    | some n, some d => some (10 * n + d)
    | _, _ => none) (some 0)

/-- The string-to-number conversion on the strings that the code can build:
they consist of `[object Object]`, `,`, the text of a built-in function and
`1`.  A string of decimal digits converts to the number value of the integer
it writes (the empty string to 0), any other of these strings to `NaN`. -/
def stringToNumber (s : String) : Val :=
  match digitsValue s with
  | some n => roundNumber n
  | none => .nan

/-- The string conversion of an array or object holding listener records, or of
an inherited value. -/
def Val.toStr : Val → String
  | .array elems _ => String.intercalate "," (elems.map fun _ => "[object Object]")
  | .object _ => "[object Object]"
  | .inherited name _ => inheritedText name
  | .string s => s
  | _ => ""

/-- The expression `(x || 0) + 1`. -/
def addOne (x : Val) : Val :=
  match x with
  | .number n => if n = 0 then .number 1 else roundNumber (n + 1)
  | .infinity negative => .infinity negative
  | .string s => if s = "" then .number 1 else .string (s ++ "1")
  | .array elems props => .string ((Val.array elems props).toStr ++ "1")
  | .object props => .string ((Val.object props).toStr ++ "1")
  | .inherited name props => .string ((Val.inherited name props).toStr ++ "1")
  | _ => .number 1

/-- The conversion `ToNumber(x)`: a number, an infinity or `NaN`. -/
def toNumber (x : Val) : Val :=
  match x with
  | .undefined => .nan
  | .null => .number 0
  | .number n => .number n
  | .infinity negative => .infinity negative
  | .nan => .nan
  | .string s => stringToNumber s
  | .array elems props => stringToNumber (Val.array elems props).toStr
  | .object _ => .nan
  | .inherited _ _ => .nan

/-- The statement `x--` (the value stored back). -/
def decrement (x : Val) : Val :=
  match toNumber x with
  | .number n => roundNumber (n - 1)
  | .infinity negative => .infinity negative
  | _ => .nan

/-- The registry object: a map from property names to the values read under
them, `undefined` for a property that is neither its own nor inherited. -/
abbrev Events := String → Val

/-- The assignment `events[k] = v`. -/
def Events.set (events : Events) (k : String) (v : Val) : Events :=
  fun k' => if k' = k then v else events k'

/-- The empty object `{}`: it has no property of its own and reads the
properties of `Object.prototype` under their names. -/
def Events.empty : Events := fun k => if inherited k then .inherited k [] else .undefined

/-- The field `this._events`. -/
inductive Registry where
  | undefined
  | null
  | object (events : Events)

/-- The host instance.  `detached` lists the registry objects that `off()` has
dropped, oldest first: a running `fire` may still hold one of them.  `closures`
counts the `onceHandler` closures created so far. -/
structure Host where
  _events : Registry
  detached : List Events
  closures : Nat

/-- A host on which nothing was ever registered. -/
def Host.fresh : Host := ⟨.undefined, [], 0⟩

/-- A field value of a payload or event object. -/
inductive Field where
  | number (n : Int)
  | string (s : String)
  | host
  deriving DecidableEq

/-- A payload or event object: its own properties in enumeration order. -/
abbrev Obj := List (String × Field)

/-- The assignment `o[k] = v` on a payload or event object. -/
def Obj.put (k : String) (v : Field) : Obj → Obj
  | [] => [(k, v)]
  | (k', v') :: rest => if k' = k then (k', v) :: rest else (k', v') :: Obj.put k v rest

/-- The read `o[k]`. -/
def Obj.get (k : String) : Obj → Option Field
  | [] => none
  | (k', v) :: rest => if k' = k then some v else Obj.get k rest

/-- Modelled from the spec: `ne.object.extend` is not among the sources; the
spec has `fire` build the event by "merging `payload` fields with
`{type, target: hostInstance}`" where "the merge order enforces" that payload
fields do not clobber `type` and `target`: each source's own properties are
assigned to the target, sources taken from left to right. -/
def extend (target : Obj) (sources : List Obj) : Obj :=
  sources.foldl (fun t src => src.foldl (fun t p => Obj.put p.1 p.2 t) t) target

/-- One handler invocation: the function, its `this` and the event object. -/
structure Invocation where
  fn : Arg
  thisArg : Arg
  event : Obj
  deriving DecidableEq

/-- How a call ended. -/
inductive Status where
  | ok
  | typeError
  | outOfFuel
  deriving DecidableEq

/-- The outcome of a call: the host afterwards, the handler invocations made,
how the call ended and, when it returned, the value returned
(`Arg.host` for `this`). -/
structure Out where
  host : Host
  calls : List Invocation
  status : Status
  ret : Arg

/-- A normal return of `this`. -/
def Out.done (h : Host) : Out := ⟨h, [], .ok, .host⟩

/-- A thrown `TypeError`. -/
def Out.throw (h : Host) : Out := ⟨h, [], .typeError, .undefined⟩

/-- Sequencing: the second step runs only when the first returned. -/
def Out.andThen (o : Out) (k : Host → Out) : Out :=
  match o.status with
  | .ok => let o2 := k o.host
           ⟨o2.host, o.calls ++ o2.calls, o2.status, o2.ret⟩
  | _ => o

/-- The host once the registry object in place has the contents `events`. -/
def Host.setEvents (h : Host) (events : Events) : Host :=
  { h with _events := .object events }

/-- The expression `this._events || {}`. -/
def Host.eventsOrNew (h : Host) : Events :=
  match h._events with
  | .object events => events
  | _ => Events.empty

/-- The expression `context && context !== this && ne.object.stamp(context)`:
`some id` when it is truthy. -/
def contextId (context : Arg) : Option Arg :=
  if context.truthy && context != Arg.host then stamp context else none

/-- The value `x || y`. -/
def Val.orElse (x y : Val) : Val := if truthy x then x else y

/-- The method `_on` (lines 64-93). -/
def _on (h : Host) (type : String) (fn context : Arg) : Out :=
  let events := h.eventsOrNew
  match contextId context with
  | some cid =>
    let indexKey := type ++ "_idx"
    let indexLenKey := type ++ "_len"
    let typeIndex := (events indexKey).orElse (.object [])
    let events1 := events.set indexKey typeIndex
    match stamp fn with
    | none => Out.throw (h.setEvents events1)
    | some fid =>
      let id : Key := ⟨fid, cid⟩
      if !typeIndex.has id then
        match typeIndex.setProp id (some ⟨fn, context⟩) with
        | none => Out.throw (h.setEvents events1)
        | some typeIndex2 =>
          let events2 := events1.set indexKey typeIndex2
          Out.done (h.setEvents (events2.set indexLenKey (addOne (events2 indexLenKey))))
      else Out.done (h.setEvents events1)
  | none =>
    let listeners := (events type).orElse (.array [] [])
    let events1 := events.set type listeners
    match listeners.push ⟨fn, .undefined⟩ with
    | none => Out.throw (h.setEvents events1)
    | some listeners2 => Out.done (h.setEvents (events1.set type listeners2))

/-- The loop `for (i = 0; i < len; i++) this._on(types[i], fn, context)` and its
siblings: run `f` on each element, stopping at the first that does not return. -/
def forEach {α : Type} (f : α → Host → Out) : List α → Host → Out
  | [], h => Out.done h
  | a :: rest, h => (f a h).andThen (forEach f rest)

/-- The pieces of a character list between the spaces. -/
def splitChars : List Char → List Char → List String
  | [], cur => [String.mk cur.reverse]
  | c :: rest, cur =>
    if c = ' ' then String.mk cur.reverse :: splitChars rest []
    else splitChars rest (c :: cur)

/-- The call `types.split(' ')`. -/
def split (types : String) : List String := splitChars types.data []

/-- The method `on` (lines 28-46); `on` is a reserved word here, hence `on_`. -/
def on_ (h : Host) (types : Types) (fn context : Arg) : Out :=
  match types with
  | .object own => forEach (fun p h => _on h p.1 p.2 fn) own h
  | .null => Out.done h
  | .string s => forEach (fun t h => _on h t fn context) (split s) h
  | .undefined => Out.throw h

/-- The statement `listeners.splice(i, 1); break` at the first `i` with
`listeners[i].fn === fn`. -/
def removeFirst (fn : Arg) : List Entry → List Entry
  | [] => []
  | e :: rest => if e.fn = fn then rest else e :: removeFirst fn rest

/-- The plain-path loop of `_off` (lines 155-163) on the value `listeners`,
known to be truthy; `none` is a `TypeError`.  On an array the first record
whose `fn` is `fn` is spliced out.  An object or a number has no `length`, so
the loop does not run; an inherited function has a `length` and no element, so
the loop finds nothing.  The elements of a string are characters, whose `fn`
is `undefined`: only `fn === undefined` matches, and a string has no `splice`. -/
def removeListener (listeners : Val) (fn : Arg) : Option Val :=
  match listeners with
  | .array elems props => some (.array (removeFirst fn elems) props)
  | .string s => if fn = .undefined then none else some (.string s)
  | v => some v

/-- The method `_off` (lines 130-166). -/
def _off (h : Host) (type : String) (fn context : Arg) : Out :=
  match h._events with
  | .object events =>
    let indexKey := type ++ "_idx"
    let indexLenKey := type ++ "_len"
    match contextId context with
    | some cid =>
      match stamp fn with
      | none => Out.throw h
      | some fid =>
        let id : Key := ⟨fid, cid⟩
        let listeners := events indexKey
        if truthy listeners && listeners.has id then
          match listeners.setProp id none with
          | none => Out.throw h
          | some listeners2 =>
            let events1 := events.set indexKey listeners2
            Out.done (h.setEvents (events1.set indexLenKey (decrement (events1 indexLenKey))))
        else Out.done h
    | none =>
      let listeners := events type
      if truthy listeners then
        match removeListener listeners fn with
        | none => Out.throw h
        | some listeners2 => Out.done (h.setEvents (events.set type listeners2))
      else Out.done h
  | _ => Out.done h

/-- The statement `this._events = null`; a registry object that was in place is
kept among the detached ones. -/
def Host.clear (h : Host) : Host :=
  match h._events with
  | .object events => { h with _events := .null, detached := h.detached ++ [events] }
  | _ => { h with _events := .null }

/-- The method `off` (lines 101-121). -/
def off (h : Host) (types : Types) (fn context : Arg) : Out :=
  match types with
  | .undefined => Out.done h.clear
  | .null => Out.done h.clear
  | .object own => forEach (fun p h => _off h p.1 p.2 fn) own h
  | .string s =>
    if s = "" then Out.done h.clear
    else forEach (fun t h => _off h t fn context) (split s) h

/-- The method `hasListener` (lines 213-216): the value of
`events && (events[type] || events[type + '_len'])`. -/
def hasListener (h : Host) (type : String) : Val :=
  match h._events with
  | .undefined => .undefined
  | .null => .null
  | .object events => (events type).orElse (events (type ++ "_len"))

/-- The first argument of the calls that `onceHandler` and `once` make with the
`types` the closure captured. -/
def Types.ofCaptured : Option String → Types
  | none => .undefined
  | some s => .string s

/-- The tail of `once` (lines 237-244), reached when `types` is not an object:
a new closure `onceHandler` is created and registered with `on`. -/
def onceHandler (h : Host) (types : Option String) (fn context : Arg) : Out :=
  on_ { h with closures := h.closures + 1 } (Types.ofCaptured types)
    (Arg.onceHandler h.closures types fn context) context

/-- The method `once` (lines 225-245). -/
def once (h : Host) (types : Types) (fn context : Arg) : Out :=
  match types with
  | .object own => forEach (fun p h => onceHandler h (some p.1) p.2 fn) own h
  | .null => Out.done h
  | .string s => onceHandler h (some s) fn context
  | .undefined => onceHandler h none fn context

/-- A call on the host, as made by application code or by a handler body. -/
inductive Call where
  | on_ (types : Types) (fn context : Arg)
  | off (types : Types) (fn context : Arg)
  | once (types : Types) (fn context : Arg)
  | fire (type : String) (data : Obj)
  deriving DecidableEq

/-- The bodies of the user functions: `prog id` lists the calls that
`Arg.function id` makes on the host each time it is invoked. -/
abbrev Prog := Nat → List Call

/-- The invocation `f.call(thisArg, event)`.  A user function runs its body,
each call of it through `run`.  The closure `onceHandler` (lines 237-240) runs
`fn.apply(context, arguments)` and then `that.off(types, onceHandler, context)`.
Anything else is not callable. -/
def invoke (prog : Prog) (run : Call → Host → Out) : Arg → Arg → Obj → Host → Out
  | .function id, thisArg, event, h =>
    let o := forEach run (prog id) h
    ⟨o.host, ⟨.function id, thisArg, event⟩ :: o.calls, o.status, .undefined⟩
  | .onceHandler serial types fn context, thisArg, event, h =>
    let o := (invoke prog run fn context event h).andThen
      (fun h1 => off h1 (Types.ofCaptured types) (.onceHandler serial types fn context) context)
    ⟨o.host, ⟨.onceHandler serial types fn context, thisArg, event⟩ :: o.calls, o.status, .undefined⟩
  | _, _, _, h => Out.throw h

/-- The expression `events[type].slice()` followed by the first read
`listeners[0].fn.call`, on a truthy value; `none` is a `TypeError`: an object,
a number and an inherited function have no `slice`, and the first character of
a (non-empty) string has no `fn`. -/
def snapshot : Val → Option (List Entry)
  | .array elems _ => some elems
  | _ => none

/-- A key enumerated by `for (id in typeIndex)`. -/
inductive PropKey where
  | index (i : Nat)
  | id (k : Key)
  deriving DecidableEq

/-- The keys of `typeIndex` when the loop starts. -/
def ownKeys : Val → List PropKey
  | .array elems props => (List.range elems.length).map PropKey.index ++ props.map (fun p => PropKey.id p.1)
  | .object props => props.map (fun p => PropKey.id p.1)
  | .inherited _ props => props.map (fun p => PropKey.id p.1)
  | _ => []

/-- The read `typeIndex[id]` guarded by `typeIndex.hasOwnProperty(id)`:
`none` when the property is not (or no longer) there, `some none` for `null`. -/
def Val.getOwn (v : Val) : PropKey → Option (Option Entry)
  | .index i => match v with
    | .array elems _ => (elems.get? i).map some
    | _ => none
  | .id k => match v with
    | .array _ props => lookup k props
    | .object props => lookup k props
    | .inherited _ props => lookup k props
    | _ => none

/-- The registry object created as the `addr`-th one: a detached one, or the
one in place. -/
def Host.objectAt (h : Host) (addr : Nat) : Events :=
  if addr < h.detached.length then h.detached.getD addr Events.empty else h.eventsOrNew

/-- The present state of the value that `fire` holds in `typeIndex`: an array,
object or function is shared with the registry object it was read from, a
primitive is a copy. -/
def typeIndexNow (h : Host) (addr : Nat) (indexKey : String) (captured : Val) : Val :=
  match captured with
  | .array _ _ => h.objectAt addr indexKey
  | .object _ => h.objectAt addr indexKey
  | .inherited _ _ => h.objectAt addr indexKey
  | v => v

/-- One turn of the loop of lines 198-202. -/
def visit (prog : Prog) (run : Call → Host → Out) (addr : Nat) (indexKey : String)
    (captured : Val) (event : Obj) (k : PropKey) (h : Host) : Out :=
  match (typeIndexNow h addr indexKey captured).getOwn k with
  | none => Out.done h
  | some none => Out.throw h
  | some (some e) => invoke prog run e.fn e.ctx event h

/-- The loop of lines 198-202.  A non-empty string enumerates its characters,
none of which has a `fn`. -/
def forIn (prog : Prog) (run : Call → Host → Out) (addr : Nat) (indexKey : String)
    (captured : Val) (event : Obj) (h : Host) : Out :=
  match captured with
  | .string s => if s = "" then Out.done h else Out.throw h
  | _ => forEach (visit prog run addr indexKey captured event)
      (ownKeys (typeIndexNow h addr indexKey captured)) h

/-- The method `fire` (lines 174-206). -/
def fire (prog : Prog) (run : Call → Host → Out) (h : Host) (type : String) (data : Obj) : Out :=
  if !truthy (hasListener h type) then Out.done h
  else
    let event := extend [] [data, [("type", .string type), ("target", .host)]]
    match h._events with
    | .object events =>
      let addr := h.detached.length
      let typeIndex := events (type ++ "_idx")
      let plain :=
        if truthy (events type) then
          match snapshot (events type) with
          | none => Out.throw h
          | some listeners => forEach (fun e h => invoke prog run e.fn .host event h) listeners h
        else Out.done h
      let o := plain.andThen (forIn prog run addr (type ++ "_idx") typeIndex event)
      { o with ret := match o.status with
        | .ok => .host
        | _ => .undefined }
    | _ => ⟨h, [], .ok, .undefined⟩

/-- One call, the calls made by handler bodies going through `run`. -/
def step (prog : Prog) (run : Call → Host → Out) (c : Call) (h : Host) : Out :=
  match c with
  | .on_ types fn context => on_ h types fn context
  | .off types fn context => off h types fn context
  | .once types fn context => once h types fn context
  | .fire type data => fire prog run h type data

/-- The interpreter: `fuel` bounds the depth to which handler bodies nest. -/
def exec (prog : Prog) : Nat → Call → Host → Out
  | 0 => fun _ h => ⟨h, [], .outOfFuel, .undefined⟩
  | fuel + 1 => step prog (exec prog fuel)

/-- A sequence of calls made by application code. -/
def run (prog : Prog) (fuel : Nat) (calls : List Call) (h : Host) : Out :=
  forEach (exec prog fuel) calls h

/-- A program table in which no user function calls the host. -/
def inert : Prog := fun _ => []

/-- The context argument is absent or is the host: the plain path. -/
def Arg.isPlainContext : Arg → Bool
  | .undefined => true
  | .host => true
  | _ => false

/-- The call is `on(T, f)` or `off(T, f)` for the type `T`, with no context or
with the host as context. -/
def Call.plainOnOff (T : String) : Call → Bool
  | .on_ (.string s) _ context => s == T && context.isPlainContext
  | .off (.string s) _ context => s == T && context.isPlainContext
  | _ => false

/-- A program table for the snapshot scenario: function 1 removes function 2
from `click` and registers function 3 for it; the other functions do nothing. -/
def snapshotDemo : Prog := fun id =>
  if id = 1 then
    [.off (.string "click") (.function 2) .undefined,
     .on_ (.string "click") (.function 3) .undefined]
  else []

/-- A program table for a handler that unregisters another one: the body of
function 1 is `off('click', f2, c)` for the function 2 and the object 7. -/
def unregisterDemo : Prog := fun id =>
  if id = 1 then [.off (.string "click") (.function 2) (.object 7)] else []

/-- The name does not end in `_idx` or `_len`, the two suffixes that the code
appends to a type name to build the keys of the indexed path. -/
def plainName (t : String) : Bool :=
  !("_idx".data.isSuffixOf t.data) && !("_len".data.isSuffixOf t.data)

/-- The number of non-null entries of an indexed mapping, 0 when absent. -/
def liveCount : Val → Nat
  | .array _ props => (props.filter fun p => p.2.isSome).length
  | .object props => (props.filter fun p => p.2.isSome).length
  | .inherited _ props => (props.filter fun p => p.2.isSome).length
  | _ => 0

/-- The stored count, taken as 0 when absent. -/
def countOf : Val → Val
  | .undefined => .number 0
  | v => v

/-- The counter invariant for the type `T`: the value stored under `T_len`
(0 when absent) is the number of non-null entries stored under `T_idx`. -/
def CountInvariant (events : Events) (T : String) : Prop :=
  countOf (events (T ++ "_len")) = .number (liveCount (events (T ++ "_idx")))

/-- The listener records held by a stored value. -/
def entriesOf : Val → List Entry
  | .array elems props => elems ++ props.filterMap Prod.snd
  | .object props => props.filterMap Prod.snd
  | .inherited _ props => props.filterMap Prod.snd
  | _ => []

/-- The type string `'T1 T2 ... Tn'`: the names joined by single spaces. -/
def typesString : List String → String
  | [] => ""
  | [t] => t
  | t :: rest => t ++ " " ++ typesString rest

/-- The call is a call of `fire`. -/
def Call.isFire : Call → Bool
  | .fire _ _ => true
  | _ => false

/-- No record of the sequence stored under a type has the handler `fn`. -/
def Val.lacks (v : Val) (fn : Arg) : Bool :=
  match v with
  | .array elems _ => elems.all fun e => e.fn != fn
  | _ => true

/-- No live entry is stored on the host for `(type, fn)` on the plain path,
respectively for `(type, fn, context)` on the indexed path. -/
def absent (h : Host) (type : String) (fn context : Arg) : Bool :=
  match contextId context with
  | some cid => !(h.eventsOrNew (type ++ "_idx")).has ⟨fn, cid⟩
  | none => (h.eventsOrNew type).lacks fn

/-- A program table for a handler that dispatches another type: the body of
function 1 is `fire('t')`, the body of function 3 is `on('u', f4, c)` for the
function 4 and the object 9; the other functions do nothing. -/
def reentrantDemo : Prog := fun id =>
  if id = 1 then [.fire "t" []]
  else if id = 3 then [.on_ (.string "u") (.function 4) (.object 9)]
  else []

/-- A program table for a handler that registers itself: the body of function
1 is `on('t', f1)`; the other functions do nothing. -/
def reregisterDemo : Prog := fun id =>
  if id = 1 then [.on_ (.string "t") (.function 1) .undefined] else []

end CustomEvent

/-!
# The usage statistics of `src/src/js/request.js`

The browser is explicit state: the host name, the flag `tui.usageStatistics`,
the local storage and the clock.  A stored timestamp is kept by the browser as
the decimal string of a number and is modelled by that number, and the clock
readings of one call are taken at the same instant `now`.
-/

namespace Request

/-- The table `trackingIdMap` (lines 12-19). -/
def trackingIdMap : List (String × String) :=
  [("editor", "UA-129966929-1"), ("grid", "UA-129951906-1"), ("calendar", "UA-129951699-1"),
   ("chart", "UA-129983528-1"), ("image-editor", "UA-129999381-1"),
   ("component", "UA-129987462-1")]

/-- The constant `ms7days` (line 20). -/
def ms7days : Int := 7 * 24 * 60 * 60 * 1000

/-- The function `isExpired` (lines 28-32); `now` is `new Date().getTime()`. -/
def isExpired (now : Int) (date : Int) : Bool :=
  decide (now - date > ms7days)

/-- The value of `tui.usageStatistics`. -/
inductive Flag where
  | undefined
  | boolean (b : Bool)
  | other
  deriving DecidableEq

/-- The state of the browser that `sendHostname` reads. -/
structure Browser where
  hostname : String
  usageStatistics : Flag
  localStorage : String → Option Int
  now : Int

/-- The arguments that the scheduled callback passes to `imagePing`:
`trackingInfo` lists the own properties in order, numbers in decimal. -/
structure Ping where
  url : String
  trackingInfo : List (String × String)
  deriving DecidableEq

/-- What a call of `sendHostname` leaves: the local storage, and the callback
handed to `setTimeout`, if any (it pings when the document is `interactive`
or `complete` a second later). -/
structure Sent where
  localStorage : String → Option Int
  scheduled : Option Ping

/-- The read `trackingIdMap[applicationId]` as the string it enters the query
with, `none` when it is `undefined`: the table is a plain object, so a name
that it inherits reads as a built-in function, which is truthy. -/
def trackingIdOf (applicationId : String) : Option String :=
  match trackingIdMap.find? fun p => p.1 == applicationId with
  | some p => some p.2
  | none =>
    if CustomEvent.inherited applicationId then some (CustomEvent.inheritedText applicationId)
    else none

/-- The key `applicationKeyForStorage` (line 46). -/
def applicationKeyForStorage (hostname applicationId : String) : String :=
  "TOAST UI " ++ applicationId ++ " for " ++ hostname ++ ": Statistics"

/-- The call `window.localStorage.setItem(key, value)`. -/
def setItem (storage : String → Option Int) (key : String) (value : Int) : String → Option Int :=
  fun k => if k = key then some value else storage k

/-- The function `sendHostname` (lines 40-75). -/
def sendHostname (b : Browser) (applicationId : String) : Sent :=
  let url := "https://www.google-analytics.com/collect"
  let hostname := b.hostname
  let hitType := "event"
  let eventCategory := "use"
  let trackingId := (trackingIdOf applicationId).getD "UA-129987462-1"
  let key := applicationKeyForStorage hostname applicationId
  let date := b.localStorage key
  if b.usageStatistics = .boolean false then ⟨b.localStorage, none⟩
  else
    match date with
    | some d =>
      if !isExpired b.now d then ⟨b.localStorage, none⟩
      else ⟨setItem b.localStorage key b.now,
        some ⟨url, [("v", "1"), ("t", hitType), ("tid", trackingId), ("cid", hostname),
          ("dp", hostname), ("dh", applicationId), ("el", applicationId),
          ("ec", eventCategory)]⟩⟩
    | none =>
      ⟨setItem b.localStorage key b.now,
        some ⟨url, [("v", "1"), ("t", hitType), ("tid", trackingId), ("cid", hostname),
          ("dp", hostname), ("dh", applicationId), ("el", applicationId),
          ("ec", eventCategory)]⟩⟩

/-- The read `trackingInfo[key]` as `+` converts it to a string: the value of
the first property of that name, `undefined` for an absent one. -/
def getInfo (trackingInfo : List (String × String)) (key : String) : String :=
  match trackingInfo.find? fun p => p.1 == key with
  | some p => p.2
  | none => "undefined"

/-- The element that `imagePing` creates and returns.  It is appended to the
document body and removed from it at once, so the body is left as it was. -/
structure Element where
  src : String
  display : String
  deriving DecidableEq

/-- The function `imagePing` (lines 96-110).  The helpers `object.keys` and
`collection.map` belong to modules that are not among the sources: they are
the parameters `keys` and `map`; the iteratee is called with an element and
its index. -/
def imagePing (keys : List (String × String) → List String)
    (map : List String → (String → Nat → String) → List String)
    (url : String) (trackingInfo : List (String × String)) : Element :=
  let queryString := String.join (map (keys trackingInfo) fun key index =>
    let startWith := if index = 0 then "" else "&"
    startWith ++ key ++ "=" ++ getInfo trackingInfo key)
  ⟨url ++ "?" ++ queryString, "none"⟩

/-- The query string `k1=v1&k2=v2&...&kn=vn` of a list of properties: the
pairs `k=v` with one `&` between two of them, the empty string for no pair. -/
def queryOf : List (String × String) → String
  | [] => ""
  | [p] => p.1 ++ "=" ++ p.2
  | p :: rest => p.1 ++ "=" ++ p.2 ++ "&" ++ queryOf rest

/-- The own property names of an object in enumeration order: what
`object.keys` is taken to return. -/
def propertyNames (trackingInfo : List (String × String)) : List String :=
  trackingInfo.map Prod.fst

/-- The array `[f(a0, 0), f(a1, 1), ...]`: what `collection.map` is taken to
return for an array. -/
def mapWithIndex (arr : List String) (f : String → Nat → String) : List String :=
  arr.enum.map fun p => f p.2 p.1

end Request

/-! # Theorems -/

namespace CustomEvent

/-! ## Keys of the registry object -/

theorem idx_ne_len (a b : String) : a ++ "_idx" ≠ b ++ "_len" := by
  intro h
  have h2 := congrArg (fun s => s.data.reverse) h
  simp [String.data_append] at h2

theorem len_ne_idx (a b : String) : a ++ "_len" ≠ b ++ "_idx" :=
  fun h => idx_ne_len b a h.symm

theorem ne_append_idx (a : String) : a ≠ a ++ "_idx" := by
  intro h
  have h2 := congrArg (fun s => s.data.length) h
  simp [String.data_append] at h2

theorem ne_append_len (a : String) : a ≠ a ++ "_len" := by
  intro h
  have h2 := congrArg (fun s => s.data.length) h
  simp [String.data_append] at h2

theorem append_idx_ne (a : String) : a ++ "_idx" ≠ a := fun h => ne_append_idx a h.symm

theorem append_len_ne (a : String) : a ++ "_len" ≠ a := fun h => ne_append_len a h.symm

theorem append_right_cancel {a b : String} (s : String) (h : a ++ s = b ++ s) : a = b := by
  have h2 := congrArg String.data h
  simp only [String.data_append] at h2
  exact String.ext (List.append_cancel_right h2)

theorem plainName_ne_idx {t : String} (ht : plainName t = true) (a : String) : t ≠ a ++ "_idx" := by
  intro h
  subst h
  have hs : "_idx".data.isSuffixOf (a ++ "_idx").data = true := by
    rw [String.data_append]
    exact List.isSuffixOf_iff_suffix.2 (List.suffix_append _ _)
  unfold plainName at ht
  rw [hs] at ht
  simp at ht

theorem plainName_ne_len {t : String} (ht : plainName t = true) (a : String) : t ≠ a ++ "_len" := by
  intro h
  subst h
  have hs : "_len".data.isSuffixOf (a ++ "_len").data = true := by
    rw [String.data_append]
    exact List.isSuffixOf_iff_suffix.2 (List.suffix_append _ _)
  unfold plainName at ht
  rw [hs] at ht
  simp at ht

theorem idx_inj {a b : String} : a ++ "_idx" = b ++ "_idx" ↔ a = b :=
  ⟨append_right_cancel "_idx", fun h => by rw [h]⟩

theorem len_inj {a b : String} : a ++ "_len" = b ++ "_len" ↔ a = b :=
  ⟨append_right_cancel "_len", fun h => by rw [h]⟩

/-- No inherited name ends in `_idx` or `_len`. -/
theorem plainName_of_inherited {n : String} (h : inherited n = true) : plainName n = true := by
  simp only [inherited, inheritedNames, List.contains_cons, List.contains_nil, Bool.or_false,
    Bool.or_eq_true, beq_iff_eq] at h
  rcases h with h | h | h | h | h | h | h | h | h | h | h | h <;> subst h <;> decide

@[simp] theorem inherited_idx (T : String) : inherited (T ++ "_idx") = false := by
  cases h : inherited (T ++ "_idx") with
  | false => rfl
  | true => exact absurd rfl (plainName_ne_idx (plainName_of_inherited h) T)

@[simp] theorem inherited_len (T : String) : inherited (T ++ "_len") = false := by
  cases h : inherited (T ++ "_len") with
  | false => rfl
  | true => exact absurd rfl (plainName_ne_len (plainName_of_inherited h) T)

@[simp] theorem Events.empty_idx (T : String) : Events.empty (T ++ "_idx") = .undefined := by
  simp [Events.empty]

@[simp] theorem Events.empty_len (T : String) : Events.empty (T ++ "_len") = .undefined := by
  simp [Events.empty]

theorem Events.empty_of_not_inherited {k : String} (h : inherited k = false) :
    Events.empty k = .undefined := by
  simp [Events.empty, h]

theorem truthy_empty_slot {k : String} (h : inherited k = false) :
    truthy (Events.empty k) = false := by
  rw [Events.empty_of_not_inherited h]; rfl

theorem Events.empty_of_inherited {k : String} (h : inherited k = true) :
    Events.empty k = .inherited k [] := by
  simp [Events.empty, h]

@[simp] theorem inherited_empty_name : inherited "" = false := by decide

@[simp] theorem roundNumber_zero : roundNumber 0 = .number 0 := by decide

@[simp] theorem roundNumber_one : roundNumber 1 = .number 1 := by decide

theorem roundNumber_of_small {n : Int} (h : n.natAbs < 2 ^ 53) : roundNumber n = .number n := by
  rw [roundNumber]
  exact if_pos h

@[simp] theorem Events.set_same (events : Events) (k : String) (v : Val) :
    events.set k v k = v := by
  simp [Events.set]

theorem Events.set_other (events : Events) {k k' : String} (v : Val) (h : k' ≠ k) :
    events.set k v k' = events k' := by
  simp [Events.set, h]

theorem Events.set_set (events : Events) (k : String) (v w : Val) :
    (events.set k v).set k w = events.set k w := by
  funext k'
  by_cases h : k' = k <;> simp [Events.set, h]

theorem Events.set_self (events : Events) (k : String) :
    events.set k (events k) = events := by
  funext k'
  by_cases h : k' = k <;> simp [Events.set, h]

/-- A string without a space is one type name. -/
theorem splitChars_single (l cur : List Char) (h : ' ' ∉ l) :
    splitChars l cur = [String.mk (cur.reverse ++ l)] := by
  induction l generalizing cur with
  | nil => simp [splitChars]
  | cons c rest ih =>
    have hc : c ≠ ' ' := fun e => h (by simp [e])
    have hr : ' ' ∉ rest := fun e => h (by simp [e])
    simp [splitChars, hc, ih _ hr]

theorem split_single (T : String) (h : ' ' ∉ T.data) : split T = [T] := by
  simp [split, splitChars_single _ _ h]

theorem Out.andThen_done (o : Out) (h : o.status = .ok → o.ret = .host) :
    o.andThen Out.done = o := by
  cases o with
  | mk host calls status ret =>
    cases status <;> simp_all [Out.andThen, Out.done]

theorem forEach_single {α : Type} (f : α → Host → Out) (a : α) (h : Host)
    (hr : (f a h).status = .ok → (f a h).ret = .host) : forEach f [a] h = f a h := by
  simp only [forEach]
  exact Out.andThen_done _ hr

theorem _on_ret (h : Host) (T : String) (fn ctx : Arg) :
    (_on h T fn ctx).status = .ok → (_on h T fn ctx).ret = .host := by
  unfold _on
  simp only
  split
  · split
    · simp [Out.throw]
    · split
      · split <;> simp [Out.throw, Out.done]
      · simp [Out.done]
  · split <;> simp [Out.throw, Out.done]

theorem on_single (h : Host) (T : String) (fn ctx : Arg) (hT : ' ' ∉ T.data) :
    on_ h (.string T) fn ctx = _on h T fn ctx := by
  simp only [on_, split_single T hT]
  exact forEach_single _ _ _ (_on_ret h T fn ctx)

@[simp] theorem truthy_orElse_object (x : Val) (l : List (Key × Option Entry)) :
    truthy (x.orElse (.object l)) = true := by
  unfold Val.orElse
  split
  · assumption
  · rfl

theorem orElse_of_truthy {x : Val} (y : Val) (h : truthy x = true) : x.orElse y = x := by
  simp [Val.orElse, h]

theorem orElse_of_not_truthy {x : Val} (y : Val) (h : truthy x = false) : x.orElse y = y := by
  simp [Val.orElse, h]

@[simp] theorem lookup_assign_same (k : Key) (v : Option Entry) (l : List (Key × Option Entry)) :
    lookup k (assign k v l) = some v := by
  induction l with
  | nil => simp [assign, lookup]
  | cons p rest ih =>
    obtain ⟨k', v'⟩ := p
    by_cases hk : k' = k <;> simp [assign, lookup, hk, ih]

theorem lookup_assign_other {k k' : Key} (v : Option Entry) (l : List (Key × Option Entry))
    (h : k' ≠ k) : lookup k' (assign k v l) = lookup k' l := by
  induction l with
  | nil => simp [assign, lookup, Ne.symm h]
  | cons p rest ih =>
    obtain ⟨k2, v2⟩ := p
    by_cases hk : k2 = k
    · subst hk
      simp [assign, lookup, Ne.symm h]
    · by_cases hk' : k2 = k'
      · subst hk'
        simp [assign, lookup, hk]
      · simp [assign, lookup, hk, hk', ih]

@[simp] theorem Host.eventsOrNew_setEvents (h : Host) (ev : Events) :
    (h.setEvents ev).eventsOrNew = ev := rfl

@[simp] theorem Host.setEvents_setEvents (h : Host) (a b : Events) :
    (h.setEvents a).setEvents b = h.setEvents b := rfl

@[simp] theorem Host.setEvents_events (h : Host) (a : Events) :
    (h.setEvents a)._events = .object a := rfl

@[simp] theorem Host.setEvents_detached (h : Host) (a : Events) :
    (h.setEvents a).detached = h.detached := rfl

@[simp] theorem Host.setEvents_closures (h : Host) (a : Events) :
    (h.setEvents a).closures = h.closures := rfl

theorem invoke_inert (prog : Prog) (run : Call → Host → Out) (a : Nat) (th : Arg) (event : Obj)
    (h : Host) (ha : prog a = []) :
    invoke prog run (.function a) th event h = ⟨h, [⟨.function a, th, event⟩], .ok, .undefined⟩ := by
  simp [invoke, ha, forEach, Out.done]

theorem forEach_inert {α : Type} (f : α → Host → Out) (g : α → Invocation) (xs : List α) (h : Host)
    (hf : ∀ x ∈ xs, ∃ r, f x h = ⟨h, [g x], .ok, r⟩) :
    forEach f xs h = ⟨h, xs.map g, .ok, .host⟩ := by
  induction xs with
  | nil => rfl
  | cons x rest ih =>
    obtain ⟨r, hx⟩ := hf x (by simp)
    have ih2 := ih (fun y hy => hf y (by simp [hy]))
    simp [forEach, hx, Out.andThen, ih2]

theorem lookup_of_mem_nodup (props : List (Key × Option Entry))
    (hnd : (props.map Prod.fst).Nodup) (p : Key × Option Entry) (hp : p ∈ props) :
    lookup p.1 props = some p.2 := by
  induction props with
  | nil => cases hp
  | cons q rest ih =>
    obtain ⟨k, v⟩ := q
    simp only [List.map_cons, List.nodup_cons] at hnd
    rcases List.mem_cons.1 hp with e | hr
    · subst e; simp [lookup]
    · have hne : k ≠ p.1 := by
        intro e
        apply hnd.1
        rw [e]
        exact List.mem_map_of_mem _ hr
      simp [lookup, hne, ih hnd.2 hr]

theorem forEach_map {α β : Type} (f : β → Host → Out) (m : α → β) (xs : List α) (h : Host) :
    forEach f (xs.map m) h = forEach (fun x => f (m x)) xs h := by
  induction xs generalizing h with
  | nil => rfl
  | cons x rest ih =>
    simp only [List.map_cons, forEach]
    congr 1
    funext h1
    exact ih h1

theorem Host.objectAt_self (h : Host) : h.objectAt h.detached.length = h.eventsOrNew := by
  simp [Host.objectAt]

theorem Host.eventsOrNew_of_object {h : Host} {ev : Events} (hev : h._events = .object ev) :
    h.eventsOrNew = ev := by
  simp [Host.eventsOrNew, hev]

theorem forIn_of_shape (prog : Prog) (run : Call → Host → Out) (h : Host) (ev : Events)
    (key : String) (event : Obj) (props : List (Key × Entry))
    (hev : h._events = .object ev)
    (hidx : ev key = .object (props.map fun p => (p.1, some p.2))
      ∨ (ev key = .undefined ∧ props = []))
    (hnd : (props.map Prod.fst).Nodup)
    (hprops : ∀ p ∈ props, ∃ a, p.2.fn = .function a ∧ prog a = []) :
    forIn prog run h.detached.length key (ev key) event h
      = ⟨h, props.map (fun p => ⟨p.2.fn, p.2.ctx, event⟩), .ok, .host⟩ := by
  rcases hidx with hidx | ⟨hidx, hnil⟩
  · have hnow : typeIndexNow h h.detached.length key (ev key) = ev key := by
      rw [hidx]
      simp [typeIndexNow, Host.objectAt_self, Host.eventsOrNew_of_object hev, hidx]
    rw [hidx] at hnow
    simp only [forIn, hidx, hnow, ownKeys]
    rw [List.map_map, forEach_map]
    apply forEach_inert
    intro p hp
    obtain ⟨a, hfn, ha⟩ := hprops p hp
    have hnd2 : ((props.map fun p => (p.1, some p.2)).map Prod.fst).Nodup := by
      simpa [List.map_map, Function.comp_def] using hnd
    have hl := lookup_of_mem_nodup _ hnd2 (p.1, some p.2) (List.mem_map_of_mem _ hp)
    refine ⟨.undefined, ?_⟩
    simp only [Function.comp, visit, hnow, Val.getOwn, hl, hfn]
    exact invoke_inert prog run a _ event h ha
  · subst hnil
    simp [forIn, hidx, typeIndexNow, ownKeys, forEach, Out.done]

theorem fire_of_shape (prog : Prog) (run : Call → Host → Out) (h : Host) (ev : Events)
    (T : String) (data : Obj) (l : List Entry) (props : List (Key × Entry))
    (hev : h._events = .object ev)
    (hl : ev T = .array l [] ∨ (ev T = .undefined ∧ l = []))
    (hidx : ev (T ++ "_idx") = .object (props.map fun p => (p.1, some p.2))
      ∨ (ev (T ++ "_idx") = .undefined ∧ props = []))
    (hlen : truthy (ev (T ++ "_len")) = true ∨ props = [])
    (hnd : (props.map Prod.fst).Nodup)
    (hprops : ∀ p ∈ props, ∃ a, p.2.fn = .function a ∧ prog a = [])
    (hplain : ∀ e ∈ l, ∃ a, e.fn = .function a ∧ prog a = []) :
    fire prog run h T data = ⟨h,
      l.map (fun e => ⟨e.fn, .host, extend [] [data, [("type", .string T), ("target", .host)]]⟩)
      ++ props.map (fun p => ⟨p.2.fn, p.2.ctx,
          extend [] [data, [("type", .string T), ("target", .host)]]⟩), .ok, .host⟩ := by
  have hfor := forIn_of_shape prog run h ev (T ++ "_idx")
    (extend [] [data, [("type", .string T), ("target", .host)]]) props hev hidx hnd hprops
  have hplainrun : forEach (fun e h =>
      invoke prog run e.fn .host (extend [] [data, [("type", .string T), ("target", .host)]]) h) l h
      = ⟨h, l.map (fun e => ⟨e.fn, .host,
          extend [] [data, [("type", .string T), ("target", .host)]]⟩), .ok, .host⟩ := by
    apply forEach_inert
    intro e he
    obtain ⟨a, hfn, ha⟩ := hplain e he
    exact ⟨.undefined, by rw [hfn]; exact invoke_inert prog run a _ _ h ha⟩
  by_cases hhas : truthy (hasListener h T) = true
  · have hfire : fire prog run h T data = fire prog run h T data := rfl
    conv at hfire => rhs; unfold fire
    simp only [hhas, Bool.not_true, Bool.false_eq_true, if_false, hev] at hfire
    rw [hfire]
    rcases hl with hl | ⟨hl, hnil⟩
    · simp [hl, truthy, snapshot, hplainrun, Out.andThen, hfor]
    · subst hnil
      simp [hl, truthy, Out.done, Out.andThen, hfor]
  · have hT : truthy (ev T) = false := by
      simp only [hasListener, hev, Val.orElse] at hhas
      split at hhas
      · exact absurd (by assumption) hhas
      · simpa using (by assumption : ¬ truthy (ev T) = true)
    have hL : truthy (ev (T ++ "_len")) = false := by
      simp only [hasListener, hev, Val.orElse, hT] at hhas
      simpa using hhas
    have hp : props = [] := by
      rcases hlen with hlen | hlen
      · rw [hL] at hlen; cases hlen
      · exact hlen
    have hl2 : l = [] := by
      rcases hl with hl | ⟨_, hl⟩
      · rw [hl] at hT; simp [truthy] at hT
      · exact hl
    subst hp hl2
    simp [fire, hhas, Out.done]

@[simp] theorem Out.done_andThen (h : Host) (k : Host → Out) : (Out.done h).andThen k = k h := by
  simp [Out.andThen, Out.done]

@[simp] theorem Out.throw_andThen (h : Host) (k : Host → Out) :
    (Out.throw h).andThen k = Out.throw h := by
  simp [Out.andThen, Out.throw]

theorem contextId_none_of {ctx : Arg} (h : ctx = .undefined ∨ ctx = .host) : contextId ctx = none := by
  rcases h with h | h <;> subst h <;> rfl

theorem _on_plain_array (h : Host) (T : String) (fn ctx : Arg) (l : List Entry)
    (p : List (Key × Option Entry)) (hctx : contextId ctx = none)
    (hslot : h.eventsOrNew T = .array l p) :
    _on h T fn ctx
      = Out.done (h.setEvents (h.eventsOrNew.set T (.array (l ++ [⟨fn, .undefined⟩]) p))) := by
  simp [_on, hctx, hslot, Val.orElse, truthy, Val.push, Events.set_set]

theorem _on_plain_absent (h : Host) (T : String) (fn ctx : Arg) (hctx : contextId ctx = none)
    (hslot : truthy (h.eventsOrNew T) = false) :
    _on h T fn ctx
      = Out.done (h.setEvents (h.eventsOrNew.set T (.array [⟨fn, .undefined⟩] []))) := by
  simp [_on, hctx, hslot, Val.orElse, Val.push, Events.set_set]

theorem exec_on (prog : Prog) (fuel : Nat) (types : Types) (fn ctx : Arg) (h : Host) :
    exec prog (fuel + 1) (.on_ types fn ctx) h = on_ h types fn ctx := rfl

theorem exec_off (prog : Prog) (fuel : Nat) (types : Types) (fn ctx : Arg) (h : Host) :
    exec prog (fuel + 1) (.off types fn ctx) h = off h types fn ctx := rfl

theorem exec_once (prog : Prog) (fuel : Nat) (types : Types) (fn ctx : Arg) (h : Host) :
    exec prog (fuel + 1) (.once types fn ctx) h = once h types fn ctx := rfl

theorem exec_fire (prog : Prog) (fuel : Nat) (T : String) (data : Obj) (h : Host) :
    exec prog (fuel + 1) (.fire T data) h = fire prog (exec prog fuel) h T data := rfl

theorem run_cons (prog : Prog) (fuel : Nat) (c : Call) (cs : List Call) (h : Host) :
    run prog fuel (c :: cs) h = (exec prog fuel c h).andThen (run prog fuel cs) := rfl

theorem run_nil (prog : Prog) (fuel : Nat) (h : Host) : run prog fuel [] h = Out.done h := rfl

theorem Out.andThen_assoc (o : Out) (k1 k2 : Host → Out) :
    (o.andThen k1).andThen k2 = o.andThen (fun h => (k1 h).andThen k2) := by
  cases o with
  | mk host calls status ret =>
    cases status
    · simp only [Out.andThen]
      cases hs : (k1 host).status <;> simp [hs, List.append_assoc]
    · simp [Out.andThen]
    · simp [Out.andThen]

theorem forEach_append {α : Type} (f : α → Host → Out) (xs ys : List α) (h : Host) :
    forEach f (xs ++ ys) h = (forEach f xs h).andThen (forEach f ys) := by
  induction xs generalizing h with
  | nil => simp [forEach]
  | cons x rest ih =>
    simp only [List.cons_append, forEach, Out.andThen_assoc]
    congr 1
    funext h1
    exact ih h1

theorem run_append (prog : Prog) (fuel : Nat) (xs ys : List Call) (h : Host) :
    run prog fuel (xs ++ ys) h = (run prog fuel xs h).andThen (run prog fuel ys) :=
  forEach_append _ xs ys h

theorem _off_ret (h : Host) (T : String) (fn ctx : Arg) :
    (_off h T fn ctx).status = .ok → (_off h T fn ctx).ret = .host := by
  unfold _off
  split
  · simp only
    split
    · split
      · simp [Out.throw]
      · split
        · split <;> simp [Out.throw, Out.done]
        · simp [Out.done]
    · split
      · split <;> simp [Out.throw, Out.done]
      · simp [Out.done]
  · simp [Out.done]

theorem off_single (h : Host) (T : String) (fn ctx : Arg) (hT : ' ' ∉ T.data) (hne : T ≠ "") :
    off h (.string T) fn ctx = _off h T fn ctx := by
  simp only [off, hne, if_false, split_single T hT]
  exact forEach_single _ _ _ (_off_ret h T fn ctx)

theorem removeFirst_append (fn : Arg) (pre : List Entry) (e : Entry) (post : List Entry)
    (he : e.fn = fn) (hpre : ∀ x ∈ pre, x.fn ≠ fn) :
    removeFirst fn (pre ++ e :: post) = pre ++ post := by
  induction pre with
  | nil => simp [removeFirst, he]
  | cons x rest ih =>
    have hx : x.fn ≠ fn := hpre x (by simp)
    simp [removeFirst, hx, ih (fun y hy => hpre y (by simp [hy]))]

theorem forEach_quiet {α : Type} (P : Host → Prop) (f : α → Host → Out) (xs : List α)
    (hf : ∀ x ∈ xs, ∀ h, P h → ∃ h1 r, f x h = ⟨h1, [], .ok, r⟩ ∧ P h1) :
    ∀ h, P h → ∃ h1, forEach f xs h = ⟨h1, [], .ok, .host⟩ ∧ P h1 := by
  induction xs with
  | nil => intro h hP; exact ⟨h, rfl, hP⟩
  | cons x rest ih =>
    intro h hP
    obtain ⟨h1, r, hx, hP1⟩ := hf x (by simp) h hP
    obtain ⟨h2, hrest, hP2⟩ := ih (fun y hy => hf y (by simp [hy])) h1 hP1
    exact ⟨h2, by simp [forEach, hx, Out.andThen, hrest], hP2⟩

theorem forEach_invoke {α : Type} (P : Host → Prop) (f : α → Host → Out) (g : α → Invocation)
    (xs : List α)
    (hf : ∀ x ∈ xs, ∀ h, P h → ∃ h1 r, f x h = ⟨h1, [g x], .ok, r⟩ ∧ P h1) :
    ∀ h, P h → ∃ h1, forEach f xs h = ⟨h1, xs.map g, .ok, .host⟩ ∧ P h1 := by
  induction xs with
  | nil => intro h hP; exact ⟨h, rfl, hP⟩
  | cons x rest ih =>
    intro h hP
    obtain ⟨h1, r, hx, hP1⟩ := hf x (by simp) h hP
    obtain ⟨h2, hrest, hP2⟩ := ih (fun y hy => hf y (by simp [hy])) h1 hP1
    exact ⟨h2, by simp [forEach, hx, Out.andThen, hrest], hP2⟩

/-- The slot of `T` holds nothing truthy or an array. -/
theorem plainOnOff_step (prog : Prog) (fuel : Nat) (T : String) (hT : ' ' ∉ T.data) (c : Call)
    (hc : c.plainOnOff T = true) (h : Host)
    (hP : truthy (h.eventsOrNew T) = false ∨ ∃ l p, h.eventsOrNew T = .array l p) :
    ∃ h1 r, exec prog (fuel + 1) c h = ⟨h1, [], .ok, r⟩
      ∧ (truthy (h1.eventsOrNew T) = false ∨ ∃ l p, h1.eventsOrNew T = .array l p) := by
  cases c with
  | on_ types fn ctx =>
    cases types with
    | string s =>
      simp only [Call.plainOnOff, Bool.and_eq_true, beq_iff_eq] at hc
      obtain ⟨hs, hctx⟩ := hc
      subst hs
      have hcid : contextId ctx = none := by cases ctx <;> simp_all [Arg.isPlainContext, contextId, Arg.truthy, stamp]
      rw [exec_on, on_single _ _ _ _ hT]
      rcases hP with hP | ⟨l, p, hP⟩
      · rw [_on_plain_absent h s fn ctx hcid hP]
        exact ⟨_, .host, rfl, Or.inr ⟨[⟨fn, .undefined⟩], [], by simp⟩⟩
      · rw [_on_plain_array h s fn ctx l p hcid hP]
        exact ⟨_, .host, rfl, Or.inr ⟨l ++ [⟨fn, .undefined⟩], p, by simp⟩⟩
    | _ => simp [Call.plainOnOff] at hc
  | off types fn ctx =>
    cases types with
    | string s =>
      simp only [Call.plainOnOff, Bool.and_eq_true, beq_iff_eq] at hc
      obtain ⟨hs, hctx⟩ := hc
      subst hs
      have hcid : contextId ctx = none := by cases ctx <;> simp_all [Arg.isPlainContext, contextId, Arg.truthy, stamp]
      rw [exec_off]
      by_cases hne : s = ""
      · subst hne
        refine ⟨h.clear, .host, by simp [off, Out.done], Or.inl ?_⟩
        cases hev : h._events <;> simp [Host.clear, hev, Host.eventsOrNew, Events.empty, truthy]
      · rw [off_single h s fn ctx hT hne]
        cases hev : h._events with
        | undefined => exact ⟨h, .host, by simp [_off, hev, Out.done], hP⟩
        | null => exact ⟨h, .host, by simp [_off, hev, Out.done], hP⟩
        | object ev =>
          have hor : h.eventsOrNew = ev := Host.eventsOrNew_of_object hev
          rw [hor] at hP
          rcases hP with hP | ⟨l, p, hP⟩
          · exact ⟨h, .host, by simp [_off, hev, hcid, hP, Out.done],
              Or.inl (by rw [hor]; exact hP)⟩
          · exact ⟨h.setEvents (ev.set s (.array (removeFirst fn l) p)), .host,
              by simp [_off, hev, hcid, hP, truthy, removeListener, Out.done],
              Or.inr ⟨removeFirst fn l, p, by simp⟩⟩
    | _ => simp [Call.plainOnOff] at hc
  | once _ _ _ => simp [Call.plainOnOff] at hc
  | fire _ _ => simp [Call.plainOnOff] at hc

theorem mem_entriesOf_of_getOwn {v : Val} {k : PropKey} {e : Entry}
    (h : v.getOwn k = some (some e)) : e ∈ entriesOf v := by
  have hlk : ∀ (key : Key) (props : List (Key × Option Entry)),
      lookup key props = some (some e) → e ∈ props.filterMap Prod.snd := by
    intro key props
    induction props with
    | nil => simp [lookup]
    | cons q rest ih =>
      obtain ⟨k2, w⟩ := q
      intro hl
      simp only [lookup] at hl
      split at hl
      · simp only [Option.some.injEq] at hl
        subst hl
        simp [List.filterMap_cons]
      · have := ih hl
        cases w <;> simp [List.filterMap_cons, this]
  cases k with
  | index i =>
    cases v with
    | array elems props =>
      simp only [Val.getOwn, Option.map_eq_some'] at h
      obtain ⟨a, ha, hae⟩ := h
      simp only [Option.some.injEq] at hae
      subst hae
      simp only [entriesOf, List.mem_append]
      exact Or.inl (List.get?_mem ha)
    | _ => simp [Val.getOwn] at h
  | id key =>
    cases v with
    | array elems props =>
      simp only [Val.getOwn] at h
      simp only [entriesOf, List.mem_append]
      exact Or.inr (hlk key props h)
    | object props =>
      simp only [Val.getOwn] at h
      exact hlk key props h
    | inherited name props =>
      simp only [Val.getOwn] at h
      exact hlk key props h
    | _ => simp [Val.getOwn] at h

theorem Host.clear_events (h : Host) : h.clear._events = .null := by
  unfold Host.clear
  split <;> rfl

theorem Obj.get_put_same (k : String) (v : Field) (o : Obj) :
    Obj.get k (Obj.put k v o) = some v := by
  induction o with
  | nil => simp [Obj.put, Obj.get]
  | cons p rest ih =>
    obtain ⟨k', v'⟩ := p
    by_cases hk : k' = k <;> simp [Obj.put, Obj.get, hk, ih]

theorem Obj.get_put_other {k k' : String} (v : Field) (o : Obj) (h : k' ≠ k) :
    Obj.get k' (Obj.put k v o) = Obj.get k' o := by
  induction o with
  | nil => simp [Obj.put, Obj.get, Ne.symm h]
  | cons p rest ih =>
    obtain ⟨k2, v2⟩ := p
    by_cases hk : k2 = k
    · subst hk
      simp [Obj.put, Obj.get, Ne.symm h]
    · by_cases hk' : k2 = k'
      · subst hk'
        simp [Obj.put, Obj.get, hk]
      · simp [Obj.put, Obj.get, hk, hk', ih]

theorem Obj.get_copy (k : String) (src : Obj) (hnd : (src.map Prod.fst).Nodup) :
    ∀ target : Obj, Obj.get k (src.foldl (fun t p => Obj.put p.1 p.2 t) target)
      = (Obj.get k src).orElse fun _ => Obj.get k target := by
  induction src with
  | nil => intro target; simp [Obj.get]
  | cons p rest ih =>
    intro target
    obtain ⟨k', v'⟩ := p
    simp only [List.map_cons, List.nodup_cons] at hnd
    simp only [List.foldl_cons]
    rw [ih hnd.2]
    by_cases hk : k' = k
    · subst hk
      have hnone : Obj.get k' rest = none := by
        have hmem := hnd.1
        clear ih hnd
        induction rest with
        | nil => rfl
        | cons q rest2 ih2 =>
          obtain ⟨k2, v2⟩ := q
          simp only [List.map_cons, List.mem_cons, not_or] at hmem
          have hne : ¬ k2 = k' := fun e => hmem.1 e.symm
          simp [Obj.get, hne, ih2 hmem.2]
      simp [hnone, Obj.get, Obj.get_put_same]
    · have hk2 : k ≠ k' := fun e => hk e.symm
      simp [Obj.get, hk, Obj.get_put_other _ _ hk2]

theorem forEach_calls_all {α : Type} (P : Invocation → Prop) (f : α → Host → Out) (xs : List α)
    (hf : ∀ x ∈ xs, ∀ h, ∀ inv ∈ (f x h).calls, P inv) :
    ∀ h, ∀ inv ∈ (forEach f xs h).calls, P inv := by
  induction xs with
  | nil => intro h inv hinv; simp [forEach, Out.done] at hinv
  | cons x rest ih =>
    intro h inv hinv
    simp only [forEach, Out.andThen] at hinv
    split at hinv
    · simp only [List.mem_append] at hinv
      rcases hinv with h1 | h1
      · exact hf x (by simp) h inv h1
      · exact ih (fun y hy => hf y (by simp [hy])) _ inv h1
    · exact hf x (by simp) h inv hinv

theorem forEach_calls_nil {α : Type} (f : α → Host → Out) (xs : List α)
    (hf : ∀ x ∈ xs, ∀ h, (f x h).calls = []) : ∀ h, (forEach f xs h).calls = [] := by
  intro h
  have := forEach_calls_all (fun _ => False) f xs
    (fun x hx h inv hinv => by rw [hf x hx h] at hinv; cases hinv) h
  exact List.eq_nil_iff_forall_not_mem.2 fun inv hinv => this inv hinv

theorem _on_calls (h : Host) (t : String) (fn ctx : Arg) : (_on h t fn ctx).calls = [] := by
  unfold _on
  simp only
  split
  · split
    · rfl
    · split
      · split <;> rfl
      · rfl
  · split <;> rfl

theorem _off_calls (h : Host) (t : String) (fn ctx : Arg) : (_off h t fn ctx).calls = [] := by
  unfold _off
  split
  · simp only
    split
    · split
      · rfl
      · split
        · split <;> rfl
        · rfl
    · split
      · split <;> rfl
      · rfl
  · rfl

theorem on_calls (h : Host) (types : Types) (fn ctx : Arg) : (on_ h types fn ctx).calls = [] := by
  cases types with
  | undefined => rfl
  | null => rfl
  | string s => exact forEach_calls_nil _ _ (fun t _ h' => _on_calls h' t fn ctx) h
  | object own => exact forEach_calls_nil _ _ (fun p _ h' => _on_calls h' p.1 p.2 fn) h

theorem off_calls (h : Host) (types : Types) (fn ctx : Arg) : (off h types fn ctx).calls = [] := by
  cases types with
  | undefined => rfl
  | null => rfl
  | string s =>
    simp only [off]
    split
    · rfl
    · exact forEach_calls_nil _ _ (fun t _ h' => _off_calls h' t fn ctx) h
  | object own => exact forEach_calls_nil _ _ (fun p _ h' => _off_calls h' p.1 p.2 fn) h

theorem once_calls (h : Host) (types : Types) (fn ctx : Arg) :
    (once h types fn ctx).calls = [] := by
  cases types with
  | undefined => exact on_calls _ _ _ _
  | null => rfl
  | string s => exact on_calls _ _ _ _
  | object own => exact forEach_calls_nil _ _ (fun p _ h' => on_calls _ _ _ _) h

theorem exec_calls_of_not_fire (prog : Prog) (fuel : Nat) (c : Call) (hc : c.isFire = false)
    (h : Host) : (exec prog fuel c h).calls = [] := by
  cases fuel with
  | zero => rfl
  | succ n =>
    cases c with
    | on_ types fn ctx => exact on_calls h types fn ctx
    | off types fn ctx => exact off_calls h types fn ctx
    | once types fn ctx => exact once_calls h types fn ctx
    | fire _ _ => simp [Call.isFire] at hc

theorem invoke_events (prog : Prog) (run : Call → Host → Out)
    (hrun : ∀ id, ∀ c ∈ prog id, ∀ h, (run c h).calls = [])
    (f : Arg) (event : Obj) :
    ∀ (thisArg : Arg) (h : Host), ∀ inv ∈ (invoke prog run f thisArg event h).calls,
      inv.event = event := by
  induction f with
  | undefined => intro th h inv hinv; simp [invoke, Out.throw] at hinv
  | host => intro th h inv hinv; simp [invoke, Out.throw] at hinv
  | object id => intro th h inv hinv; simp [invoke, Out.throw] at hinv
  | function id =>
    intro th h inv hinv
    simp only [invoke, forEach_calls_nil _ _ (hrun id) h, List.mem_singleton] at hinv
    rw [hinv]
  | onceHandler serial types fn context ihfn _ =>
    intro th h inv hinv
    simp only [invoke, List.mem_cons] at hinv
    rcases hinv with h1 | h1
    · rw [h1]
    · simp only [Out.andThen] at h1
      split at h1
      · simp only [off_calls, List.append_nil] at h1
        exact ihfn context h inv h1
      · exact ihfn context h inv h1

theorem Out.andThen_calls_all (P : Invocation → Prop) (o : Out) (k : Host → Out)
    (ho : ∀ inv ∈ o.calls, P inv) (hk : ∀ h, ∀ inv ∈ (k h).calls, P inv) :
    ∀ inv ∈ (o.andThen k).calls, P inv := by
  intro inv hinv
  simp only [Out.andThen] at hinv
  split at hinv
  · simp only [List.mem_append] at hinv
    rcases hinv with h1 | h1
    · exact ho inv h1
    · exact hk _ inv h1
  · exact ho inv hinv

theorem forIn_events (prog : Prog) (run : Call → Host → Out)
    (hrun : ∀ id, ∀ c ∈ prog id, ∀ h, (run c h).calls = [])
    (addr : Nat) (key : String) (captured : Val) (event : Obj) (h : Host) :
    ∀ inv ∈ (forIn prog run addr key captured event h).calls, inv.event = event := by
  intro inv hinv
  unfold forIn at hinv
  split at hinv
  · split at hinv <;> simp [Out.done, Out.throw] at hinv
  · refine forEach_calls_all (fun inv => inv.event = event) _ _ ?_ h inv hinv
    intro k _ h2 inv2 hinv2
    unfold visit at hinv2
    split at hinv2
    · simp [Out.done] at hinv2
    · simp [Out.throw] at hinv2
    · exact invoke_events prog run hrun _ _ _ h2 inv2 hinv2

theorem fire_events (prog : Prog) (run : Call → Host → Out)
    (hrun : ∀ id, ∀ c ∈ prog id, ∀ h, (run c h).calls = [])
    (h : Host) (T : String) (data : Obj) :
    ∀ inv ∈ (fire prog run h T data).calls,
      inv.event = extend [] [data, [("type", .string T), ("target", .host)]] := by
  intro inv hinv
  unfold fire at hinv
  split at hinv
  · simp [Out.done] at hinv
  · split at hinv
    · simp only at hinv
      refine Out.andThen_calls_all
        (fun inv => inv.event = extend [] [data, [("type", .string T), ("target", .host)]])
        _ _ ?_ (fun h1 => forIn_events prog run hrun _ _ _ _ h1) inv hinv
      intro inv1 hinv1
      split at hinv1
      · split at hinv1
        · simp [Out.throw] at hinv1
        · exact forEach_calls_all
            (fun inv => inv.event = extend [] [data, [("type", .string T), ("target", .host)]])
            _ _ (fun e _ h' inv' hinv' => invoke_events prog run hrun e.fn _ .host h' inv' hinv')
            h inv1 hinv1
      · simp [Out.done] at hinv1
    · simp at hinv

theorem splitChars_space (a l cur : List Char) (ha : ' ' ∉ a) :
    splitChars (a ++ ' ' :: l) cur = String.mk (cur.reverse ++ a) :: splitChars l [] := by
  induction a generalizing cur with
  | nil => simp [splitChars]
  | cons c rest ih =>
    have hc : c ≠ ' ' := fun e => ha (by simp [e])
    have hr : ' ' ∉ rest := fun e => ha (by simp [e])
    simp [splitChars, hc, ih _ hr]

theorem split_typesString (names : List String) (hne : names ≠ [])
    (hnames : ∀ t ∈ names, ' ' ∉ t.data) : split (typesString names) = names := by
  induction names with
  | nil => exact absurd rfl hne
  | cons t rest ih =>
    cases rest with
    | nil => simpa [typesString] using split_single t (hnames t (by simp))
    | cons t2 rest2 =>
      have ih2 := ih (by simp) (fun x hx => hnames x (by simp [hx]))
      have hd : (typesString (t :: t2 :: rest2)).data
          = t.data ++ ' ' :: (typesString (t2 :: rest2)).data := by
        simp [typesString, String.data_append]
      unfold split at ih2 ⊢
      rw [hd, splitChars_space _ _ _ (hnames t (by simp)), ih2]
      simp

theorem forEach_congr {α : Type} (f g : α → Host → Out) (xs : List α)
    (hfg : ∀ x ∈ xs, ∀ h, f x h = g x h) : ∀ h, forEach f xs h = forEach g xs h := by
  induction xs with
  | nil => intro h; rfl
  | cons x rest ih =>
    intro h
    simp only [forEach, hfg x (by simp) h]
    congr 1
    funext h1
    exact ih (fun y hy => hfg y (by simp [hy])) h1

/-- The value of `fire` on a host with a plain-path sequence, from the outcome
of the plain pass and of the loop over `typeIndex`. -/
theorem fire_eval (prog : Prog) (run : Call → Host → Out) (h h1 : Host) (ev : Events)
    (T : String) (data : Obj) (l : List Entry) (p : List (Key × Option Entry))
    (cs : List Invocation) (r : Arg)
    (hev : h._events = .object ev) (hslot : ev T = .array l p)
    (hpass : forEach (fun e h => invoke prog run e.fn .host
      (extend [] [data, [("type", .string T), ("target", .host)]]) h) l h = ⟨h1, cs, .ok, r⟩)
    (hforIn : forIn prog run h.detached.length (T ++ "_idx") (ev (T ++ "_idx"))
      (extend [] [data, [("type", .string T), ("target", .host)]]) h1 = Out.done h1) :
    fire prog run h T data = ⟨h1, cs, .ok, .host⟩ := by
  have hhas : truthy (hasListener h T) = true := by
    simp [hasListener, hev, Val.orElse, hslot, truthy]
  have hfire : fire prog run h T data = fire prog run h T data := rfl
  conv at hfire => rhs; unfold fire
  simp only [hhas, Bool.not_true, Bool.false_eq_true, if_false, hev, hslot] at hfire
  simp only [truthy, snapshot, if_true, hpass] at hfire
  rw [hfire]
  simp [Out.andThen, hforIn, Out.done]

theorem forIn_undefined (prog : Prog) (run : Call → Host → Out) (addr : Nat) (key : String)
    (event : Obj) (h : Host) : forIn prog run addr key .undefined event h = Out.done h := by
  simp [forIn, typeIndexNow, ownKeys, forEach]

theorem once_string_fresh (T : String) (fn ctx : Arg) (hT : ' ' ∉ T.data)
    (hi : inherited T = false) (hctx : contextId ctx = none) :
    once Host.fresh (.string T) fn ctx
      = Out.done (({ Host.fresh with closures := 1 } : Host).setEvents
          (Events.empty.set T (.array [⟨.onceHandler 0 (some T) fn ctx, .undefined⟩] []))) := by
  simp only [once, onceHandler, Types.ofCaptured]
  rw [on_single _ _ _ _ hT]
  exact _on_plain_absent _ T _ ctx hctx (truthy_empty_slot hi)

theorem Host.clear_eventsOrNew (h : Host) : h.clear.eventsOrNew = Events.empty := by
  simp [Host.eventsOrNew, Host.clear_events]

theorem split_pair (T1 T2 : String) (h1 : ' ' ∉ T1.data) (h2 : ' ' ∉ T2.data) :
    split (T1 ++ " " ++ T2) = [T1, T2] := by
  have h := split_typesString [T1, T2] (by simp)
    (by intro t ht; simp at ht; rcases ht with rfl | rfl <;> assumption)
  simpa [typesString] using h

theorem pair_ne_empty (T1 T2 : String) : T1 ++ " " ++ T2 ≠ "" := by
  intro h
  have h2 := congrArg (fun s => s.data.length) h
  simp [String.data_append] at h2

/-- The loop over a captured index whose keys are all gone by now. -/
theorem forIn_now_empty (prog : Prog) (run : Call → Host → Out) (addr : Nat) (key : String)
    (captured : Val) (event : Obj) (h : Host)
    (hc : captured = .undefined
      ∨ ((∃ l p, captured = .array l p) ∧ h.objectAt addr key = .array [] [])) :
    forIn prog run addr key captured event h = Out.done h := by
  rcases hc with rfl | ⟨⟨l, p, rfl⟩, hnow⟩
  · exact forIn_undefined _ _ _ _ _ _
  · simp [forIn, typeIndexNow, hnow, ownKeys, forEach]

theorem once_pair_fresh (T1 T2 : String) (fn : Arg) (h12 : T1 ≠ T2) (h1 : ' ' ∉ T1.data)
    (h2 : ' ' ∉ T2.data) (hi1 : inherited T1 = false) (hi2 : inherited T2 = false) :
    once Host.fresh (.string (T1 ++ " " ++ T2)) fn .undefined
      = Out.done (({ Host.fresh with closures := 1 } : Host).setEvents
          ((Events.empty.set T1 (.array
            [⟨.onceHandler 0 (some (T1 ++ " " ++ T2)) fn .undefined, .undefined⟩] [])).set T2
            (.array [⟨.onceHandler 0 (some (T1 ++ " " ++ T2)) fn .undefined, .undefined⟩] []))) := by
  have e1 : _on ({ Host.fresh with closures := 1 } : Host) T1
      (.onceHandler 0 (some (T1 ++ " " ++ T2)) fn .undefined) .undefined
      = Out.done (({ Host.fresh with closures := 1 } : Host).setEvents (Events.empty.set T1 (.array
          [⟨.onceHandler 0 (some (T1 ++ " " ++ T2)) fn .undefined, .undefined⟩] []))) :=
    _on_plain_absent _ T1 _ .undefined rfl (truthy_empty_slot hi1)
  have e2 : _on (({ Host.fresh with closures := 1 } : Host).setEvents (Events.empty.set T1 (.array
          [⟨.onceHandler 0 (some (T1 ++ " " ++ T2)) fn .undefined, .undefined⟩] []))) T2
      (.onceHandler 0 (some (T1 ++ " " ++ T2)) fn .undefined) .undefined
      = Out.done (({ Host.fresh with closures := 1 } : Host).setEvents
          ((Events.empty.set T1 (.array
            [⟨.onceHandler 0 (some (T1 ++ " " ++ T2)) fn .undefined, .undefined⟩] [])).set T2
            (.array [⟨.onceHandler 0 (some (T1 ++ " " ++ T2)) fn .undefined, .undefined⟩] []))) :=
    _on_plain_absent _ T2 _ .undefined rfl
      (by simp [Events.set_other _ _ h12.symm, Events.empty_of_not_inherited hi2, truthy])
  simp only [once, onceHandler, Types.ofCaptured, on_, split_pair T1 T2 h1 h2, forEach]
  have hc : Host.fresh.closures = 0 := rfl
  simp only [hc, Nat.zero_add]
  rw [e1, Out.done_andThen, e2, Out.done_andThen]

theorem off_pair (h : Host) (ev : Events) (T1 T2 : String) (fn : Arg) (l1 l2 : List Entry)
    (p1 p2 : List (Key × Option Entry)) (h12 : T1 ≠ T2) (hT1 : ' ' ∉ T1.data)
    (hT2 : ' ' ∉ T2.data) (hev : h._events = .object ev) (hs1 : ev T1 = .array l1 p1)
    (hs2 : ev T2 = .array l2 p2) :
    off h (.string (T1 ++ " " ++ T2)) fn .undefined
      = Out.done (h.setEvents ((ev.set T1 (.array (removeFirst fn l1) p1)).set T2
          (.array (removeFirst fn l2) p2))) := by
  simp only [off, pair_ne_empty, if_false, split_pair T1 T2 hT1 hT2, forEach]
  have e1 : _off h T1 fn .undefined
      = Out.done (h.setEvents (ev.set T1 (.array (removeFirst fn l1) p1))) := by
    simp [_off, hev, contextId, Arg.truthy, hs1, truthy, removeListener]
  rw [e1, Out.done_andThen]
  have e2 : _off (h.setEvents (ev.set T1 (.array (removeFirst fn l1) p1))) T2 fn .undefined
      = Out.done (h.setEvents ((ev.set T1 (.array (removeFirst fn l1) p1)).set T2
          (.array (removeFirst fn l2) p2))) := by
    simp [_off, contextId, Arg.truthy, Events.set_other _ _ h12.symm, hs2, truthy, removeListener]
  rw [e2, Out.done_andThen]

theorem Host.setEvents_self {h : Host} {ev : Events} (hev : h._events = .object ev) :
    h.setEvents ev = h := by
  cases h with
  | mk e d c =>
    simp only at hev
    simp [Host.setEvents, hev]

theorem removeFirst_of_lacks (fn : Arg) (l : List Entry)
    (hl : (l.all fun e => e.fn != fn) = true) : removeFirst fn l = l := by
  induction l with
  | nil => rfl
  | cons e rest ih =>
    simp only [List.all_cons, Bool.and_eq_true, bne_iff_ne, ne_eq] at hl
    simp [removeFirst, hl.1, ih hl.2]

theorem forEach_noop {α : Type} (f : α → Host → Out) (xs : List α) (h : Host)
    (hf : ∀ x ∈ xs, f x h = Out.done h) : forEach f xs h = Out.done h := by
  induction xs with
  | nil => rfl
  | cons x rest ih =>
    simp only [forEach]
    rw [hf x (by simp), Out.done_andThen]
    exact ih (fun y hy => hf y (by simp [hy]))

theorem _off_absent (h : Host) (t : String) (fn ctx : Arg) (hfn : fn ≠ .undefined)
    (habs : absent h t fn ctx = true) : _off h t fn ctx = Out.done h := by
  cases hreg : h._events with
  | undefined => simp [_off, hreg]
  | null => simp [_off, hreg]
  | object ev =>
    have hor : h.eventsOrNew = ev := Host.eventsOrNew_of_object hreg
    have hst : stamp fn = some fn := by
      cases fn <;> first | rfl | exact absurd rfl hfn
    unfold absent at habs
    rw [hor] at habs
    cases hc : contextId ctx with
    | some cid =>
      rw [hc] at habs
      simp only [Bool.not_eq_true'] at habs
      simp [_off, hreg, hc, hst, habs]
    | none =>
      rw [hc] at habs
      simp only [_off, hreg, hc]
      by_cases htr : truthy (ev t) = true
      · simp only [htr, if_true]
        have hrem : removeListener (ev t) fn = some (ev t) := by
          cases hv : ev t with
          | array elems props =>
            rw [hv] at habs
            simp only [Val.lacks] at habs
            simp [removeListener, removeFirst_of_lacks fn elems habs]
          | string s => simp [removeListener, hfn]
          | _ => simp [removeListener]
        simp only [hrem, Events.set_self, Host.setEvents_self hreg]
      · simp [htr]

/-- Two hosts on which every step of a loop does the same and leaves the host
as it was go through the loop alike. -/
theorem forEach_sim {α : Type} (f f' : α → Host → Out) (h h' : Host) (xs : List α)
    (hstep : ∀ x ∈ xs, ∃ cs st r r', f x h = ⟨h, cs, st, r⟩ ∧ f' x h' = ⟨h', cs, st, r'⟩) :
    ∃ cs st r r', forEach f xs h = ⟨h, cs, st, r⟩ ∧ forEach f' xs h' = ⟨h', cs, st, r'⟩ := by
  induction xs with
  | nil => exact ⟨[], .ok, .host, .host, rfl, rfl⟩
  | cons x rest ih =>
    obtain ⟨cs, st, r, r', e1, e2⟩ := hstep x (by simp)
    obtain ⟨cs2, st2, r2, r2', e3, e4⟩ := ih (fun y hy => hstep y (by simp [hy]))
    cases st with
    | ok =>
      exact ⟨cs ++ cs2, st2, r2, r2', by simp [forEach, e1, Out.andThen, e3],
        by simp [forEach, e2, Out.andThen, e4]⟩
    | typeError =>
      exact ⟨cs, .typeError, r, r', by simp [forEach, e1, Out.andThen],
        by simp [forEach, e2, Out.andThen]⟩
    | outOfFuel =>
      exact ⟨cs, .outOfFuel, r, r', by simp [forEach, e1, Out.andThen],
        by simp [forEach, e2, Out.andThen]⟩

theorem typeIndexNow_self {h : Host} {ev : Events} (hev : h._events = .object ev)
    (key : String) : typeIndexNow h h.detached.length key (ev key) = ev key := by
  cases hv : ev key <;>
    simp [typeIndexNow, Host.objectAt_self, Host.eventsOrNew_of_object hev, hv]

theorem forIn_sim (prog : Prog) (run : Call → Host → Out) (h h' : Host) (addr addr' : Nat)
    (key : String) (v : Val) (event : Obj)
    (hnow : typeIndexNow h addr key v = v) (hnow' : typeIndexNow h' addr' key v = v)
    (hinert : ∀ e ∈ entriesOf v, ∃ a, e.fn = .function a ∧ prog a = []) :
    ∃ cs st r r', forIn prog run addr key v event h = ⟨h, cs, st, r⟩
      ∧ forIn prog run addr' key v event h' = ⟨h', cs, st, r'⟩ := by
  have hloop : ∃ cs st r r',
      forEach (visit prog run addr key v event) (ownKeys v) h = ⟨h, cs, st, r⟩
      ∧ forEach (visit prog run addr' key v event) (ownKeys v) h' = ⟨h', cs, st, r'⟩ := by
    apply forEach_sim
    intro k _
    unfold visit
    rw [hnow, hnow']
    cases hg : v.getOwn k with
    | none => exact ⟨[], .ok, .host, .host, rfl, rfl⟩
    | some w =>
      cases w with
      | none => exact ⟨[], .typeError, .undefined, .undefined, rfl, rfl⟩
      | some e =>
        obtain ⟨a, hfn, ha⟩ := hinert e (mem_entriesOf_of_getOwn hg)
        simp only [hfn, invoke_inert prog run a _ _ _ ha]
        exact ⟨_, _, _, _, rfl, rfl⟩
  unfold forIn
  rw [hnow, hnow']
  cases v with
  | string s =>
    by_cases hs : s = ""
    · simp only [hs, if_true]
      exact ⟨[], .ok, .host, .host, rfl, rfl⟩
    · simp only [hs, if_false]
      exact ⟨[], .typeError, .undefined, .undefined, rfl, rfl⟩
  | _ => exact hloop

/-- The outcome of `fire(T)` is read off the three keys of `T` when the
handlers stored for `T` make no calls on the host. -/
theorem fire_sim (prog : Prog) (run : Call → Host → Out) (h h' : Host) (ev ev' : Events)
    (T : String) (data : Obj) (hev : h._events = .object ev) (hev' : h'._events = .object ev')
    (hT : ev' T = ev T) (hidx : ev' (T ++ "_idx") = ev (T ++ "_idx"))
    (hplain : ∀ e ∈ entriesOf (ev T), ∃ a, e.fn = .function a ∧ prog a = [])
    (hprops : ∀ e ∈ entriesOf (ev (T ++ "_idx")), ∃ a, e.fn = .function a ∧ prog a = []) :
    truthy (hasListener h T) = true → truthy (hasListener h' T) = true →
    ∃ cs st r r', fire prog run h T data = ⟨h, cs, st, r⟩
      ∧ fire prog run h' T data = ⟨h', cs, st, r'⟩ := by
  intro hhas hhas'
  have hpl : ∃ cs st r r',
      (if truthy (ev T) then
          match snapshot (ev T) with
          | none => Out.throw h
          | some listeners => forEach (fun e h => invoke prog run e.fn .host
              (extend [] [data, [("type", .string T), ("target", .host)]]) h) listeners h
        else Out.done h) = ⟨h, cs, st, r⟩
      ∧ (if truthy (ev T) then
          match snapshot (ev T) with
          | none => Out.throw h'
          | some listeners => forEach (fun e h => invoke prog run e.fn .host
              (extend [] [data, [("type", .string T), ("target", .host)]]) h) listeners h'
        else Out.done h') = ⟨h', cs, st, r'⟩ := by
    by_cases htr : truthy (ev T) = true
    · simp only [htr, if_true]
      cases hs : snapshot (ev T) with
      | none => exact ⟨[], .typeError, .undefined, .undefined, rfl, rfl⟩
      | some l =>
        simp only
        apply forEach_sim
        intro e he
        have hmem : e ∈ entriesOf (ev T) := by
          cases hv : ev T with
          | array elems props =>
            rw [hv] at hs
            simp only [snapshot, Option.some.injEq] at hs
            subst hs
            simp [entriesOf, he]
          | _ => rw [hv] at hs; simp [snapshot] at hs
        obtain ⟨a, hfn, ha⟩ := hplain e hmem
        simp only [hfn, invoke_inert prog run a _ _ _ ha]
        exact ⟨_, _, _, _, rfl, rfl⟩
    · simp only [htr, Bool.false_eq_true, if_false]
      exact ⟨[], .ok, .host, .host, rfl, rfl⟩
  obtain ⟨cs, st, r, r', hp, hp'⟩ := hpl
  obtain ⟨cs2, st2, r2, r2', hf, hf'⟩ := forIn_sim prog run h h' h.detached.length
    h'.detached.length (T ++ "_idx") (ev (T ++ "_idx"))
    (extend [] [data, [("type", .string T), ("target", .host)]])
    (typeIndexNow_self hev _) (by rw [← hidx]; exact typeIndexNow_self hev' _) hprops
  have e1 : fire prog run h T data = fire prog run h T data := rfl
  conv at e1 => rhs; unfold fire
  simp only [hhas, Bool.not_true, Bool.false_eq_true, if_false, hev] at e1
  have e2 : fire prog run h' T data = fire prog run h' T data := rfl
  conv at e2 => rhs; unfold fire
  simp only [hhas', Bool.not_true, Bool.false_eq_true, if_false, hev', hT, hidx] at e2
  rw [e1, e2, hp, hp']
  cases st with
  | ok =>
    cases st2 with
    | ok =>
      exact ⟨cs ++ cs2, .ok, .host, .host, by simp only [Out.andThen, hf],
        by simp only [Out.andThen, hf']⟩
    | typeError =>
      exact ⟨cs ++ cs2, .typeError, .undefined, .undefined, by simp only [Out.andThen, hf],
        by simp only [Out.andThen, hf']⟩
    | outOfFuel =>
      exact ⟨cs ++ cs2, .outOfFuel, .undefined, .undefined, by simp only [Out.andThen, hf],
        by simp only [Out.andThen, hf']⟩
  | typeError =>
    exact ⟨cs, .typeError, .undefined, .undefined, by simp [Out.andThen],
      by simp [Out.andThen]⟩
  | outOfFuel =>
    exact ⟨cs, .outOfFuel, .undefined, .undefined, by simp [Out.andThen],
      by simp [Out.andThen]⟩

theorem fire_of_falsy (prog : Prog) (run : Call → Host → Out) (h : Host) (T : String)
    (data : Obj) (hhas : truthy (hasListener h T) = false) :
    fire prog run h T data = Out.done h := by
  unfold fire
  simp only [hhas, Bool.not_false, if_true]

/-- The method `_on` writes the keys of its type only. -/
theorem _on_host (h : Host) (T : String) (fn ctx : Arg) :
    ∃ ev1, (_on h T fn ctx).host = h.setEvents ev1
      ∧ ∀ k, k ≠ T → k ≠ T ++ "_idx" → k ≠ T ++ "_len" → ev1 k = h.eventsOrNew k := by
  unfold _on
  cases hc : contextId ctx with
  | some cid =>
    simp only
    cases hs : stamp fn with
    | none => exact ⟨_, rfl, fun k _ h2 _ => by simp [Events.set_other _ _ h2]⟩
    | some fid =>
      simp only
      split
      · split
        · exact ⟨_, rfl, fun k _ h2 _ => by simp [Events.set_other _ _ h2]⟩
        · exact ⟨_, rfl, fun k _ h2 h3 => by
            simp [Events.set_other _ _ h2, Events.set_other _ _ h3]⟩
      · exact ⟨_, rfl, fun k _ h2 _ => by simp [Events.set_other _ _ h2]⟩
  | none =>
    simp only
    split
    · exact ⟨_, rfl, fun k h1 _ _ => by simp [Events.set_other _ _ h1]⟩
    · exact ⟨_, rfl, fun k h1 _ _ => by simp [Events.set_other _ _ h1]⟩

/-- The method `_off` writes the keys of its type only. -/
theorem _off_host (h : Host) (T : String) (fn ctx : Arg) :
    (_off h T fn ctx).host = h
      ∨ ∃ ev ev1, h._events = .object ev ∧ (_off h T fn ctx).host = h.setEvents ev1
        ∧ ∀ k, k ≠ T → k ≠ T ++ "_idx" → k ≠ T ++ "_len" → ev1 k = ev k := by
  unfold _off
  cases hreg : h._events with
  | undefined => exact Or.inl rfl
  | null => exact Or.inl rfl
  | object ev =>
    simp only
    cases hc : contextId ctx with
    | some cid =>
      simp only
      cases hs : stamp fn with
      | none => exact Or.inl rfl
      | some fid =>
        simp only
        split
        · split
          · exact Or.inl rfl
          · exact Or.inr ⟨ev, _, rfl, rfl, fun k _ h2 h3 => by
              simp [Events.set_other _ _ h2, Events.set_other _ _ h3]⟩
        · exact Or.inl rfl
    | none =>
      simp only
      split
      · split
        · exact Or.inl rfl
        · exact Or.inr ⟨ev, _, rfl, rfl, fun k h1 _ _ => by simp [Events.set_other _ _ h1]⟩
      · exact Or.inl rfl

/-- A host whose registry was rewritten outside the three keys of `T` answers
`hasListener(T)` and `fire(T)` as before, provided that the registry object
was there or that `T` is not an inherited name. -/
theorem frame_core (prog : Prog) (run : Call → Host → Out) (h : Host) (ev1 : Events)
    (T : String) (data : Obj)
    (hi : inherited T = false ∨ ∃ ev, h._events = .object ev)
    (hT : ev1 T = h.eventsOrNew T)
    (hidx : ev1 (T ++ "_idx") = h.eventsOrNew (T ++ "_idx"))
    (hlen : ev1 (T ++ "_len") = h.eventsOrNew (T ++ "_len"))
    (hplain : ∀ e ∈ entriesOf (h.eventsOrNew T), ∃ a, e.fn = .function a ∧ prog a = [])
    (hprops : ∀ e ∈ entriesOf (h.eventsOrNew (T ++ "_idx")),
      ∃ a, e.fn = .function a ∧ prog a = []) :
    truthy (hasListener (h.setEvents ev1) T) = truthy (hasListener h T)
    ∧ (∀ ev, h._events = .object ev → hasListener (h.setEvents ev1) T = hasListener h T)
    ∧ (fire prog run (h.setEvents ev1) T data).calls = (fire prog run h T data).calls
    ∧ (fire prog run (h.setEvents ev1) T data).status = (fire prog run h T data).status := by
  have hnew : hasListener (h.setEvents ev1) T
      = (h.eventsOrNew T).orElse (h.eventsOrNew (T ++ "_len")) := by
    simp [hasListener, hT, hlen]
  have hno : (∀ ev, h._events ≠ .object ev) → h.eventsOrNew = Events.empty →
      (truthy (hasListener h T) = false) →
      truthy (hasListener (h.setEvents ev1) T) = truthy (hasListener h T)
      ∧ (∀ ev, h._events = .object ev → hasListener (h.setEvents ev1) T = hasListener h T)
      ∧ (fire prog run (h.setEvents ev1) T data).calls = (fire prog run h T data).calls
      ∧ (fire prog run (h.setEvents ev1) T data).status = (fire prog run h T data).status := by
    intro hnone hor hold
    have hiT : inherited T = false := by
      rcases hi with hi | ⟨ev, hev⟩
      · exact hi
      · exact absurd hev (hnone ev)
    have hnew2 : truthy (hasListener (h.setEvents ev1) T) = false := by
      rw [hnew, hor, Events.empty_of_not_inherited hiT]
      simp [Val.orElse, truthy]
    refine ⟨by rw [hnew2, hold], fun ev hev => absurd hev (hnone ev), ?_⟩
    rw [fire_of_falsy prog run h T data hold, fire_of_falsy prog run _ T data hnew2]
    exact ⟨rfl, rfl⟩
  by_cases hobj : ∃ ev, h._events = .object ev
  · obtain ⟨ev, hreg⟩ := hobj
    have hor : h.eventsOrNew = ev := Host.eventsOrNew_of_object hreg
    have hold : hasListener h T = (ev T).orElse (ev (T ++ "_len")) := by
      simp [hasListener, hreg]
    rw [hor] at hnew hT hidx hplain hprops
    have heq : hasListener (h.setEvents ev1) T = hasListener h T := by rw [hnew, hold]
    refine ⟨by rw [heq], fun _ _ => heq, ?_⟩
    by_cases hhas : truthy (hasListener h T) = true
    · obtain ⟨cs, st, r, r', e1, e2⟩ := fire_sim prog run h (h.setEvents ev1) ev ev1 T data hreg
        rfl hT hidx hplain hprops hhas (by rw [heq]; exact hhas)
      rw [e1, e2]
      exact ⟨rfl, rfl⟩
    · have hf : truthy (hasListener h T) = false := by simpa using hhas
      rw [fire_of_falsy prog run h T data hf,
        fire_of_falsy prog run _ T data (by rw [heq]; exact hf)]
      exact ⟨rfl, rfl⟩
  · have hnone : ∀ ev, h._events ≠ .object ev := fun ev hev => hobj ⟨ev, hev⟩
    have hor : h.eventsOrNew = Events.empty := by
      cases hreg : h._events with
      | object ev => exact absurd hreg (hnone ev)
      | _ => simp [Host.eventsOrNew, hreg]
    have hold : truthy (hasListener h T) = false := by
      cases hreg : h._events with
      | object ev => exact absurd hreg (hnone ev)
      | _ => simp [hasListener, hreg, truthy]
    exact hno hnone hor hold

theorem split_empty : split "" = [""] := by decide

theorem Host.objectAt_setEvents (h : Host) (X : Events) (addr : Nat) :
    (h.setEvents X).objectAt addr = if addr < h.detached.length then h.objectAt addr else X := by
  unfold Host.objectAt
  by_cases hlt : addr < h.detached.length <;> simp [hlt]

theorem Host.objectAt_clear (h : Host) (addr : Nat)
    (hle : addr ≤ h.detached.length)
    (hobj : addr = h.detached.length → ∃ ev, h._events = .object ev) :
    h.clear.objectAt addr = h.objectAt addr
    ∧ (addr ≤ h.clear.detached.length)
    ∧ (addr = h.clear.detached.length → ∃ ev, h.clear._events = .object ev) := by
  cases hreg : h._events with
  | object ev =>
    have hc : h.clear = { h with _events := .null, detached := h.detached ++ [ev] } := by
      simp [Host.clear, hreg]
    rw [hc]
    refine ⟨?_, by simp; omega, fun he => by simp at he; omega⟩
    unfold Host.objectAt
    by_cases hlt : addr < h.detached.length
    · simp [hlt, Nat.lt_succ_of_lt hlt, List.getD_eq_getElem?_getD, List.getElem?_append_left hlt]
    · have heq : addr = h.detached.length := by omega
      subst heq
      simp [Host.eventsOrNew, hreg, List.getD_eq_getElem?_getD]
  | undefined =>
    have hc : h.clear = { h with _events := .null } := by simp [Host.clear, hreg]
    have hlt : addr < h.detached.length := by
      rcases Nat.lt_or_eq_of_le hle with hlt | heq
      · exact hlt
      · obtain ⟨ev, hev⟩ := hobj heq
        rw [hreg] at hev; cases hev
    rw [hc]
    refine ⟨?_, hle, fun he => by simp at he; omega⟩
    simp [Host.objectAt, hlt]
  | null =>
    have hc : h.clear = { h with _events := .null } := by simp [Host.clear, hreg]
    have hlt : addr < h.detached.length := by
      rcases Nat.lt_or_eq_of_le hle with hlt | heq
      · exact hlt
      · obtain ⟨ev, hev⟩ := hobj heq
        rw [hreg] at hev; cases hev
    rw [hc]
    refine ⟨?_, hle, fun he => by simp at he; omega⟩
    simp [Host.objectAt, hlt]

/-- The host that a plain-path `on(T, ..)` or `off(T, ..)` leaves: the host it
found, that host with the slot of `T` rewritten, or, for the empty name, that
host with the registry dropped. -/
theorem plainOnOff_host (prog : Prog) (fuel : Nat) (T : String) (hT : ' ' ∉ T.data) (c : Call)
    (hc : c.plainOnOff T = true) (h : Host) :
    (exec prog (fuel + 1) c h).host = h
      ∨ (∃ v, (exec prog (fuel + 1) c h).host = h.setEvents (h.eventsOrNew.set T v))
      ∨ (exec prog (fuel + 1) c h).host = h.clear := by
  cases c with
  | on_ types fn ctx =>
    cases types with
    | string s =>
      simp only [Call.plainOnOff, Bool.and_eq_true, beq_iff_eq] at hc
      obtain ⟨hs, hctx⟩ := hc
      subst hs
      have hcid : contextId ctx = none := by
        cases ctx <;> simp_all [Arg.isPlainContext, contextId, Arg.truthy, stamp]
      rw [exec_on, on_single _ _ _ _ hT]
      right; left
      simp only [_on, hcid]
      split
      · exact ⟨_, rfl⟩
      · rename_i v hv
        refine ⟨v, ?_⟩
        simp only [Out.done, Events.set_set]
    | _ => simp [Call.plainOnOff] at hc
  | off types fn ctx =>
    cases types with
    | string s =>
      simp only [Call.plainOnOff, Bool.and_eq_true, beq_iff_eq] at hc
      obtain ⟨hs, hctx⟩ := hc
      subst hs
      have hcid : contextId ctx = none := by
        cases ctx <;> simp_all [Arg.isPlainContext, contextId, Arg.truthy, stamp]
      rw [exec_off]
      by_cases hne : s = ""
      · right; right
        simp [off, hne, Out.done]
      · rw [off_single h s fn ctx hT hne]
        cases hev : h._events with
        | undefined => left; simp [_off, hev, Out.done]
        | null => left; simp [_off, hev, Out.done]
        | object ev =>
          have hor : h.eventsOrNew = ev := Host.eventsOrNew_of_object hev
          simp only [_off, hev, hcid]
          split
          · split
            · left; rfl
            · right; left; exact ⟨_, by rw [hor]; rfl⟩
          · left; rfl
    | _ => simp [Call.plainOnOff] at hc
  | once _ _ _ => simp [Call.plainOnOff] at hc
  | fire _ _ => simp [Call.plainOnOff] at hc

/-- The loop over an index of live records of functions that make no call on
the host, on a host that still holds that index in the registry object the
loop reads. -/
theorem forIn_of_now (prog : Prog) (run : Call → Host → Out) (h : Host) (addr : Nat)
    (key : String) (event : Obj) (props : List (Key × Entry))
    (hnow : h.objectAt addr key = .object (props.map fun p => (p.1, some p.2)))
    (hnd : (props.map Prod.fst).Nodup)
    (hprops : ∀ p ∈ props, ∃ a, p.2.fn = .function a ∧ prog a = []) :
    forIn prog run addr key (.object (props.map fun p => (p.1, some p.2))) event h
      = ⟨h, props.map (fun p => ⟨p.2.fn, p.2.ctx, event⟩), .ok, .host⟩ := by
  have hnow2 : typeIndexNow h addr key (.object (props.map fun p => (p.1, some p.2)))
      = .object (props.map fun p => (p.1, some p.2)) := by
    simp [typeIndexNow, hnow]
  simp only [forIn, hnow2, ownKeys]
  rw [List.map_map, forEach_map]
  apply forEach_inert
  intro p hp
  obtain ⟨a, hfn, ha⟩ := hprops p hp
  have hnd2 : ((props.map fun p => (p.1, some p.2)).map Prod.fst).Nodup := by
    simpa [List.map_map, Function.comp_def] using hnd
  have hl := lookup_of_mem_nodup _ hnd2 (p.1, some p.2) (List.mem_map_of_mem _ hp)
  refine ⟨.undefined, ?_⟩
  simp only [Function.comp, visit, hnow2, Val.getOwn, hl, hfn]
  exact invoke_inert prog run a _ event h ha

/-- A plain-path `on(T, ..)` or `off(T, ..)` leaves every key other than `T` of
the registry object created as the `addr`-th one as it was. -/
theorem plainOnOff_frame (prog : Prog) (fuel : Nat) (T : String) (hT : ' ' ∉ T.data) (c : Call)
    (hc : c.plainOnOff T = true) (ev : Events) (addr : Nat) (h : Host)
    (hP : (truthy (h.eventsOrNew T) = false ∨ ∃ l p, h.eventsOrNew T = .array l p)
      ∧ addr ≤ h.detached.length
      ∧ (addr = h.detached.length → ∃ ev1, h._events = .object ev1)
      ∧ ∀ k, k ≠ T → h.objectAt addr k = ev k) :
    ∃ h1 r, exec prog (fuel + 1) c h = ⟨h1, [], .ok, r⟩
      ∧ (truthy (h1.eventsOrNew T) = false ∨ ∃ l p, h1.eventsOrNew T = .array l p)
      ∧ addr ≤ h1.detached.length
      ∧ (addr = h1.detached.length → ∃ ev1, h1._events = .object ev1)
      ∧ ∀ k, k ≠ T → h1.objectAt addr k = ev k := by
  obtain ⟨hP1, hle, hobj, hfr⟩ := hP
  obtain ⟨h1, r, hrun, hQ⟩ := plainOnOff_step prog fuel T hT c hc h hP1
  refine ⟨h1, r, hrun, hQ, ?_⟩
  have hhost := plainOnOff_host prog fuel T hT c hc h
  rw [hrun] at hhost
  simp only at hhost
  rcases hhost with hh | ⟨v, hh⟩ | hh
  · subst hh
    exact ⟨hle, hobj, hfr⟩
  · subst hh
    refine ⟨hle, fun _ => ⟨_, rfl⟩, ?_⟩
    intro k hk
    rw [Host.objectAt_setEvents]
    by_cases hlt : addr < h.detached.length
    · simp only [hlt, if_true]
      exact hfr k hk
    · simp only [hlt, if_false]
      rw [Events.set_other _ _ hk, ← hfr k hk]
      simp [Host.objectAt, hlt]
  · subst hh
    obtain ⟨h1, h2, h3⟩ := Host.objectAt_clear h addr hle hobj
    refine ⟨h2, h3, ?_⟩
    intro k hk
    rw [h1]
    exact hfr k hk

/-- The plain-path pass over a snapshot whose handlers make only plain-path
`on(T, ..)` and `off(T, ..)` calls invokes each handler of the snapshot, and
leaves every key other than `T` of the registry object as it was. -/
theorem plain_pass_frame (prog : Prog) (fuel : Nat) (T : String) (event : Obj)
    (hT : ' ' ∉ T.data) (l : List Entry)
    (hbody : ∀ e ∈ l, ∃ a, e.fn = .function a ∧ ∀ c ∈ prog a, c.plainOnOff T = true)
    (ev : Events) (addr : Nat) (h : Host)
    (hP : (truthy (h.eventsOrNew T) = false ∨ ∃ l p, h.eventsOrNew T = .array l p)
      ∧ addr ≤ h.detached.length
      ∧ (addr = h.detached.length → ∃ ev1, h._events = .object ev1)
      ∧ ∀ k, k ≠ T → h.objectAt addr k = ev k) :
    ∃ h1, forEach (fun e h => invoke prog (exec prog (fuel + 1)) e.fn .host event h) l h
        = ⟨h1, l.map (fun e => ⟨e.fn, .host, event⟩), .ok, .host⟩
      ∧ ∀ k, k ≠ T → h1.objectAt addr k = ev k := by
  have hmain := forEach_invoke
    (fun h => (truthy (h.eventsOrNew T) = false ∨ ∃ l p, h.eventsOrNew T = .array l p)
      ∧ addr ≤ h.detached.length
      ∧ (addr = h.detached.length → ∃ ev1, h._events = .object ev1)
      ∧ ∀ k, k ≠ T → h.objectAt addr k = ev k)
    (fun e h => invoke prog (exec prog (fuel + 1)) e.fn .host event h)
    (fun e => ⟨e.fn, .host, event⟩) l
    (by
      intro e he h2 hP2
      obtain ⟨a, hfn, hcalls⟩ := hbody e he
      obtain ⟨h1, hrun, hP1⟩ := forEach_quiet
        (fun h => (truthy (h.eventsOrNew T) = false ∨ ∃ l p, h.eventsOrNew T = .array l p)
          ∧ addr ≤ h.detached.length
          ∧ (addr = h.detached.length → ∃ ev1, h._events = .object ev1)
          ∧ ∀ k, k ≠ T → h.objectAt addr k = ev k)
        (exec prog (fuel + 1)) (prog a)
        (fun c hc h3 hP3 => plainOnOff_frame prog fuel T hT c (hcalls c hc) ev addr h3 hP3) h2 hP2
      refine ⟨h1, .undefined, ?_, hP1⟩
      simp only [hfn, invoke, hrun])
    h hP
  obtain ⟨h1, hrun, hQ⟩ := hmain
  exact ⟨h1, hrun, hQ.2.2.2⟩

/-- The invocation of an adapter of `once` whose wrapped function returns: the
adapter, then the function with the context of `once`, then whatever the body
of the function invokes, then `off` with the adapter. -/
theorem invoke_adapter_body (prog : Prog) (run : Call → Host → Out) (S : String) (a n : Nat)
    (ctx thisArg : Arg) (event : Obj) (h h2 : Host) (cs : List Invocation) (r : Arg)
    (hbody : forEach run (prog a) h = ⟨h2, cs, .ok, r⟩) :
    invoke prog run (.onceHandler n (some S) (.function a) ctx) thisArg event h
      = ⟨(off h2 (.string S) (.onceHandler n (some S) (.function a) ctx) ctx).host,
          ⟨.onceHandler n (some S) (.function a) ctx, thisArg, event⟩
            :: ⟨.function a, ctx, event⟩ :: cs,
          (off h2 (.string S) (.onceHandler n (some S) (.function a) ctx) ctx).status,
          .undefined⟩ := by
  simp only [invoke, hbody, Out.andThen, Types.ofCaptured, off_calls, List.append_nil,
    List.cons_append]

/-- The dispatch of a type whose only record is an adapter of `once` on the
plain path, when the wrapped function returns and `off` removes the adapter. -/
theorem fire_adapter (prog : Prog) (run : Call → Host → Out) (h1 h2 h3 : Host) (ev1 : Events)
    (X S : String) (a n : Nat) (data : Obj) (cs : List Invocation) (r : Arg)
    (hev1 : h1._events = .object ev1)
    (hslot : ev1 X = .array [⟨.onceHandler n (some S) (.function a) .undefined, .undefined⟩] [])
    (hbody : forEach run (prog a) h1 = ⟨h2, cs, .ok, r⟩)
    (hoff : off h2 (.string S) (.onceHandler n (some S) (.function a) .undefined) .undefined
      = Out.done h3)
    (hidx : ev1 (X ++ "_idx") = .undefined
      ∨ ((∃ l p, ev1 (X ++ "_idx") = .array l p)
        ∧ h3.objectAt h1.detached.length (X ++ "_idx") = .array [] [])) :
    fire prog run h1 X data
      = ⟨h3, ⟨.onceHandler n (some S) (.function a) .undefined, .host,
            extend [] [data, [("type", .string X), ("target", .host)]]⟩
          :: ⟨.function a, .undefined,
            extend [] [data, [("type", .string X), ("target", .host)]]⟩ :: cs, .ok, .host⟩ := by
  refine fire_eval prog run h1 h3 ev1 X data _ _ _ .host hev1 hslot ?_
    (forIn_now_empty prog run _ _ _ _ _ hidx)
  simp only [forEach, invoke_adapter_body prog run S a n _ _ _ h1 h2 cs r hbody, hoff]
  simp [Out.done, Out.andThen]

/-- The dispatch of a type whose plain-path sequence is emptied and whose index
is absent or emptied invokes nothing. -/
theorem fire_emptied (prog : Prog) (run : Call → Host → Out) (h : Host) (ev : Events)
    (X : String) (data : Obj) (hev : h._events = .object ev) (hslot : ev X = .array [] [])
    (hidx : ev (X ++ "_idx") = .undefined ∨ ev (X ++ "_idx") = .array [] []) :
    fire prog run h X data = ⟨h, [], .ok, .host⟩ := by
  refine fire_eval prog run h h ev X data [] [] [] .host hev hslot rfl ?_
  apply forIn_now_empty
  rcases hidx with hu | ha
  · exact Or.inl hu
  · refine Or.inr ⟨⟨_, _, ha⟩, ?_⟩
    rw [Host.objectAt_self, Host.eventsOrNew_of_object hev]
    exact ha

/-- The dispatch of a type whose only record is an adapter of `once` on the
plain path, when the wrapped function does not return: the adapter is not
removed. -/
theorem fire_adapter_stuck (prog : Prog) (run : Call → Host → Out) (h h2 : Host) (ev : Events)
    (X : String) (S : Option String) (a n : Nat) (ctx : Arg) (data : Obj)
    (cs : List Invocation) (st : Status) (r : Arg)
    (hev : h._events = .object ev)
    (hslot : ev X = .array [⟨.onceHandler n S (.function a) ctx, .undefined⟩] [])
    (hbody : forEach run (prog a) h = ⟨h2, cs, st, r⟩) (hst : st ≠ .ok) :
    fire prog run h X data
      = ⟨h2, ⟨.onceHandler n S (.function a) ctx, .host,
            extend [] [data, [("type", .string X), ("target", .host)]]⟩
          :: ⟨.function a, ctx,
            extend [] [data, [("type", .string X), ("target", .host)]]⟩ :: cs, st, .undefined⟩ := by
  have hhas : truthy (hasListener h X) = true := by
    simp [hasListener, hev, Val.orElse, hslot, truthy]
  have hfire : fire prog run h X data = fire prog run h X data := rfl
  conv at hfire => rhs; unfold fire
  simp only [hhas, Bool.not_true, Bool.false_eq_true, if_false, hev, hslot] at hfire
  simp only [truthy, snapshot, if_true, forEach, invoke, hbody] at hfire
  rw [hfire]
  cases st with
  | ok => exact absurd rfl hst
  | typeError => simp [Out.andThen]
  | outOfFuel => simp [Out.andThen]

/-- A wrapped function whose body dispatches the type of its own adapter: at
every bound `n` on the depth of nesting the dispatch runs out of fuel, leaves
the adapter in place and has invoked the function `n` times. -/
theorem fire_reentrant_adapter (prog : Prog) (h : Host) (ev : Events) (X : String)
    (S : Option String) (a m : Nat) (ctx : Arg) (data0 : Obj)
    (hev : h._events = .object ev)
    (hslot : ev X = .array [⟨.onceHandler m S (.function a) ctx, .undefined⟩] [])
    (hprog : prog a = [.fire X data0]) (n : Nat) (data : Obj) :
    ∃ cs r, exec prog n (.fire X data) h = ⟨h, cs, .outOfFuel, r⟩
      ∧ (cs.filter (fun c => c.fn = .function a)).length = n := by
  induction n generalizing data with
  | zero => exact ⟨[], .undefined, rfl, rfl⟩
  | succ n ih =>
    obtain ⟨cs, r, hrun, hcount⟩ := ih data0
    have hbody : forEach (exec prog n) (prog a) h = ⟨h, cs, .outOfFuel, r⟩ := by
      rw [hprog]
      simp [forEach, hrun, Out.andThen]
    refine ⟨_, _, fire_adapter_stuck prog (exec prog n) h h ev X S a m ctx data cs .outOfFuel r
      hev hslot hbody (by decide), ?_⟩
    simp [List.filter_cons, hcount]

/-- The dispatches that follow `once('T1 T2', f)`, from a host whose registry
holds the one adapter under both types, when the body of `f` returns and
leaves the keys of the two types as they were: the first dispatch invokes the
adapter, `f` and what the body of `f` invokes, and empties both sequences; the
later dispatches invoke nothing. -/
theorem once_pair_core (prog : Prog) (fuel : Nat) (h1 h2 : Host) (ev1 ev2 : Events)
    (T1 T2 X : String) (a n : Nat) (data : Obj) (later : List (String × Obj))
    (cs : List Invocation) (r : Arg)
    (h12 : T1 ≠ T2) (hT1 : ' ' ∉ T1.data) (hT2 : ' ' ∉ T2.data)
    (hev1 : h1._events = .object ev1) (hdet1 : h1.detached = [])
    (hs1 : ev1 T1 = .array
      [⟨.onceHandler n (some (T1 ++ " " ++ T2)) (.function a) .undefined, .undefined⟩] [])
    (hs2 : ev1 T2 = .array
      [⟨.onceHandler n (some (T1 ++ " " ++ T2)) (.function a) .undefined, .undefined⟩] [])
    (hother : ∀ Y, Y = T1 ∨ Y = T2 →
      ev1 (Y ++ "_idx") = .undefined ∨ Y ++ "_idx" = T1 ∨ Y ++ "_idx" = T2)
    (hbody : forEach (exec prog fuel) (prog a) h1 = ⟨h2, cs, .ok, r⟩)
    (hev2 : h2._events = .object ev2) (hdet2 : h2.detached = [])
    (hkeep : ∀ k ∈ [T1, T2, T1 ++ "_idx", T2 ++ "_idx"], ev2 k = ev1 k)
    (hX : X = T1 ∨ X = T2) (hlater : ∀ p ∈ later, p.1 = T1 ∨ p.1 = T2) :
    ∃ h3, fire prog (exec prog fuel) h1 X data
        = ⟨h3, ⟨.onceHandler n (some (T1 ++ " " ++ T2)) (.function a) .undefined, .host,
              extend [] [data, [("type", .string X), ("target", .host)]]⟩
            :: ⟨.function a, .undefined,
              extend [] [data, [("type", .string X), ("target", .host)]]⟩ :: cs, .ok, .host⟩
      ∧ entriesOf (h3.eventsOrNew T1) = [] ∧ entriesOf (h3.eventsOrNew T2) = []
      ∧ run prog (fuel + 1) (later.map fun p => .fire p.1 p.2) h3 = Out.done h3 := by
  have hs1b : ev2 T1 = .array
      [⟨.onceHandler n (some (T1 ++ " " ++ T2)) (.function a) .undefined, .undefined⟩] [] := by
    rw [hkeep T1 (by simp), hs1]
  have hs2b : ev2 T2 = .array
      [⟨.onceHandler n (some (T1 ++ " " ++ T2)) (.function a) .undefined, .undefined⟩] [] := by
    rw [hkeep T2 (by simp), hs2]
  have hoff := off_pair h2 ev2 T1 T2
    (.onceHandler n (some (T1 ++ " " ++ T2)) (.function a) .undefined) _ _ _ _ h12 hT1 hT2 hev2
    hs1b hs2b
  simp only [removeFirst, if_true] at hoff
  have he1 : ((ev2.set T1 (.array [] [])).set T2 (.array [] [])) T1 = .array [] [] := by
    simp [Events.set_other _ _ h12]
  have he2 : ((ev2.set T1 (.array [] [])).set T2 (.array [] [])) T2 = .array [] [] := by
    simp
  have hslot3 : ∀ Y, Y = T1 ∨ Y = T2 →
      ((ev2.set T1 (.array [] [])).set T2 (.array [] [])) Y = .array [] [] := by
    intro Y hY
    rcases hY with rfl | rfl
    · exact he1
    · exact he2
  have hidx3 : ∀ Y, Y = T1 ∨ Y = T2 →
      ((ev2.set T1 (.array [] [])).set T2 (.array [] [])) (Y ++ "_idx") = .undefined
      ∨ ((ev2.set T1 (.array [] [])).set T2 (.array [] [])) (Y ++ "_idx") = .array [] [] := by
    intro Y hY
    rcases hother Y hY with hu | hc | hc
    · by_cases hc2 : Y ++ "_idx" = T2
      · right; rw [hc2]; exact he2
      · by_cases hc1 : Y ++ "_idx" = T1
        · right; rw [hc1]; exact he1
        · left
          rw [Events.set_other _ _ hc2, Events.set_other _ _ hc1,
            hkeep _ (by rcases hY with rfl | rfl <;> simp), hu]
    · right; rw [hc]; exact he1
    · right; rw [hc]; exact he2
  have hslotX : ev1 X = .array
      [⟨.onceHandler n (some (T1 ++ " " ++ T2)) (.function a) .undefined, .undefined⟩] [] := by
    rcases hX with rfl | rfl
    · exact hs1
    · exact hs2
  have hat : ∀ k, (h2.setEvents ((ev2.set T1 (.array [] [])).set T2 (.array [] []))).objectAt
      h1.detached.length k = ((ev2.set T1 (.array [] [])).set T2 (.array [] [])) k := by
    intro k
    simp [Host.objectAt, hdet1, hdet2, Host.setEvents, Host.eventsOrNew]
  refine ⟨h2.setEvents ((ev2.set T1 (.array [] [])).set T2 (.array [] [])), ?_, ?_, ?_, ?_⟩
  · refine fire_adapter prog _ h1 h2 _ ev1 X _ a n data cs r hev1 hslotX hbody hoff ?_
    rcases hother X hX with hu | hc | hc
    · exact Or.inl hu
    · refine Or.inr ⟨⟨_, _, by rw [hc]; exact hs1⟩, ?_⟩
      rw [hat, hc]
      exact he1
    · refine Or.inr ⟨⟨_, _, by rw [hc]; exact hs2⟩, ?_⟩
      rw [hat, hc]
      exact he2
  · simp [entriesOf, Events.set_other _ _ h12]
  · simp [entriesOf]
  · induction later with
    | nil => rfl
    | cons p rest ih =>
      rw [List.map_cons, run_cons, exec_fire,
        fire_emptied prog _ _ _ p.1 p.2 rfl (hslot3 p.1 (hlater p (by simp)))
          (hidx3 p.1 (hlater p (by simp)))]
      have hrest := ih (fun q hq => hlater q (by simp [hq]))
      show (Out.done _).andThen _ = _
      rw [Out.done_andThen]
      exact hrest

theorem Out.andThen_calls_prefix (o : Out) (k : Host → Out) :
    ∃ rest, (o.andThen k).calls = o.calls ++ rest := by
  unfold Out.andThen
  cases o.status with
  | ok => exact ⟨(k o.host).calls, rfl⟩
  | typeError => exact ⟨[], by simp⟩
  | outOfFuel => exact ⟨[], by simp⟩

/-- The first invocation of `fire`: the first record of the plain-path sequence,
with `this` equal to the host and the event object of this dispatch, whatever
the handler bodies do. -/
theorem fire_calls_head (prog : Prog) (run : Call → Host → Out) (h : Host) (ev : Events)
    (T : String) (data : Obj) (e : Entry) (l : List Entry) (p : List (Key × Option Entry))
    (a : Nat) (hev : h._events = .object ev) (hslot : ev T = .array (e :: l) p)
    (hfn : e.fn = .function a) :
    ∃ rest, (fire prog run h T data).calls
      = ⟨.function a, .host, extend [] [data, [("type", .string T), ("target", .host)]]⟩
        :: rest := by
  have hhas : truthy (hasListener h T) = true := by
    simp [hasListener, hev, Val.orElse, hslot, truthy]
  have hfire : fire prog run h T data = fire prog run h T data := rfl
  conv at hfire => rhs; unfold fire
  simp only [hhas, Bool.not_true, Bool.false_eq_true, if_false, hev, hslot] at hfire
  simp only [truthy, snapshot, if_true, forEach, hfn, invoke] at hfire
  rw [hfire]
  obtain ⟨r1, h1⟩ := Out.andThen_calls_prefix
    (⟨(forEach run (prog a) h).host,
      ⟨.function a, .host, extend [] [data, [("type", .string T), ("target", .host)]]⟩
        :: (forEach run (prog a) h).calls, (forEach run (prog a) h).status, .undefined⟩ : Out)
    (forEach (fun e h => invoke prog run e.fn .host
      (extend [] [data, [("type", .string T), ("target", .host)]]) h) l)
  obtain ⟨r2, h2⟩ := Out.andThen_calls_prefix
    ((⟨(forEach run (prog a) h).host,
      ⟨.function a, .host, extend [] [data, [("type", .string T), ("target", .host)]]⟩
        :: (forEach run (prog a) h).calls, (forEach run (prog a) h).status, .undefined⟩ : Out).andThen
      (forEach (fun e h => invoke prog run e.fn .host
        (extend [] [data, [("type", .string T), ("target", .host)]]) h) l))
    (forIn prog run h.detached.length (T ++ "_idx") (ev (T ++ "_idx"))
      (extend [] [data, [("type", .string T), ("target", .host)]]))
  refine ⟨(forEach run (prog a) h).calls ++ r1 ++ r2, ?_⟩
  simp only [h2, h1, List.cons_append, List.append_assoc]
/-! ## Claims -/

/-- C1: `fire` does not skip a tombstoned indexed-path entry.  After
`on('t', f1, c)`, `on('t', f2, c)`, `off('t', f1, c)` the type `t` has one
removed entry and one live listener; `fire('t')` throws a `TypeError` at the
tombstone and the live listener `f2` is not invoked.  With the live entry
registered first, `f2` is invoked and `fire` throws right after. -/
theorem fire_throws_at_tombstone :
    (run inert 1 [.on_ (.string "t") (.function 1) (.object 7),
        .on_ (.string "t") (.function 2) (.object 7),
        .off (.string "t") (.function 1) (.object 7)] Host.fresh).status = .ok
    ∧ truthy (hasListener (run inert 1 [.on_ (.string "t") (.function 1) (.object 7),
        .on_ (.string "t") (.function 2) (.object 7),
        .off (.string "t") (.function 1) (.object 7)] Host.fresh).host "t") = true
    ∧ (run inert 1 [.on_ (.string "t") (.function 1) (.object 7),
        .on_ (.string "t") (.function 2) (.object 7),
        .off (.string "t") (.function 1) (.object 7),
        .fire "t" []] Host.fresh).status = .typeError
    ∧ (run inert 1 [.on_ (.string "t") (.function 1) (.object 7),
        .on_ (.string "t") (.function 2) (.object 7),
        .off (.string "t") (.function 1) (.object 7),
        .fire "t" []] Host.fresh).calls = []
    ∧ (run inert 1 [.on_ (.string "t") (.function 2) (.object 7),
        .on_ (.string "t") (.function 1) (.object 7),
        .off (.string "t") (.function 1) (.object 7),
        .fire "t" []] Host.fresh).status = .typeError := by
  decide

/-- C2: on the plain path `hasListener(T)` stays truthy after the single
registration is removed.  For every type name `T` that is not the name of an
inherited property and every handler `fn`: `hasListener(T)` is `undefined` on
a fresh host and the one-element sequence after `_on(T, fn)`, but after the
matching `_off(T, fn)` it is the emptied array, which is truthy.  On the
indexed path it is the count 1 after `_on(T, fn, c)` and the count 0, falsy,
after `_off(T, fn, c)`. -/
theorem hasListener_truthy_after_plain_removal (T : String) (fn : Arg) (a c : Nat)
    (hi : inherited T = false) :
    hasListener Host.fresh T = .undefined
    ∧ hasListener (_on Host.fresh T fn .undefined).host T = .array [⟨fn, .undefined⟩] []
    ∧ hasListener (_off (_on Host.fresh T fn .undefined).host T fn .undefined).host T
        = .array [] []
    ∧ truthy (hasListener (_off (_on Host.fresh T fn .undefined).host T fn .undefined).host T)
        = true
    ∧ hasListener (_on Host.fresh T (.function a) (.object c)).host T = .number 1
    ∧ hasListener (_off (_on Host.fresh T (.function a) (.object c)).host T
        (.function a) (.object c)).host T = .number 0 := by
  have he : Events.empty T = .undefined := Events.empty_of_not_inherited hi
  refine ⟨rfl, ?_, ?_, ?_, ?_, ?_⟩
  · simp [_on, hasListener, Host.fresh, Host.eventsOrNew, contextId, Arg.truthy, Val.orElse,
      he, truthy, Val.push, Out.done]
  · simp [_on, _off, hasListener, Host.fresh, Host.eventsOrNew, contextId, Arg.truthy,
      Val.orElse, he, truthy, Val.push, Out.done, removeListener, removeFirst]
  · simp [_on, _off, hasListener, Host.fresh, Host.eventsOrNew, contextId, Arg.truthy,
      Val.orElse, he, truthy, Val.push, Out.done, removeListener, removeFirst]
  · simp [_on, hasListener, Host.fresh, Host.eventsOrNew, contextId, Arg.truthy, Val.orElse,
      he, truthy, Val.has, Val.setProp, lookup, assign, stamp, addOne, Out.done,
      Events.set_other, ne_append_idx, ne_append_len, idx_ne_len, len_ne_idx]
  · simp [_on, _off, hasListener, Host.fresh, Host.eventsOrNew, contextId, Arg.truthy,
      Val.orElse, he, truthy, Val.has, Val.setProp, lookup, assign, stamp, addOne,
      decrement, toNumber, Out.done, Events.set_other, ne_append_idx, ne_append_len,
      idx_ne_len, len_ne_idx]

/-- C2 (witness): after `on('t', f)` and `off('t', f)` the value of
`hasListener('t')` is the emptied array, and it is truthy. -/
theorem hasListener_truthy_after_plain_removal_witness :
    hasListener (_off (_on Host.fresh "t" (.function 1) .undefined).host "t" (.function 1)
        .undefined).host "t" = .array [] []
    ∧ truthy (hasListener (_off (_on Host.fresh "t" (.function 1) .undefined).host "t"
        (.function 1) .undefined).host "t") = true :=
  ⟨(hasListener_truthy_after_plain_removal "t" (.function 1) 1 7 (by decide)).2.2.1,
   (hasListener_truthy_after_plain_removal "t" (.function 1) 1 7 (by decide)).2.2.2.1⟩

/-- C4 (counterexample): `on({t: f}, undefined, c)` registers `f` on the plain
path: nothing is stored under `t_idx`, and `fire('t')` invokes `f` with `this`
equal to the host, not to `c`. -/
theorem bulk_on_ignores_third_argument :
    (on_ Host.fresh (.object [("t", .function 1)]) .undefined (.object 7)).host.eventsOrNew "t"
      = .array [⟨.function 1, .undefined⟩] []
    ∧ (on_ Host.fresh (.object [("t", .function 1)]) .undefined (.object 7)).host.eventsOrNew
        "t_idx" = .undefined
    ∧ (run inert 1 [.on_ (.object [("t", .function 1)]) .undefined (.object 7),
        .fire "t" []] Host.fresh).calls
      = [⟨.function 1, .host, [("type", .string "t"), ("target", .host)]⟩] := by
  decide

/-- C4 (amended): in the bulk form the context applied to every entry is the
second positional argument and the third is ignored.  `on(types, c, x)` runs
`_on(T, types[T], c)` for every own key `T`; on a fresh host, for a key `T`
that is not the name of an inherited property, `on({T: f}, c, x)` registers
`f` for `T` on the indexed path with context `c`, and `fire(T)` first invokes
`f` with `this` equal to `c`. -/
theorem bulk_on_context_is_second_argument (prog : Prog) (fuel : Nat) (T : String)
    (a c : Nat) (x : Arg) (data : Obj) (own : List (String × Arg)) (ctx : Arg) (h : Host)
    (hi : inherited T = false) :
    on_ h (.object own) ctx x = forEach (fun p h => _on h p.1 p.2 ctx) own h
    ∧ (on_ Host.fresh (.object [(T, .function a)]) (.object c) x).host.eventsOrNew (T ++ "_idx")
        = .object [(⟨.function a, .object c⟩, some ⟨.function a, .object c⟩)]
    ∧ (on_ Host.fresh (.object [(T, .function a)]) (.object c) x).host.eventsOrNew (T ++ "_len")
        = .number 1
    ∧ (on_ Host.fresh (.object [(T, .function a)]) (.object c) x).host.eventsOrNew T
        = .undefined
    ∧ (fire prog (exec prog fuel)
          (on_ Host.fresh (.object [(T, .function a)]) (.object c) x).host T data).calls.head?
        = some ⟨.function a, .object c,
            extend [] [data, [("type", .string T), ("target", .host)]]⟩ := by
  have he : Events.empty T = .undefined := Events.empty_of_not_inherited hi
  refine ⟨rfl, ?_, ?_, ?_, ?_⟩
  · simp [on_, forEach, Out.andThen, _on, Host.fresh, Host.eventsOrNew, contextId, Arg.truthy,
      Val.orElse, he, truthy, Val.has, Val.setProp, lookup, assign, stamp, addOne,
      Out.done, Events.set_other, ne_append_idx, ne_append_len, idx_ne_len, len_ne_idx]
  · simp [on_, forEach, Out.andThen, _on, Host.fresh, Host.eventsOrNew, contextId, Arg.truthy,
      Val.orElse, he, truthy, Val.has, Val.setProp, lookup, assign, stamp, addOne,
      Out.done, Events.set_other, ne_append_idx, ne_append_len, idx_ne_len, len_ne_idx]
  · simp [on_, forEach, Out.andThen, _on, Host.fresh, Host.eventsOrNew, contextId, Arg.truthy,
      Val.orElse, he, truthy, Val.has, Val.setProp, lookup, assign, stamp, addOne,
      Out.done, Events.set_other, ne_append_idx, ne_append_len, idx_ne_len, len_ne_idx]
  · simp [fire, hasListener, forIn, visit, typeIndexNow, Host.objectAt, ownKeys, Val.getOwn,
      invoke, on_, forEach, Out.andThen, _on, Host.fresh, Host.eventsOrNew, contextId,
      Arg.truthy, Val.orElse, he, truthy, Val.has, Val.setProp, lookup, assign,
      stamp, addOne, Out.done, Events.set_other, ne_append_idx, ne_append_len, idx_ne_len,
      len_ne_idx]
    split <;> simp

/-- C4 (witness): `on({t: f}, c)` on a fresh host, then `fire('t')`. -/
theorem bulk_on_context_is_second_argument_witness :
    (fire inert (exec inert 1)
        (on_ Host.fresh (.object [("t", .function 1)]) (.object 7) .undefined).host "t"
        []).calls.head?
      = some ⟨.function 1, .object 7,
          extend [] [[], [("type", .string "t"), ("target", .host)]]⟩ :=
  (bulk_on_context_is_second_argument inert 1 "t" 1 7 .undefined [] [] .undefined Host.fresh
    (by decide)).2.2.2.2

/-- C10: plain-path `off` removes exactly one entry.  When the sequence stored
for `T` is `pre ++ e :: post`, where `e` is the first entry whose handler is
`fn`, then `_off(T, fn)` with no context or with the host as context stores
`pre ++ post` for `T` and changes nothing else: the entries before and after,
later duplicates of `fn` among them, stay in their order, and the `ctx` of `e`
is not looked at.  For a non-empty type name `T`, `off(T, fn)` is that call. -/
theorem off_plain_removes_first_match (h : Host) (ev : Events) (T : String) (fn ctx : Arg)
    (pre : List Entry) (e : Entry) (post : List Entry) (p : List (Key × Option Entry))
    (hctx : ctx = .undefined ∨ ctx = .host) (hev : h._events = .object ev)
    (hslot : ev T = .array (pre ++ e :: post) p) (he : e.fn = fn)
    (hpre : ∀ x ∈ pre, x.fn ≠ fn) :
    _off h T fn ctx = Out.done (h.setEvents (ev.set T (.array (pre ++ post) p)))
    ∧ (T ≠ "" → ' ' ∉ T.data →
        off h (.string T) fn ctx = Out.done (h.setEvents (ev.set T (.array (pre ++ post) p)))) := by
  have hc := contextId_none_of hctx
  have hoff : _off h T fn ctx = Out.done (h.setEvents (ev.set T (.array (pre ++ post) p))) := by
    simp [_off, hev, hc, hslot, truthy, removeListener, removeFirst_append fn pre e post he hpre]
  exact ⟨hoff, fun hne hT => by rw [off_single h T fn ctx hT hne, hoff]⟩

/-- C10 (witness): with the sequence `[g, f, g, f]` stored for `click`,
`off('click', f)` leaves `[g, g, f]`. -/
theorem off_plain_removes_first_match_witness :
    off (Host.fresh.setEvents (Events.empty.set "click" (.array
        [⟨.function 2, .undefined⟩, ⟨.function 1, .undefined⟩, ⟨.function 2, .undefined⟩,
          ⟨.function 1, .undefined⟩] []))) (.string "click") (.function 1) .undefined
      = Out.done ((Host.fresh.setEvents (Events.empty.set "click" (.array
        [⟨.function 2, .undefined⟩, ⟨.function 1, .undefined⟩, ⟨.function 2, .undefined⟩,
          ⟨.function 1, .undefined⟩] []))).setEvents
          ((Events.empty.set "click" (.array
        [⟨.function 2, .undefined⟩, ⟨.function 1, .undefined⟩, ⟨.function 2, .undefined⟩,
          ⟨.function 1, .undefined⟩] [])).set "click" (.array
        ([⟨.function 2, .undefined⟩] ++ [⟨.function 2, .undefined⟩, ⟨.function 1, .undefined⟩])
          []))) :=
  (off_plain_removes_first_match _ _ "click" (.function 1) .undefined
    [⟨.function 2, .undefined⟩] ⟨.function 1, .undefined⟩
    [⟨.function 2, .undefined⟩, ⟨.function 1, .undefined⟩] [] (Or.inl rfl) rfl
    (by simp) rfl (by decide)).2 (by decide) (by decide)

/-- C9: plain-path dispatch uses a snapshot.  Let the sequence `l` be stored for
the type name `T` when `fire(T)` is entered, every handler in it being a user
function whose body makes only plain-path `on(T, ..)` and `off(T, ..)` calls.
Then the plain-path pass invokes exactly the handlers of `l`, in the order of
`l`, each with `this` equal to the host, whatever those bodies add or remove.
The host `h1` that the pass leaves is the one obtained by invoking the
handlers of `l` in turn, and in it every key other than `T` of the registry
object that `fire` read holds what it held when `fire` was entered.  The
invocations of `fire` are those of `l` followed by those of the indexed-path
loop run on `h1`; when the index of `T` holds the live records `props` of
functions that make no call on the host (or nothing is stored under `T_idx`
and `props` is empty), the call returns `this` and its invocations are those
of `l` followed by those of `props`, and nothing else: no handler that the
bodies added is invoked, and every handler of `l` that they removed is. -/
theorem fire_plain_snapshot (prog : Prog) (fuel : Nat) (h : Host) (ev : Events) (T : String)
    (data : Obj) (l : List Entry) (p : List (Key × Option Entry)) (hT : ' ' ∉ T.data)
    (hev : h._events = .object ev) (hslot : ev T = .array l p)
    (hbody : ∀ e ∈ l, ∃ a, e.fn = .function a ∧ ∀ c ∈ prog a, c.plainOnOff T = true) :
    ∃ h1 : Host,
      forEach (fun e h => invoke prog (exec prog (fuel + 1)) e.fn .host
          (extend [] [data, [("type", .string T), ("target", .host)]]) h) l h
        = ⟨h1, l.map (fun e => ⟨e.fn, .host,
            extend [] [data, [("type", .string T), ("target", .host)]]⟩), .ok, .host⟩
      ∧ (∀ k, k ≠ T → h1.objectAt h.detached.length k = ev k)
      ∧ (exec prog (fuel + 2) (.fire T data) h).calls
        = l.map (fun e => ⟨e.fn, .host,
            extend [] [data, [("type", .string T), ("target", .host)]]⟩)
          ++ (forIn prog (exec prog (fuel + 1)) h.detached.length (T ++ "_idx")
              (ev (T ++ "_idx")) (extend [] [data, [("type", .string T), ("target", .host)]])
              h1).calls
      ∧ (ev (T ++ "_idx") = .undefined →
          exec prog (fuel + 2) (.fire T data) h
            = ⟨h1, l.map (fun e => ⟨e.fn, .host,
                extend [] [data, [("type", .string T), ("target", .host)]]⟩), .ok, .host⟩)
      ∧ (∀ props : List (Key × Entry),
          ev (T ++ "_idx") = .object (props.map fun q => (q.1, some q.2)) →
          (props.map Prod.fst).Nodup →
          (∀ q ∈ props, ∃ a, q.2.fn = .function a ∧ prog a = []) →
          exec prog (fuel + 2) (.fire T data) h
            = ⟨h1, l.map (fun e => ⟨e.fn, .host,
                  extend [] [data, [("type", .string T), ("target", .host)]]⟩)
                ++ props.map (fun q => ⟨q.2.fn, q.2.ctx,
                  extend [] [data, [("type", .string T), ("target", .host)]]⟩), .ok, .host⟩) := by
  have hor : h.eventsOrNew = ev := Host.eventsOrNew_of_object hev
  obtain ⟨h1, hpass, hframe⟩ := plain_pass_frame prog fuel T
    (extend [] [data, [("type", .string T), ("target", .host)]]) hT l hbody ev
    h.detached.length h
    ⟨Or.inr ⟨l, p, by rw [hor]; exact hslot⟩, Nat.le_refl _, fun _ => ⟨ev, hev⟩,
      fun k _ => by rw [Host.objectAt_self, hor]⟩
  have hhas : truthy (hasListener h T) = true := by
    simp [hasListener, hev, Val.orElse, hslot, truthy]
  have hfire : exec prog (fuel + 2) (.fire T data) h
      = fire prog (exec prog (fuel + 1)) h T data := rfl
  conv at hfire => rhs; unfold fire
  simp only [hhas, Bool.not_true, Bool.false_eq_true, if_false, hev, hslot] at hfire
  simp only [truthy, snapshot, if_true, hpass] at hfire
  refine ⟨h1, hpass, hframe, ?_, ?_, ?_⟩
  · rw [hfire]
    simp [Out.andThen]
  · intro hidx
    rw [hfire, hidx]
    simp [Out.andThen, forIn, typeIndexNow, ownKeys, forEach, Out.done]
  · intro props hidx hnd hprops
    have hne : T ++ "_idx" ≠ T := by
      intro hEq
      have hlen := congrArg String.length hEq
      have h4 : ("_idx" : String).length = 4 := by decide
      rw [String.length_append, h4] at hlen
      omega
    have hnow : h1.objectAt h.detached.length (T ++ "_idx")
        = .object (props.map fun q => (q.1, some q.2)) := by
      rw [hframe _ hne, hidx]
    have hfor := forIn_of_now prog (exec prog (fuel + 1)) h1 h.detached.length (T ++ "_idx")
      (extend [] [data, [("type", .string T), ("target", .host)]]) props hnow hnd hprops
    rw [hidx] at hfire
    rw [hfire]
    simp [Out.andThen, hfor]

/-- C9 (witness): `f1` then `f2` are registered for `click` on the plain path
and `f4` with the context object 7 on the indexed path, and the body of `f1`
removes `f2` and registers `f3`.  The dispatch still invokes `f1` then `f2`,
then `f4`, and not `f3`; afterwards the sequence is `f1`, `f3`. -/
theorem fire_plain_snapshot_witness :
    (exec snapshotDemo 2 (.fire "click" [])
        (Host.fresh.setEvents (((Events.empty.set "click"
          (.array [⟨.function 1, .undefined⟩, ⟨.function 2, .undefined⟩] [])).set "click_idx"
          (.object [(⟨.function 4, .object 7⟩, some ⟨.function 4, .object 7⟩)])).set "click_len"
          (.number 1)))).calls
      = [⟨.function 1, .host, [("type", .string "click"), ("target", .host)]⟩,
         ⟨.function 2, .host, [("type", .string "click"), ("target", .host)]⟩,
         ⟨.function 4, .object 7, [("type", .string "click"), ("target", .host)]⟩]
    ∧ (exec snapshotDemo 2 (.fire "click" [])
        (Host.fresh.setEvents (((Events.empty.set "click"
          (.array [⟨.function 1, .undefined⟩, ⟨.function 2, .undefined⟩] [])).set "click_idx"
          (.object [(⟨.function 4, .object 7⟩, some ⟨.function 4, .object 7⟩)])).set "click_len"
          (.number 1)))).host.eventsOrNew "click"
      = .array [⟨.function 1, .undefined⟩, ⟨.function 3, .undefined⟩] [] := by
  obtain ⟨h1, -, -, -, -, hfull⟩ := fire_plain_snapshot snapshotDemo 0
    (Host.fresh.setEvents (((Events.empty.set "click"
      (.array [⟨.function 1, .undefined⟩, ⟨.function 2, .undefined⟩] [])).set "click_idx"
      (.object [(⟨.function 4, .object 7⟩, some ⟨.function 4, .object 7⟩)])).set "click_len" (.number 1)))
    (((Events.empty.set "click"
      (.array [⟨.function 1, .undefined⟩, ⟨.function 2, .undefined⟩] [])).set "click_idx"
      (.object [(⟨.function 4, .object 7⟩, some ⟨.function 4, .object 7⟩)])).set "click_len" (.number 1))
    "click" [] [⟨.function 1, .undefined⟩, ⟨.function 2, .undefined⟩] [] (by decide) rfl
    (by decide) (by
      intro e he
      simp only [List.mem_cons, List.mem_singleton, List.not_mem_nil, or_false] at he
      rcases he with he | he
      · exact ⟨1, by rw [he], by decide⟩
      · exact ⟨2, by rw [he], by decide⟩)
  refine ⟨?_, by decide⟩
  rw [hfull [(⟨.function 4, .object 7⟩, ⟨.function 4, .object 7⟩)] (by decide) (by decide) (by
    intro q hq
    simp only [List.mem_singleton] at hq
    exact ⟨4, by rw [hq], by decide⟩)]
  rfl

/-- C5: with a type name that ends in `_len` the stored count is not the number
of live entries, because the plain-path sequence of the type `a_len` and the
count of the type `a` share the key `a_len`.  After `on('a_len', f1)` and
`on('a', f2, c)`, both of which return, one live entry is stored under `a_idx`
and the value stored under `a_len` is not the number 1 but the string
`[object Object]1`, the sequence of `a_len` with 1 appended.  Already after
`on('a_len', f1)` the value stored under `a_len` is that sequence, while
nothing is stored under `a_idx`.  A longer run over the types `a` and `a_len`
ends with the count -1 stored under `a_len` and no live entry under `a_idx`. -/
theorem count_invariant_fails_on_suffixed_name :
    (run inert 1 [.on_ (.string "a_len") (.function 1) .undefined,
        .on_ (.string "a") (.function 2) (.object 7)] Host.fresh).status = .ok
    ∧ liveCount ((run inert 1 [.on_ (.string "a_len") (.function 1) .undefined,
        .on_ (.string "a") (.function 2) (.object 7)] Host.fresh).host.eventsOrNew "a_idx") = 1
    ∧ (run inert 1 [.on_ (.string "a_len") (.function 1) .undefined,
        .on_ (.string "a") (.function 2) (.object 7)] Host.fresh).host.eventsOrNew "a_len"
      = .string "[object Object]1"
    ∧ ¬ CountInvariant (run inert 1 [.on_ (.string "a_len") (.function 1) .undefined,
        .on_ (.string "a") (.function 2) (.object 7)] Host.fresh).host.eventsOrNew "a"
    ∧ ¬ CountInvariant (run inert 1 [.on_ (.string "a_len") (.function 1) .undefined]
        Host.fresh).host.eventsOrNew "a"
    ∧ (run inert 1 [.on_ (.string "a_len") (.function 1) .undefined]
        Host.fresh).host.eventsOrNew "a_len" = .array [⟨.function 1, .undefined⟩] []
    ∧ (run inert 1 [.on_ (.string "a_len") (.function 1) .undefined,
        .on_ (.string "a") (.function 2) (.object 7),
        .on_ (.string "a") (.function 3) (.object 7),
        .off (.string "a") (.function 2) (.object 7),
        .on_ (.string "a_len") (.function 4) .undefined,
        .off (.string "a_len") (.function 4) .undefined,
        .off (.string "a") (.function 3) (.object 7)] Host.fresh).host.eventsOrNew "a_len"
      = .number (-1)
    ∧ liveCount ((run inert 1 [.on_ (.string "a_len") (.function 1) .undefined,
        .on_ (.string "a") (.function 2) (.object 7),
        .on_ (.string "a") (.function 3) (.object 7),
        .off (.string "a") (.function 2) (.object 7),
        .on_ (.string "a_len") (.function 4) .undefined,
        .off (.string "a_len") (.function 4) .undefined,
        .off (.string "a") (.function 3) (.object 7)] Host.fresh).host.eventsOrNew "a_idx")
      = 0 := by
  unfold CountInvariant
  decide

/-- C6: with a type name that ends in `_len`, an entry registered by `on` is
not invoked, because the plain-path sequence of the type `y_len` and the count
of the type `y` share the key `y_len`.  After `on('y_len', f1)` and
`on('y', f2, c)`, both of which return, the count of `y` has replaced the
sequence of `y_len`: `fire('y_len')` throws a `TypeError` and invokes nothing.
After `on('x_idx', f1)` and `on('x', f2, c)`, `fire('x')` invokes `f1`, which
is registered for `x_idx`, with `this` undefined, before `f2`.  And a handler
body can stop the dispatch: after `on('click', f1)` and `on('click', f2, c)`,
where the body of `f1` is `off('click', f2, c)`, `fire('click')` invokes `f1`
and throws at the tombstone of `f2`. -/
theorem fire_order_fails_on_suffixed_name :
    (run inert 1 [.on_ (.string "y_len") (.function 1) .undefined,
        .on_ (.string "y") (.function 2) (.object 7)] Host.fresh).status = .ok
    ∧ (run inert 1 [.on_ (.string "y_len") (.function 1) .undefined,
        .on_ (.string "y") (.function 2) (.object 7), .fire "y_len" []] Host.fresh).status
      = .typeError
    ∧ (run inert 1 [.on_ (.string "y_len") (.function 1) .undefined,
        .on_ (.string "y") (.function 2) (.object 7), .fire "y_len" []] Host.fresh).calls = []
    ∧ (run inert 1 [.on_ (.string "x_idx") (.function 1) .undefined,
        .on_ (.string "x") (.function 2) (.object 7), .fire "x" []] Host.fresh).calls
      = [⟨.function 1, .undefined, [("type", .string "x"), ("target", .host)]⟩,
         ⟨.function 2, .object 7, [("type", .string "x"), ("target", .host)]⟩]
    ∧ (run unregisterDemo 2 [.on_ (.string "click") (.function 1) .undefined,
        .on_ (.string "click") (.function 2) (.object 7), .fire "click" []] Host.fresh).status
      = .typeError
    ∧ (run unregisterDemo 2 [.on_ (.string "click") (.function 1) .undefined,
        .on_ (.string "click") (.function 2) (.object 7), .fire "click" []] Host.fresh).calls
      = [⟨.function 1, .host, [("type", .string "click"), ("target", .host)]⟩] := by
  decide

/-- C12: `off()` with no arguments discards the whole registry, and
`hasListener` then returns `null`, not the boolean `false`.  For every host
state and every type `T`, after `off()` (whatever the other arguments) the
registry is `null`, the call `hasListener(T)` returns that `null`, a falsy
value, and `fire(T)` returns the host without invoking a handler or touching
the host. -/
theorem off_without_arguments_discards_registry (prog : Prog) (run : Call → Host → Out)
    (h : Host) (T : String) (fn ctx : Arg) (data : Obj) :
    (off h .undefined fn ctx).status = .ok
    ∧ (off h .undefined fn ctx).host._events = .null
    ∧ hasListener (off h .undefined fn ctx).host T = .null
    ∧ truthy (hasListener (off h .undefined fn ctx).host T) = false
    ∧ fire prog run (off h .undefined fn ctx).host T data
        = Out.done (off h .undefined fn ctx).host
    ∧ (fire prog run (off h .undefined fn ctx).host T data).calls = [] := by
  have hnull : (off h .undefined fn ctx).host._events = .null := by
    simp [off, Out.done, Host.clear_events]
  have hhas : hasListener (off h .undefined fn ctx).host T = .null := by
    simp [hasListener, hnull]
  have hfire : fire prog run (off h .undefined fn ctx).host T data
      = Out.done (off h .undefined fn ctx).host := by
    simp [fire, hhas, truthy]
  refine ⟨rfl, hnull, hhas, by rw [hhas]; rfl, hfire, by rw [hfire]; rfl⟩

/-- C16: dispatch without listeners is a no-op that returns the host.  For every
host state and type `T`: when `hasListener(T)` is falsy, `fire(T, P)` returns
`this` with no invocation and the host untouched; when `hasListener(T)` is
truthy the registry is an object, so the bare `return` of lines 183-185 is not
reached; and whenever `fire` returns, it returns `this`. -/
theorem fire_without_listeners_returns_host (prog : Prog) (run : Call → Host → Out) (h : Host)
    (T : String) (data : Obj) :
    (truthy (hasListener h T) = false → fire prog run h T data = ⟨h, [], .ok, .host⟩)
    ∧ (truthy (hasListener h T) = true → ∃ events, h._events = .object events)
    ∧ ((fire prog run h T data).status = .ok → (fire prog run h T data).ret = .host) := by
  have hobj : truthy (hasListener h T) = true → ∃ events, h._events = .object events := by
    intro ht
    cases hreg : h._events with
    | undefined => simp [hasListener, hreg, truthy] at ht
    | null => simp [hasListener, hreg, truthy] at ht
    | object ev => exact ⟨ev, rfl⟩
  refine ⟨?_, hobj, ?_⟩
  · intro hf
    simp [fire, hf, Out.done]
  · intro hok
    by_cases ht : truthy (hasListener h T) = true
    · obtain ⟨ev, hev⟩ := hobj ht
      have hfire : fire prog run h T data = fire prog run h T data := rfl
      conv at hfire => rhs; unfold fire
      simp only [ht, Bool.not_true, Bool.false_eq_true, if_false, hev] at hfire
      rw [hfire] at hok ⊢
      simp only at hok ⊢
      rw [hok]
    · simp only [Bool.not_eq_true] at ht
      simp [fire, ht, Out.done]

/-- C16 (witness): a fresh host has no listener for `click`, and a host with
one has a registry object and returns `this` from `fire`. -/
theorem fire_without_listeners_returns_host_witness :
    fire inert (exec inert 0) Host.fresh "click" [] = ⟨Host.fresh, [], .ok, .host⟩
    ∧ (∃ events, (_on Host.fresh "click" (.function 1) .undefined).host._events
        = .object events)
    ∧ (fire inert (exec inert 0) (_on Host.fresh "click" (.function 1) .undefined).host
        "click" []).ret = .host :=
  ⟨(fire_without_listeners_returns_host inert (exec inert 0) Host.fresh "click" []).1
      (by decide),
   (fire_without_listeners_returns_host inert (exec inert 0)
      (_on Host.fresh "click" (.function 1) .undefined).host "click" []).2.1 (by decide),
   (fire_without_listeners_returns_host inert (exec inert 0)
      (_on Host.fresh "click" (.function 1) .undefined).host "click" []).2.2 (by decide)⟩

/-- C13: event object construction.  For every type `T` and payload `P` (an
object: its keys are distinct), the event object built by `fire(T, P)` has
`type` equal to `T` and `target` equal to the host, also when `P` carries
fields of these names, and every other field of `P` with the value it has in
`P` (and no further field).  When no handler body calls `fire`, every
invocation made in the course of `fire(T, P)` is passed this object, on every
host and with any fuel.  The object is delivered: on a host whose plain-path
sequence for `T` starts with a user function, that function is the first
invocation of `fire(T, P)` and is passed this object, whatever the handler
bodies do; and on a host that holds the plain-path sequence `l` and the live
indexed-path records `props` of functions that make no call on the host,
`fire(T, P)` returns after it has invoked every handler of `l` and then of
`props`, each with this object. -/
theorem fire_event_object (prog : Prog) (fuel : Nat) (h : Host) (T : String) (data : Obj)
    (hdata : (data.map Prod.fst).Nodup)
    (hprog : ∀ id, ∀ c ∈ prog id, c.isFire = false) :
    Obj.get "type" (extend [] [data, [("type", .string T), ("target", .host)]])
      = some (.string T)
    ∧ Obj.get "target" (extend [] [data, [("type", .string T), ("target", .host)]])
      = some .host
    ∧ (∀ k, k ≠ "type" → k ≠ "target" →
        Obj.get k (extend [] [data, [("type", .string T), ("target", .host)]]) = Obj.get k data)
    ∧ (∀ inv ∈ (exec prog (fuel + 1) (.fire T data) h).calls,
        inv.event = extend [] [data, [("type", .string T), ("target", .host)]])
    ∧ (∀ (ev : Events) (e : Entry) (l : List Entry) (p : List (Key × Option Entry)) (a : Nat),
        h._events = .object ev → ev T = .array (e :: l) p → e.fn = .function a →
        ∃ rest, (exec prog (fuel + 1) (.fire T data) h).calls
          = ⟨.function a, .host, extend [] [data, [("type", .string T), ("target", .host)]]⟩
            :: rest)
    ∧ (∀ (ev : Events) (l : List Entry) (props : List (Key × Entry)),
        h._events = .object ev →
        (ev T = .array l [] ∨ (ev T = .undefined ∧ l = [])) →
        (ev (T ++ "_idx") = .object (props.map fun q => (q.1, some q.2))
          ∨ (ev (T ++ "_idx") = .undefined ∧ props = [])) →
        (truthy (ev (T ++ "_len")) = true ∨ props = []) →
        (props.map Prod.fst).Nodup →
        (∀ q ∈ props, ∃ a, q.2.fn = .function a ∧ prog a = []) →
        (∀ e ∈ l, ∃ a, e.fn = .function a ∧ prog a = []) →
        exec prog (fuel + 1) (.fire T data) h
          = ⟨h, l.map (fun e => ⟨e.fn, .host,
                extend [] [data, [("type", .string T), ("target", .host)]]⟩)
              ++ props.map (fun q => ⟨q.2.fn, q.2.ctx,
                extend [] [data, [("type", .string T), ("target", .host)]]⟩), .ok, .host⟩) := by
  refine ⟨?_, ?_, ?_, ?_, ?_, ?_⟩
  · simp [extend, Obj.get_put_same, Obj.get_put_other]
  · simp [extend, Obj.get_put_same]
  · intro k h1 h2
    simp only [extend, List.foldl_cons, List.foldl_nil]
    rw [Obj.get_put_other _ _ h2, Obj.get_put_other _ _ h1, Obj.get_copy k data hdata]
    cases Obj.get k data <;> simp [Obj.get]
  · exact fire_events prog (exec prog fuel)
      (fun id c hc h' => exec_calls_of_not_fire prog fuel c (hprog id c hc) h') h T data
  · intro ev e l p a hev hslot hfn
    exact fire_calls_head prog (exec prog fuel) h ev T data e l p a hev hslot hfn
  · intro ev l props hev hl hidx hlen hnd hprops hplain
    exact fire_of_shape prog (exec prog fuel) h ev T data l props hev hl hidx hlen hnd hprops
      hplain

/-- C13 (witness): `fire('foo', {type: 'bar', x: 1})` on a host that holds
`on('foo', f1)` and `on('foo', f2, c)`: `f1` and then `f2` are invoked, each
with an event object whose `type` is `foo`, whose `target` is the host and
whose `x` is 1. -/
theorem fire_event_object_witness :
    (exec inert 1 (.fire "foo" [("type", .string "bar"), ("x", .number 1)])
        (run inert 1 [.on_ (.string "foo") (.function 1) .undefined,
          .on_ (.string "foo") (.function 2) (.object 7)] Host.fresh).host).calls
      = [⟨.function 1, .host, [("type", .string "foo"), ("x", .number 1), ("target", .host)]⟩,
         ⟨.function 2, .object 7,
            [("type", .string "foo"), ("x", .number 1), ("target", .host)]⟩]
    ∧ Obj.get "type" (extend [] [[("type", .string "bar"), ("x", .number 1)],
        [("type", .string "foo"), ("target", .host)]]) = some (.string "foo")
    ∧ Obj.get "target" (extend [] [[("type", .string "bar"), ("x", .number 1)],
        [("type", .string "foo"), ("target", .host)]]) = some .host
    ∧ Obj.get "x" (extend [] [[("type", .string "bar"), ("x", .number 1)],
        [("type", .string "foo"), ("target", .host)]]) = some (.number 1) :=
  ⟨(congrArg Out.calls ((fire_event_object inert 0
        (run inert 1 [.on_ (.string "foo") (.function 1) .undefined,
          .on_ (.string "foo") (.function 2) (.object 7)] Host.fresh).host "foo"
        [("type", .string "bar"), ("x", .number 1)] (by decide)
        (fun _ c hc => by cases hc)).2.2.2.2.2
      (run inert 1 [.on_ (.string "foo") (.function 1) .undefined,
          .on_ (.string "foo") (.function 2) (.object 7)] Host.fresh).host.eventsOrNew
      [⟨.function 1, .undefined⟩]
      [(⟨.function 2, .object 7⟩, ⟨.function 2, .object 7⟩)]
      rfl (Or.inl (by decide)) (Or.inl (by decide)) (Or.inl (by decide)) (by decide)
      (fun q hq => ⟨2, by simp only [List.mem_singleton] at hq; rw [hq], rfl⟩)
      (fun e he => ⟨1, by simp only [List.mem_singleton] at he; rw [he], rfl⟩))).trans
      (by decide),
   (fire_event_object inert 0 Host.fresh "foo" [("type", .string "bar"), ("x", .number 1)]
      (by decide) (fun _ c hc => by cases hc)).1,
   (fire_event_object inert 0 Host.fresh "foo" [("type", .string "bar"), ("x", .number 1)]
      (by decide) (fun _ c hc => by cases hc)).2.1,
   ((fire_event_object inert 0 Host.fresh "foo" [("type", .string "bar"), ("x", .number 1)]
      (by decide) (fun _ c hc => by cases hc)).2.2.1 "x" (by decide) (by decide)).trans
      (by decide)⟩

/-- C14: space-separated type strings.  For type names `T1..Tn` without
spaces (`n` at least 1), `on('T1 T2 ... Tn', fn, c)` ends like the sequence
`on(T1, fn, c)`, ..., `on(Tn, fn, c)` and leaves the host in the same state:
the two have the same outcome, on every host. -/
theorem on_type_string_is_sequence (prog : Prog) (fuel : Nat) (h : Host) (names : List String)
    (fn ctx : Arg) (hne : names ≠ []) (hnames : ∀ t ∈ names, ' ' ∉ t.data) :
    on_ h (.string (typesString names)) fn ctx
      = run prog (fuel + 1) (names.map fun t => .on_ (.string t) fn ctx) h := by
  simp only [on_, split_typesString names hne hnames, run, forEach_map]
  apply forEach_congr
  intro t ht h1
  rw [exec_on, on_single _ _ _ _ (hnames t ht)]

/-- C14 (witness): `on('a b', f)` is `on('a', f); on('b', f)`, and afterwards
`fire('a')` and `fire('b')` each invoke `f` once. -/
theorem on_type_string_is_sequence_witness :
    on_ Host.fresh (.string "a b") (.function 1) .undefined
      = run inert 1 [.on_ (.string "a") (.function 1) .undefined,
          .on_ (.string "b") (.function 1) .undefined] Host.fresh
    ∧ (run inert 1 [.on_ (.string "a b") (.function 1) .undefined, .fire "a" []]
        Host.fresh).calls
      = [⟨.function 1, .host, [("type", .string "a"), ("target", .host)]⟩]
    ∧ (run inert 1 [.on_ (.string "a b") (.function 1) .undefined, .fire "b" []]
        Host.fresh).calls
      = [⟨.function 1, .host, [("type", .string "b"), ("target", .host)]⟩] :=
  ⟨on_type_string_is_sequence inert 0 Host.fresh ["a", "b"] (.function 1) .undefined
      (by decide) (by decide),
   by decide, by decide⟩

/-- C11 (counterexample): a handler that calls the host can run more than once.
(1) When the body of `f1` is `fire('t')`, after `once('t', f1)` the dispatch
`fire('t')` does not return: the adapter removes itself only after `f1` has
returned, so `f1` dispatches to itself; at every bound on the depth of nesting
the run ends out of fuel with `f1` invoked once per level.
(2) When the body of `f1` is `on('t', f1)`, `once('t', f1)` followed by two
`fire('t')` calls returns and invokes `f1` twice. -/
theorem once_handler_runs_again_when_reentrant :
    (∀ fuel : Nat,
      (run reentrantDemo (fuel + 1) [.once (.string "t") (.function 1) .undefined,
          .fire "t" []] Host.fresh).status = .outOfFuel
      ∧ ((run reentrantDemo (fuel + 1) [.once (.string "t") (.function 1) .undefined,
          .fire "t" []] Host.fresh).calls.filter (fun c => c.fn = .function 1)).length
        = fuel + 1)
    ∧ (run reregisterDemo 2 [.once (.string "t") (.function 1) .undefined, .fire "t" [],
        .fire "t" []] Host.fresh).status = .ok
    ∧ (run reregisterDemo 2 [.once (.string "t") (.function 1) .undefined, .fire "t" [],
        .fire "t" []] Host.fresh).calls.map (fun c => c.fn)
      = [.onceHandler 0 (some "t") (.function 1) .undefined, .function 1, .function 1] := by
  refine ⟨?_, by decide, by decide⟩
  intro fuel
  have honce := once_string_fresh "t" (.function 1) .undefined (by decide) (by decide) rfl
  obtain ⟨cs, r, hrun, hcount⟩ := fire_reentrant_adapter reentrantDemo
    (({ Host.fresh with closures := 1 } : Host).setEvents (Events.empty.set "t" (.array
      [⟨.onceHandler 0 (some "t") (.function 1) .undefined, .undefined⟩] [])))
    _ "t" (some "t") 1 0 .undefined [] rfl (Events.set_same _ _ _) rfl (fuel + 1) []
  constructor
  · simp [run_cons, run_nil, exec_once, honce, hrun, Out.andThen, Out.done]
  · simp [run_cons, run_nil, exec_once, honce, hrun, Out.andThen, Out.done, hcount]

/-- C11 (amended): `once(T, f)` followed by two `fire(T)` calls invokes `f`
exactly once when the body of `f` leaves the records of `T` alone.  On a fresh
host, let `T` be a type name that is not the name of an inherited property and
`f` a user function whose body, run on the host that `once` leaves, returns,
invokes the functions `cs`, none of them `f`, and leaves under `T` and `T_idx`
what `once` left there.  Then the three calls return; the first `fire` invokes
the adapter with `this` equal to the host and, through it, `f` (with `this`
undefined), then `cs`; after it no listener record is stored for `T`; the
second `fire` invokes nothing; `f` is invoked once in all. -/
theorem once_then_two_fires (prog : Prog) (fuel : Nat) (T : String) (a : Nat)
    (data1 data2 : Obj) (h2 : Host) (ev2 : Events) (cs : List Invocation) (r : Arg)
    (hT : ' ' ∉ T.data) (hi : inherited T = false)
    (hbody : forEach (exec prog fuel) (prog a)
        (({ Host.fresh with closures := 1 } : Host).setEvents (Events.empty.set T (.array
          [⟨.onceHandler 0 (some T) (.function a) .undefined, .undefined⟩] [])))
      = ⟨h2, cs, .ok, r⟩)
    (hev2 : h2._events = .object ev2)
    (hkeep : ∀ k ∈ [T, T ++ "_idx"], ev2 k = (Events.empty.set T (.array
          [⟨.onceHandler 0 (some T) (.function a) .undefined, .undefined⟩] [])) k)
    (hcs : ∀ c ∈ cs, c.fn ≠ .function a) :
    (run prog (fuel + 1) [.once (.string T) (.function a) .undefined, .fire T data1]
        Host.fresh).calls
      = ⟨.onceHandler 0 (some T) (.function a) .undefined, .host,
            extend [] [data1, [("type", .string T), ("target", .host)]]⟩
         :: ⟨.function a, .undefined,
            extend [] [data1, [("type", .string T), ("target", .host)]]⟩ :: cs
    ∧ entriesOf ((run prog (fuel + 1) [.once (.string T) (.function a) .undefined,
        .fire T data1] Host.fresh).host.eventsOrNew T) = []
    ∧ (run prog (fuel + 1) [.once (.string T) (.function a) .undefined, .fire T data1,
        .fire T data2] Host.fresh).calls
      = ⟨.onceHandler 0 (some T) (.function a) .undefined, .host,
            extend [] [data1, [("type", .string T), ("target", .host)]]⟩
         :: ⟨.function a, .undefined,
            extend [] [data1, [("type", .string T), ("target", .host)]]⟩ :: cs
    ∧ (run prog (fuel + 1) [.once (.string T) (.function a) .undefined, .fire T data1,
        .fire T data2] Host.fresh).status = .ok
    ∧ ((run prog (fuel + 1) [.once (.string T) (.function a) .undefined, .fire T data1,
        .fire T data2] Host.fresh).calls.filter (fun c => c.fn = .function a)).length = 1 := by
  have honce := once_string_fresh T (.function a) .undefined hT hi rfl
  have hs2 : ev2 T = .array
      [⟨.onceHandler 0 (some T) (.function a) .undefined, .undefined⟩] [] := by
    rw [hkeep T (by simp), Events.set_same]
  have hi2 : ev2 (T ++ "_idx") = .undefined := by
    rw [hkeep (T ++ "_idx") (by simp), Events.set_other _ _ (append_idx_ne T), Events.empty_idx]
  -- the host after `once`
  generalize hh1 : (({ Host.fresh with closures := 1 } : Host).setEvents
      (Events.empty.set T (.array [⟨.onceHandler 0 (some T) (.function a) .undefined,
        .undefined⟩] []))) = h1 at honce hbody
  have hev1 : h1._events = .object (Events.empty.set T (.array
      [⟨.onceHandler 0 (some T) (.function a) .undefined, .undefined⟩] [])) := by
    rw [← hh1]; rfl
  have hidx1 : (Events.empty.set T (.array
      [⟨.onceHandler 0 (some T) (.function a) .undefined, .undefined⟩] [])) (T ++ "_idx")
      = .undefined := by
    rw [Events.set_other _ _ (append_idx_ne T), Events.empty_idx]
  -- the first dispatch
  have hfire1 : ∃ h3, fire prog (exec prog fuel) h1 T data1 = ⟨h3,
      ⟨.onceHandler 0 (some T) (.function a) .undefined, .host,
          extend [] [data1, [("type", .string T), ("target", .host)]]⟩
       :: ⟨.function a, .undefined,
          extend [] [data1, [("type", .string T), ("target", .host)]]⟩ :: cs, .ok, .host⟩
      ∧ entriesOf (h3.eventsOrNew T) = []
      ∧ ∀ data, fire prog (exec prog fuel) h3 T data = ⟨h3, [], .ok, .host⟩ := by
    by_cases hne : T = ""
    · refine ⟨h2.clear, ?_, ?_, ?_⟩
      · refine fire_adapter prog _ h1 h2 h2.clear _ T T a 0 data1 cs r hev1
          (Events.set_same _ _ _) hbody ?_ (Or.inl hidx1)
        subst hne
        simp [off]
      · simp [Host.clear_eventsOrNew, Events.empty, entriesOf, hi]
      · intro data
        have hnull : h2.clear._events = .null := Host.clear_events h2
        simp [fire, hasListener, hnull, truthy, Out.done]
    · have hoff : off h2 (.string T) (.onceHandler 0 (some T) (.function a) .undefined)
          .undefined = Out.done (h2.setEvents (ev2.set T (.array [] []))) := by
        rw [off_single _ _ _ _ hT hne]
        simp [_off, hev2, hs2, contextId, Arg.truthy, truthy, removeListener, removeFirst]
      refine ⟨h2.setEvents (ev2.set T (.array [] [])), ?_, ?_, ?_⟩
      · exact fire_adapter prog _ h1 h2 _ _ T T a 0 data1 cs r hev1
          (Events.set_same _ _ _) hbody hoff (Or.inl hidx1)
      · simp [entriesOf]
      · intro data
        refine fire_emptied prog _ _ (ev2.set T (.array [] [])) T data rfl
          (Events.set_same _ _ _) (Or.inl ?_)
        rw [Events.set_other _ _ (append_idx_ne T), hi2]
  obtain ⟨h3, hf1, hent, hf2⟩ := hfire1
  have hcount : (cs.filter (fun c => c.fn = .function a)).length = 0 := by
    rw [List.length_eq_zero, List.filter_eq_nil_iff]
    intro c hc
    simpa using hcs c hc
  refine ⟨?_, ?_, ?_, ?_, ?_⟩
  · simp [run_cons, run_nil, exec_once, exec_fire, honce, hf1, Out.andThen, Out.done]
  · simp [run_cons, run_nil, exec_once, exec_fire, honce, hf1, Out.andThen, Out.done, hent]
  · simp [run_cons, run_nil, exec_once, exec_fire, honce, hf1, hf2, Out.andThen, Out.done]
  · simp [run_cons, run_nil, exec_once, exec_fire, honce, hf1, hf2, Out.andThen, Out.done]
  · simp [run_cons, run_nil, exec_once, exec_fire, honce, hf1, hf2, Out.andThen, Out.done,
      List.filter_cons, hcount]

/-- C11 (witness): `once('click', f3)` and two dispatches, where the body of
`f3` is `on('u', f4, c)`: the adapter and `f3` are invoked once. -/
theorem once_then_two_fires_witness :
    (run reentrantDemo 2 [.once (.string "click") (.function 3) .undefined, .fire "click" [],
        .fire "click" []] Host.fresh).calls
      = [⟨.onceHandler 0 (some "click") (.function 3) .undefined, .host,
            extend [] [[], [("type", .string "click"), ("target", .host)]]⟩,
         ⟨.function 3, .undefined,
            extend [] [[], [("type", .string "click"), ("target", .host)]]⟩] :=
  (once_then_two_fires reentrantDemo 1 "click" 3 [] []
    (forEach (exec reentrantDemo 1) (reentrantDemo 3)
      (({ Host.fresh with closures := 1 } : Host).setEvents (Events.empty.set "click" (.array
        [⟨.onceHandler 0 (some "click") (.function 3) .undefined, .undefined⟩] [])))).host
    (forEach (exec reentrantDemo 1) (reentrantDemo 3)
      (({ Host.fresh with closures := 1 } : Host).setEvents (Events.empty.set "click" (.array
        [⟨.onceHandler 0 (some "click") (.function 3) .undefined, .undefined⟩] [])))).host.eventsOrNew
    [] .host (by decide) (by decide) rfl rfl (by decide) (by simp)).2.2.1

/-- C20 (counterexample): a handler that calls the host can run more than once
after `once` with two types.  (1) When the body of `f1` is `fire('t')`, after
`once('s t', f1)` the dispatch `fire('s')` does not return: the adapter is
removed from both types only after `f1` has returned, so `f1` reaches itself
through the adapter stored under `t`; at every bound on the depth of nesting
the run ends out of fuel with `f1` invoked once per level.
(2) When the body of `f1` is `on('t', f1)`, `once('s t', f1)`, `fire('s')`,
`fire('t')` return and invoke `f1` twice, the second time at `fire('t')`. -/
theorem once_pair_handler_runs_again_when_reentrant :
    (∀ fuel : Nat,
      (run reentrantDemo (fuel + 1) [.once (.string "s t") (.function 1) .undefined,
          .fire "s" []] Host.fresh).status = .outOfFuel
      ∧ ((run reentrantDemo (fuel + 1) [.once (.string "s t") (.function 1) .undefined,
          .fire "s" []] Host.fresh).calls.filter (fun c => c.fn = .function 1)).length
        = fuel + 1)
    ∧ (run reregisterDemo 2 [.once (.string "s t") (.function 1) .undefined, .fire "s" [],
        .fire "t" []] Host.fresh).status = .ok
    ∧ (run reregisterDemo 2 [.once (.string "s t") (.function 1) .undefined, .fire "s" [],
        .fire "t" []] Host.fresh).calls.map (fun c => (c.fn, Obj.get "type" c.event))
      = [(.onceHandler 0 (some "s t") (.function 1) .undefined, some (.string "s")),
         (.function 1, some (.string "s")), (.function 1, some (.string "t"))] := by
  refine ⟨?_, by decide, by decide⟩
  intro fuel
  have honce := once_pair_fresh "s" "t" (.function 1) (by decide) (by decide) (by decide)
    (by decide) (by decide)
  have hst : ("s" ++ " " ++ "t" : String) = "s t" := by decide
  rw [hst] at honce
  generalize hh1 : (({ Host.fresh with closures := 1 } : Host).setEvents
      ((Events.empty.set "s" (.array
        [⟨.onceHandler 0 (some "s t") (.function 1) .undefined, .undefined⟩] [])).set "t"
        (.array [⟨.onceHandler 0 (some "s t") (.function 1) .undefined, .undefined⟩] [])))
      = h1 at honce
  have hev1 : h1._events = .object ((Events.empty.set "s" (.array
        [⟨.onceHandler 0 (some "s t") (.function 1) .undefined, .undefined⟩] [])).set "t"
        (.array [⟨.onceHandler 0 (some "s t") (.function 1) .undefined, .undefined⟩] [])) := by
    rw [← hh1]; rfl
  obtain ⟨cs, r, hrun, hcount⟩ := fire_reentrant_adapter reentrantDemo h1 _ "t" (some "s t")
    1 0 .undefined [] hev1 (Events.set_same _ _ _) rfl fuel []
  have hbody : forEach (exec reentrantDemo fuel) (reentrantDemo 1) h1
      = ⟨h1, cs, .outOfFuel, r⟩ := by
    have hp : reentrantDemo 1 = [.fire "t" []] := rfl
    rw [hp]
    simp [forEach, hrun, Out.andThen]
  have hfire := fire_adapter_stuck reentrantDemo (exec reentrantDemo fuel) h1 h1 _ "s"
    (some "s t") 1 0 .undefined [] cs .outOfFuel r hev1
    (by decide : ((Events.empty.set "s" (.array
          [⟨.onceHandler 0 (some "s t") (.function 1) .undefined, .undefined⟩] [])).set "t"
          (.array [⟨.onceHandler 0 (some "s t") (.function 1) .undefined, .undefined⟩] [])) "s"
        = .array [⟨.onceHandler 0 (some "s t") (.function 1) .undefined, .undefined⟩] [])
    hbody (by decide)
  constructor
  · simp [run_cons, run_nil, exec_once, exec_fire, honce, hfire, Out.andThen, Out.done]
  · simp [run_cons, run_nil, exec_once, exec_fire, honce, hfire, Out.andThen, Out.done,
      List.filter_cons, hcount]

/-- C20 (amended): `once` with a space-separated type string shares one adapter
across the listed types.  On a fresh host, let `T1`, `T2` be distinct type
names, neither the name of an inherited property, and `f` a user function
whose body, run on the host that `once` leaves, returns, invokes the functions
`cs`, none of them `f`, does not drop the registry and leaves under `T1`,
`T2`, `T1_idx` and `T2_idx` what `once` left there.  Then `once('T1 T2', f)`
stores the same adapter under both types; the first `fire` of either type
invokes the adapter and, through it, `f`, then `cs`, and leaves no listener
record under `T1` nor under `T2`; any further dispatches of `T1` and `T2`
invoke nothing, so `f` runs once in total, and every call returns. -/
theorem once_pair_shares_adapter (prog : Prog) (fuel : Nat) (T1 T2 X : String) (a : Nat)
    (data : Obj) (later : List (String × Obj)) (h2 : Host) (ev2 : Events)
    (cs : List Invocation) (r : Arg) (h12 : T1 ≠ T2) (hT1 : ' ' ∉ T1.data)
    (hT2 : ' ' ∉ T2.data) (hi1 : inherited T1 = false) (hi2 : inherited T2 = false)
    (hbody : forEach (exec prog fuel) (prog a)
        (({ Host.fresh with closures := 1 } : Host).setEvents
          ((Events.empty.set T1 (.array
            [⟨.onceHandler 0 (some (T1 ++ " " ++ T2)) (.function a) .undefined, .undefined⟩]
              [])).set T2
            (.array [⟨.onceHandler 0 (some (T1 ++ " " ++ T2)) (.function a) .undefined,
              .undefined⟩] [])))
      = ⟨h2, cs, .ok, r⟩)
    (hev2 : h2._events = .object ev2) (hdet2 : h2.detached = [])
    (hkeep : ∀ k ∈ [T1, T2, T1 ++ "_idx", T2 ++ "_idx"],
      ev2 k = ((Events.empty.set T1 (.array
            [⟨.onceHandler 0 (some (T1 ++ " " ++ T2)) (.function a) .undefined, .undefined⟩]
              [])).set T2
            (.array [⟨.onceHandler 0 (some (T1 ++ " " ++ T2)) (.function a) .undefined,
              .undefined⟩] [])) k)
    (hcs : ∀ c ∈ cs, c.fn ≠ .function a)
    (hX : X = T1 ∨ X = T2)
    (hlater : ∀ p ∈ later, p.1 = T1 ∨ p.1 = T2) :
    entriesOf ((run prog (fuel + 1) [.once (.string (T1 ++ " " ++ T2)) (.function a) .undefined]
        Host.fresh).host.eventsOrNew T1)
      = [⟨.onceHandler 0 (some (T1 ++ " " ++ T2)) (.function a) .undefined, .undefined⟩]
    ∧ entriesOf ((run prog (fuel + 1) [.once (.string (T1 ++ " " ++ T2)) (.function a) .undefined]
        Host.fresh).host.eventsOrNew T2)
      = [⟨.onceHandler 0 (some (T1 ++ " " ++ T2)) (.function a) .undefined, .undefined⟩]
    ∧ (run prog (fuel + 1) [.once (.string (T1 ++ " " ++ T2)) (.function a) .undefined,
        .fire X data] Host.fresh).calls
      = ⟨.onceHandler 0 (some (T1 ++ " " ++ T2)) (.function a) .undefined, .host,
            extend [] [data, [("type", .string X), ("target", .host)]]⟩
         :: ⟨.function a, .undefined,
            extend [] [data, [("type", .string X), ("target", .host)]]⟩ :: cs
    ∧ entriesOf ((run prog (fuel + 1) [.once (.string (T1 ++ " " ++ T2)) (.function a) .undefined,
        .fire X data] Host.fresh).host.eventsOrNew T1) = []
    ∧ entriesOf ((run prog (fuel + 1) [.once (.string (T1 ++ " " ++ T2)) (.function a) .undefined,
        .fire X data] Host.fresh).host.eventsOrNew T2) = []
    ∧ (run prog (fuel + 1) (.once (.string (T1 ++ " " ++ T2)) (.function a) .undefined
        :: .fire X data :: later.map fun p => .fire p.1 p.2) Host.fresh).calls
      = ⟨.onceHandler 0 (some (T1 ++ " " ++ T2)) (.function a) .undefined, .host,
            extend [] [data, [("type", .string X), ("target", .host)]]⟩
         :: ⟨.function a, .undefined,
            extend [] [data, [("type", .string X), ("target", .host)]]⟩ :: cs
    ∧ (run prog (fuel + 1) (.once (.string (T1 ++ " " ++ T2)) (.function a) .undefined
        :: .fire X data :: later.map fun p => .fire p.1 p.2) Host.fresh).status = .ok
    ∧ ((run prog (fuel + 1) (.once (.string (T1 ++ " " ++ T2)) (.function a) .undefined
        :: .fire X data :: later.map fun p => .fire p.1 p.2) Host.fresh).calls.filter
          (fun c => c.fn = .function a)).length = 1 := by
  have honce := once_pair_fresh T1 T2 (.function a) h12 hT1 hT2 hi1 hi2
  have hs1 : ((Events.empty.set T1 (.array
        [⟨.onceHandler 0 (some (T1 ++ " " ++ T2)) (.function a) .undefined, .undefined⟩] [])).set T2
        (.array [⟨.onceHandler 0 (some (T1 ++ " " ++ T2)) (.function a) .undefined,
          .undefined⟩] [])) T1 = .array
        [⟨.onceHandler 0 (some (T1 ++ " " ++ T2)) (.function a) .undefined, .undefined⟩] [] := by
    simp [Events.set_other _ _ h12]
  have hs2 : ((Events.empty.set T1 (.array
        [⟨.onceHandler 0 (some (T1 ++ " " ++ T2)) (.function a) .undefined, .undefined⟩] [])).set T2
        (.array [⟨.onceHandler 0 (some (T1 ++ " " ++ T2)) (.function a) .undefined,
          .undefined⟩] [])) T2 = .array
        [⟨.onceHandler 0 (some (T1 ++ " " ++ T2)) (.function a) .undefined, .undefined⟩] [] := by
    simp
  have hother : ∀ Y, Y = T1 ∨ Y = T2 →
      ((Events.empty.set T1 (.array
        [⟨.onceHandler 0 (some (T1 ++ " " ++ T2)) (.function a) .undefined, .undefined⟩] [])).set T2
        (.array [⟨.onceHandler 0 (some (T1 ++ " " ++ T2)) (.function a) .undefined,
          .undefined⟩] [])) (Y ++ "_idx") = .undefined
      ∨ Y ++ "_idx" = T1 ∨ Y ++ "_idx" = T2 := by
    intro Y _
    by_cases hc2 : Y ++ "_idx" = T2
    · exact Or.inr (Or.inr hc2)
    · by_cases hc1 : Y ++ "_idx" = T1
      · exact Or.inr (Or.inl hc1)
      · left
        rw [Events.set_other _ _ hc2, Events.set_other _ _ hc1, Events.empty_idx]
  obtain ⟨h3, hfire, hent1, hent2, hlate⟩ := once_pair_core prog fuel _ h2 _ ev2 T1 T2 X a 0
    data later cs r h12 hT1 hT2
    (Host.setEvents_events ({ Host.fresh with closures := 1 } : Host) _) rfl hs1 hs2 hother
    hbody hev2 hdet2 hkeep hX hlater
  have hcount : (cs.filter (fun c => c.fn = .function a)).length = 0 := by
    rw [List.length_eq_zero, List.filter_eq_nil_iff]
    intro c hc
    simpa using hcs c hc
  refine ⟨?_, ?_, ?_, ?_, ?_, ?_, ?_, ?_⟩
  · simp [run_cons, run_nil, exec_once, honce, Out.andThen, Out.done, entriesOf,
      Events.set_other _ _ h12]
  · simp [run_cons, run_nil, exec_once, honce, Out.andThen, Out.done, entriesOf]
  · simp [run_cons, run_nil, exec_once, exec_fire, honce, hfire, Out.andThen, Out.done]
  · simp [run_cons, run_nil, exec_once, exec_fire, honce, hfire, Out.andThen, Out.done, hent1]
  · simp [run_cons, run_nil, exec_once, exec_fire, honce, hfire, Out.andThen, Out.done, hent2]
  · rw [run_cons, exec_once, honce, Out.done_andThen, run_cons, exec_fire, hfire]
    simp only [Out.andThen, hlate]
    simp [Out.done]
  · rw [run_cons, exec_once, honce, Out.done_andThen, run_cons, exec_fire, hfire]
    simp only [Out.andThen, hlate]
    simp [Out.done]
  · rw [run_cons, exec_once, honce, Out.done_andThen, run_cons, exec_fire, hfire]
    simp only [Out.andThen, hlate]
    simp [Out.done, List.filter_cons, hcount]

/-- C20 (witness): `once('open close', f3)`, then `close`, `open`, `close`, where
the body of `f3` is `on('u', f4, c)`: the adapter and `f3` are invoked once. -/
theorem once_pair_shares_adapter_witness :
    (run reentrantDemo 2 [.once (.string "open close") (.function 3) .undefined,
        .fire "close" [], .fire "open" [], .fire "close" []] Host.fresh).calls
      = [⟨.onceHandler 0 (some "open close") (.function 3) .undefined, .host,
            extend [] [[], [("type", .string "close"), ("target", .host)]]⟩,
         ⟨.function 3, .undefined,
            extend [] [[], [("type", .string "close"), ("target", .host)]]⟩] :=
  (once_pair_shares_adapter reentrantDemo 1 "open" "close" "close" 3 []
    [("open", []), ("close", [])]
    (forEach (exec reentrantDemo 1) (reentrantDemo 3)
      (({ Host.fresh with closures := 1 } : Host).setEvents
        ((Events.empty.set "open" (.array
          [⟨.onceHandler 0 (some "open close") (.function 3) .undefined, .undefined⟩] [])).set
          "close" (.array
          [⟨.onceHandler 0 (some "open close") (.function 3) .undefined, .undefined⟩] [])))).host
    (forEach (exec reentrantDemo 1) (reentrantDemo 3)
      (({ Host.fresh with closures := 1 } : Host).setEvents
        ((Events.empty.set "open" (.array
          [⟨.onceHandler 0 (some "open close") (.function 3) .undefined, .undefined⟩] [])).set
          "close" (.array
          [⟨.onceHandler 0 (some "open close") (.function 3) .undefined, .undefined⟩]
            [])))).host.eventsOrNew
    [] .host (by decide) (by decide) (by decide) (by decide) (by decide) rfl rfl rfl
    (by decide) (by simp) (Or.inr rfl) (by decide)).2.2.2.2.2.1

/-- C15 (counterexample): with the empty type string `off` is not a no-op.
After `on('x', g)` no entry is stored for `('', f)`, yet `off('', f)` drops the
registry: `hasListener('x')` was truthy and is falsy afterwards. -/
theorem off_empty_type_is_not_a_noop :
    absent (on_ Host.fresh (.string "x") (.function 1) .undefined).host "" (.function 2)
        .undefined = true
    ∧ truthy (hasListener (on_ Host.fresh (.string "x") (.function 1) .undefined).host "x") = true
    ∧ (off (on_ Host.fresh (.string "x") (.function 1) .undefined).host (.string "")
        (.function 2) .undefined).status = .ok
    ∧ truthy (hasListener (off (on_ Host.fresh (.string "x") (.function 1) .undefined).host
        (.string "") (.function 2) .undefined).host "x") = false := by
  decide

/-- C15 (amended): unregistering an absent entry with a non-empty type string is
a silent no-op.  For every host state, every non-empty type string `T`, every
handler `fn` and every context, if for each type listed in `T` no live entry
is stored for the handler (plain path) or for the handler and context (indexed
path), then `off(T, fn, context)` returns the host, invokes nothing and leaves
the host, registry included, as it was. -/
theorem off_absent_is_noop (h : Host) (T : String) (fn ctx : Arg) (hT : T ≠ "")
    (hfn : fn ≠ .undefined) (habs : ∀ t ∈ split T, absent h t fn ctx = true) :
    off h (.string T) fn ctx = Out.done h := by
  simp only [off, hT, if_false]
  exact forEach_noop _ _ _ (fun t ht => _off_absent h t fn ctx hfn (habs t ht))

/-- C15 (witness): on a host holding `on('x', g)` and `on('y', g, c)`, the call
`off('x y', f)` is a no-op. -/
theorem off_absent_is_noop_witness :
    off (run inert 1 [.on_ (.string "x") (.function 1) .undefined,
        .on_ (.string "y") (.function 1) (.object 7)] Host.fresh).host (.string "x y")
        (.function 2) .undefined
      = Out.done (run inert 1 [.on_ (.string "x") (.function 1) .undefined,
        .on_ (.string "y") (.function 1) (.object 7)] Host.fresh).host :=
  off_absent_is_noop _ "x y" (.function 2) .undefined (by decide) (by decide) (by decide)

/-- C18 (counterexample): operations on one type can disturb another.
(1) `off('', f, c)` drops the whole registry: after `on('x', g)`,
`hasListener('x')` was truthy and is falsy after `off('', f, c)`.
(2) Handlers may call the host: with a handler of `u` that dispatches `t`,
registering for `t` a handler that registers `f4` for `u` changes the handlers
that `fire('u')` invokes: `f4` is now invoked with the event of `u`. -/
theorem on_off_disturb_other_type :
    (truthy (hasListener (on_ Host.fresh (.string "x") (.function 1) .undefined).host "x")
          = true
      ∧ truthy (hasListener (off (on_ Host.fresh (.string "x") (.function 1) .undefined).host
          (.string "") (.function 2) (.object 7)).host "x") = false)
    ∧ ((run reentrantDemo 3 [.on_ (.string "u") (.function 1) .undefined,
          .on_ (.string "u") (.function 2) (.object 8),
          .fire "u" []] Host.fresh).calls.map (fun i => (i.fn, Obj.get "type" i.event))
          = [(.function 1, some (.string "u")), (.function 2, some (.string "u"))]
      ∧ (run reentrantDemo 3 [.on_ (.string "u") (.function 1) .undefined,
          .on_ (.string "u") (.function 2) (.object 8),
          .on_ (.string "t") (.function 3) (.object 7),
          .fire "u" []] Host.fresh).calls.map (fun i => (i.fn, Obj.get "type" i.event))
          = [(.function 1, some (.string "u")), (.function 3, some (.string "t")),
             (.function 2, some (.string "u")), (.function 4, some (.string "u"))]) := by
  refine ⟨by decide, by decide⟩

/-- C18 (amended): operations on one type do not disturb another whose keys are
apart.  Let `T` be a type name without spaces and `U` a type name such that
`T` and `U` are distinct and neither is the other followed by `_idx` or
`_len`.  On every host state in which the handlers stored for `U` are user
functions that make no call on the host: when the registry object exists or
`U` is not the name of an inherited property, `on(T, fn, ctx)` leaves
`hasListener(U)` truthy or falsy as it was (and equal in value when the
registry object exists), and leaves the handler invocations and the
completion of `fire(U)` unchanged; for a non-empty `T`, `off(T, fn, ctx)`
leaves the value of `hasListener(U)`, the handler invocations and the
completion of `fire(U)` unchanged. -/
theorem on_off_frame (prog : Prog) (run : Call → Host → Out) (h : Host) (T U : String)
    (fn ctx : Arg) (data : Obj) (hT : ' ' ∉ T.data)
    (hne : U ≠ T) (hUi : U ≠ T ++ "_idx") (hUl : U ≠ T ++ "_len")
    (hTi : T ≠ U ++ "_idx") (hTl : T ≠ U ++ "_len")
    (hplain : ∀ e ∈ entriesOf (h.eventsOrNew U), ∃ a, e.fn = .function a ∧ prog a = [])
    (hprops : ∀ e ∈ entriesOf (h.eventsOrNew (U ++ "_idx")),
      ∃ a, e.fn = .function a ∧ prog a = []) :
    ((inherited U = false ∨ ∃ ev, h._events = .object ev) →
        truthy (hasListener (on_ h (.string T) fn ctx).host U) = truthy (hasListener h U)
        ∧ (∀ ev, h._events = .object ev →
            hasListener (on_ h (.string T) fn ctx).host U = hasListener h U)
        ∧ (fire prog run (on_ h (.string T) fn ctx).host U data).calls
            = (fire prog run h U data).calls
        ∧ (fire prog run (on_ h (.string T) fn ctx).host U data).status
            = (fire prog run h U data).status)
    ∧ (T ≠ "" →
        hasListener (off h (.string T) fn ctx).host U = hasListener h U
        ∧ (fire prog run (off h (.string T) fn ctx).host U data).calls
            = (fire prog run h U data).calls
        ∧ (fire prog run (off h (.string T) fn ctx).host U data).status
            = (fire prog run h U data).status) := by
  have k1 : U ++ "_idx" ≠ T ++ "_idx" := fun e => hne (idx_inj.1 e)
  have k2 : U ++ "_len" ≠ T ++ "_len" := fun e => hne (len_inj.1 e)
  refine ⟨?_, ?_⟩
  · intro hi
    have hon : ∃ ev1, (on_ h (.string T) fn ctx).host = h.setEvents ev1
        ∧ ∀ k, k ≠ T → k ≠ T ++ "_idx" → k ≠ T ++ "_len" → ev1 k = h.eventsOrNew k := by
      rw [on_single _ _ _ _ hT]
      exact _on_host h T fn ctx
    obtain ⟨ev1, hhost, hfr⟩ := hon
    rw [hhost]
    exact frame_core prog run h ev1 U data hi (hfr U hne hUi hUl)
      (hfr _ hTi.symm k1 (idx_ne_len U T)) (hfr _ hTl.symm (len_ne_idx U T) k2) hplain hprops
  · intro hne0
    rw [off_single _ _ _ _ hT hne0]
    rcases _off_host h T fn ctx with hsame | ⟨ev, ev2, hreg, hhost2, hfr2⟩
    · rw [hsame]
      exact ⟨rfl, rfl, rfl⟩
    · have hor : h.eventsOrNew = ev := Host.eventsOrNew_of_object hreg
      obtain ⟨-, b2, b3, b4⟩ := frame_core prog run h ev2 U data (Or.inr ⟨ev, hreg⟩)
        (by rw [hor]; exact hfr2 U hne hUi hUl)
        (by rw [hor]; exact hfr2 _ hTi.symm k1 (idx_ne_len U T))
        (by rw [hor]; exact hfr2 _ hTl.symm (len_ne_idx U T) k2) hplain hprops
      rw [hhost2]
      exact ⟨b2 ev hreg, b3, b4⟩

/-- C18 (witness): on a host holding `on('u', g)`, the call `on('t', f, d)`
leaves the invocations of `fire('u')` as they were. -/
theorem on_off_frame_witness :
    (fire inert (exec inert 1)
        (on_ (on_ Host.fresh (.string "u") (.function 1) .undefined).host
          (.string "t") (.function 2) (.object 8)).host "u" []).calls
      = (fire inert (exec inert 1)
        (on_ Host.fresh (.string "u") (.function 1) .undefined).host "u" []).calls :=
  ((on_off_frame inert (exec inert 1)
    (on_ Host.fresh (.string "u") (.function 1) .undefined).host "t" "u"
    (.function 2) (.object 8) [] (by decide) (by decide) (by decide) (by decide) (by decide)
    (by decide)
    (fun e he => ⟨1, (by decide : ∀ e ∈ entriesOf
      ((on_ Host.fresh (.string "u") (.function 1) .undefined).host.eventsOrNew "u"),
      e.fn = Arg.function 1) e he, rfl⟩)
    (fun e he => ⟨1, (by decide : ∀ e ∈ entriesOf
      ((on_ Host.fresh (.string "u") (.function 1) .undefined).host.eventsOrNew ("u" ++ "_idx")),
      e.fn = Arg.function 1) e he, rfl⟩)).1 (Or.inl (by decide))).2.2.1

/-- C22: `off` treats every falsy first argument as "remove everything".  For
every host state, handler and context, `off('', fn, ctx)`, like `off()` and
`off(null)`, returns the host after setting the registry to null, so that
`hasListener(T)` is falsy for every `T`; whereas `on('', fn)` registers the
handler under the single type name `''`: it appends one record to the
sequence stored under `''` (one record on a fresh host) and leaves every
other key of the registry as it was. -/
theorem off_falsy_types_removes_everything (h : Host) (fn ctx : Arg) (T : String) :
    off h (.string "") fn ctx = Out.done h.clear
    ∧ off h .undefined fn ctx = Out.done h.clear
    ∧ off h .null fn ctx = Out.done h.clear
    ∧ h.clear._events = .null
    ∧ hasListener (off h (.string "") fn ctx).host T = .null
    ∧ truthy (hasListener (off h (.string "") fn ctx).host T) = false
    ∧ on_ h (.string "") fn .undefined = _on h "" fn .undefined
    ∧ (T ≠ "" → (on_ h (.string "") fn .undefined).host.eventsOrNew T = h.eventsOrNew T)
    ∧ (on_ Host.fresh (.string "") fn .undefined).host.eventsOrNew ""
        = .array [⟨fn, .undefined⟩] []
    ∧ truthy (hasListener (off (on_ h (.string "") fn .undefined).host (.string "") fn
        .undefined).host T) = false := by
  have hoff : ∀ g : Host, off g (.string "") fn ctx = Out.done g.clear := fun g => by
    simp [off]
  have hnull : ∀ g : Host, hasListener g.clear T = .null := fun g => by
    simp [hasListener, Host.clear_events]
  have hon : ∀ g : Host, on_ g (.string "") fn .undefined = _on g "" fn .undefined := fun g => by
    simp only [on_, split_empty]
    exact forEach_single _ _ _ (_on_ret g "" fn .undefined)
  refine ⟨hoff h, rfl, rfl, Host.clear_events h, ?_, ?_, hon h, ?_, ?_, ?_⟩
  · rw [hoff]; exact hnull h
  · rw [hoff]; show truthy (hasListener h.clear T) = false; rw [hnull]; rfl
  · intro hT
    rw [hon]
    cases hs : (h.eventsOrNew "").orElse (.array [] []) with
    | array elems props =>
      simp [_on, contextId, Arg.truthy, hs, Val.push, Out.done, Events.set_other _ _ hT]
    | _ => simp [_on, contextId, Arg.truthy, hs, Val.push, Out.throw, Events.set_other _ _ hT]
  · rw [hon, _on_plain_absent Host.fresh "" fn .undefined rfl rfl]
    simp [Out.done]
  · have : off (on_ h (.string "") fn .undefined).host (.string "") fn .undefined
        = Out.done (on_ h (.string "") fn .undefined).host.clear := by simp [off]
    rw [this]
    show truthy (hasListener (on_ h (.string "") fn .undefined).host.clear T) = false
    rw [hnull]; rfl

/-- C22 (witness): on a host holding `on('x', g)`, the call `on('', f)` leaves
the sequence of `x` as it was. -/
theorem off_falsy_types_removes_everything_witness :
    (on_ (on_ Host.fresh (.string "x") (.function 1) .undefined).host (.string "")
        (.function 2) .undefined).host.eventsOrNew "x"
      = (on_ Host.fresh (.string "x") (.function 1) .undefined).host.eventsOrNew "x" :=
  (off_falsy_types_removes_everything (on_ Host.fresh (.string "x") (.function 1) .undefined).host
    (.function 2) .undefined "x").2.2.2.2.2.2.2.1 (by decide)

/-- C3: `hasListener` returns the stored value, not a boolean.  After
`on('t', f)` it returns the sequence stored for `t`, after `on('t', f, c)` the
count 1, after `off()` the value `null`, on a fresh host `undefined`; and
after `on('t', f)` and `off('t', f)`, when the sequence stored for `t` is
empty and no count is stored, it returns the emptied sequence, which is
truthy. -/
theorem hasListener_returns_stored_value :
    hasListener (on_ Host.fresh (.string "t") (.function 1) .undefined).host "t"
      = .array [⟨.function 1, .undefined⟩] []
    ∧ hasListener (on_ Host.fresh (.string "t") (.function 1) (.object 7)).host "t" = .number 1
    ∧ hasListener (run inert 1 [.on_ (.string "t") (.function 1) .undefined,
        .off .undefined .undefined .undefined] Host.fresh).host "t" = .null
    ∧ hasListener Host.fresh "t" = .undefined
    ∧ (run inert 1 [.on_ (.string "t") (.function 1) .undefined,
        .off (.string "t") (.function 1) .undefined] Host.fresh).host.eventsOrNew "t"
      = .array [] []
    ∧ (run inert 1 [.on_ (.string "t") (.function 1) .undefined,
        .off (.string "t") (.function 1) .undefined] Host.fresh).host.eventsOrNew "t_len"
      = .undefined
    ∧ truthy (hasListener (run inert 1 [.on_ (.string "t") (.function 1) .undefined,
        .off (.string "t") (.function 1) .undefined] Host.fresh).host "t") = true := by
  decide

/-- C7: with the type `constructor`, a name that the registry object inherits,
the handler registered by two calls of `on(T, f, c)` is never invoked.  The
two calls return and leave one entry under `constructor_idx` and the count 1,
but `fire('constructor')` reads the inherited function under `constructor`,
which has no `slice`: it throws a `TypeError` and invokes nothing. -/
theorem fire_throws_at_inherited_name :
    (run inert 1 [.on_ (.string "constructor") (.function 1) (.object 7),
        .on_ (.string "constructor") (.function 1) (.object 7)] Host.fresh).status = .ok
    ∧ (run inert 1 [.on_ (.string "constructor") (.function 1) (.object 7),
        .on_ (.string "constructor") (.function 1) (.object 7)]
        Host.fresh).host.eventsOrNew "constructor_idx"
      = .object [(⟨.function 1, .object 7⟩, some ⟨.function 1, .object 7⟩)]
    ∧ (run inert 1 [.on_ (.string "constructor") (.function 1) (.object 7),
        .on_ (.string "constructor") (.function 1) (.object 7)]
        Host.fresh).host.eventsOrNew "constructor_len" = .number 1
    ∧ (run inert 1 [.on_ (.string "constructor") (.function 1) (.object 7),
        .on_ (.string "constructor") (.function 1) (.object 7)]
        Host.fresh).host.eventsOrNew "constructor" = .inherited "constructor" []
    ∧ (run inert 1 [.on_ (.string "constructor") (.function 1) (.object 7),
        .on_ (.string "constructor") (.function 1) (.object 7),
        .fire "constructor" []] Host.fresh).status = .typeError
    ∧ (run inert 1 [.on_ (.string "constructor") (.function 1) (.object 7),
        .on_ (.string "constructor") (.function 1) (.object 7),
        .fire "constructor" []] Host.fresh).calls = [] := by
  decide

/-- C8: with the type `toString`, a name that the registry object inherits,
`on(T, f)` registers nothing.  The first call reads the inherited function
under `toString`, which has no `push`, and throws a `TypeError`; no record is
stored, and a `fire('toString')` on the host it leaves throws as well and
invokes nothing. -/
theorem on_throws_at_inherited_name :
    (on_ Host.fresh (.string "toString") (.function 1) .undefined).status = .typeError
    ∧ (on_ Host.fresh (.string "toString") (.function 1) .undefined).host.eventsOrNew "toString"
      = .inherited "toString" []
    ∧ entriesOf ((on_ Host.fresh (.string "toString") (.function 1)
        .undefined).host.eventsOrNew "toString") = []
    ∧ (run inert 1 (List.replicate 3 (.on_ (.string "toString") (.function 1) .undefined)
        ++ [.fire "toString" []]) Host.fresh).status = .typeError
    ∧ (run inert 1 (List.replicate 3 (.on_ (.string "toString") (.function 1) .undefined)
        ++ [.fire "toString" []]) Host.fresh).calls = []
    ∧ (fire inert (exec inert 1)
        (on_ Host.fresh (.string "toString") (.function 1) .undefined).host "toString" []).status
      = .typeError
    ∧ (fire inert (exec inert 1)
        (on_ Host.fresh (.string "toString") (.function 1) .undefined).host "toString" []).calls
      = [] := by
  decide

/-- C19: with the type `constructor`, a name that the registry object inherits,
the revived entry is never invoked.  The calls `on(T, f, c)`, `off(T, f, c)`,
`on(T, f, c)` return and leave one live entry under `constructor_idx` with
the count 1, but `fire('constructor')` reads the inherited function under
`constructor`, throws a `TypeError` and invokes nothing. -/
theorem revived_entry_not_invoked_at_inherited_name :
    (run inert 1 [.on_ (.string "constructor") (.function 1) (.object 7),
        .off (.string "constructor") (.function 1) (.object 7),
        .on_ (.string "constructor") (.function 1) (.object 7)] Host.fresh).status = .ok
    ∧ (run inert 1 [.on_ (.string "constructor") (.function 1) (.object 7),
        .off (.string "constructor") (.function 1) (.object 7),
        .on_ (.string "constructor") (.function 1) (.object 7)]
        Host.fresh).host.eventsOrNew "constructor_idx"
      = .object [(⟨.function 1, .object 7⟩, some ⟨.function 1, .object 7⟩)]
    ∧ (run inert 1 [.on_ (.string "constructor") (.function 1) (.object 7),
        .off (.string "constructor") (.function 1) (.object 7),
        .on_ (.string "constructor") (.function 1) (.object 7)]
        Host.fresh).host.eventsOrNew "constructor_len" = .number 1
    ∧ (run inert 1 [.on_ (.string "constructor") (.function 1) (.object 7),
        .off (.string "constructor") (.function 1) (.object 7),
        .on_ (.string "constructor") (.function 1) (.object 7),
        .fire "constructor" []] Host.fresh).status = .typeError
    ∧ (run inert 1 [.on_ (.string "constructor") (.function 1) (.object 7),
        .off (.string "constructor") (.function 1) (.object 7),
        .on_ (.string "constructor") (.function 1) (.object 7),
        .fire "constructor" []] Host.fresh).calls = [] := by
  decide

/-- C21: with a type name that the registry object inherits, the handler
registered through `once` is never invoked.  `once('constructor', f, c)`
returns, but `fire('constructor')` reads the inherited function under
`constructor`, throws a `TypeError` and invokes nothing; and
`once('toString', f)` itself throws a `TypeError`, at the `push` of `_on`. -/
theorem once_handler_not_invoked_at_inherited_name :
    (run inert 1 [.once (.string "constructor") (.function 1) (.object 7)] Host.fresh).status
      = .ok
    ∧ (run inert 1 [.once (.string "constructor") (.function 1) (.object 7),
        .fire "constructor" []] Host.fresh).status = .typeError
    ∧ (run inert 1 [.once (.string "constructor") (.function 1) (.object 7),
        .fire "constructor" []] Host.fresh).calls = []
    ∧ (once Host.fresh (.string "toString") (.function 1) .undefined).status = .typeError
    ∧ (fire inert (exec inert 1)
        (once Host.fresh (.string "toString") (.function 1) .undefined).host "toString"
        []).calls = [] := by
  decide

end CustomEvent

/-! ## Claims on `request.js` -/

namespace Request

/-- C17: `sendHostname` is gated by the opt-out flag and a 7-day cool-down.
With the flag exactly `false`, or with a stored timestamp `d` such that
`now - d <= 604800000`, the local storage is left as it was and nothing is
scheduled.  In every other case `now` is stored under the application key,
the other keys are untouched and the ping is scheduled.  `isExpired(d)` is true
exactly when `now - d > 7*24*60*60*1000`, so a timestamp exactly 7 days old is
not expired. -/
theorem sendHostname_gated (b : Browser) (applicationId : String) :
    ((b.usageStatistics = .boolean false
        ∨ ∃ d, b.localStorage (applicationKeyForStorage b.hostname applicationId) = some d
          ∧ b.now - d ≤ 604800000) →
      (sendHostname b applicationId).localStorage = b.localStorage
        ∧ (sendHostname b applicationId).scheduled = none)
    ∧ (¬ (b.usageStatistics = .boolean false
        ∨ ∃ d, b.localStorage (applicationKeyForStorage b.hostname applicationId) = some d
          ∧ b.now - d ≤ 604800000) →
      (sendHostname b applicationId).localStorage
          (applicationKeyForStorage b.hostname applicationId) = some b.now
        ∧ (∀ k, k ≠ applicationKeyForStorage b.hostname applicationId →
            (sendHostname b applicationId).localStorage k = b.localStorage k)
        ∧ (sendHostname b applicationId).scheduled.isSome = true)
    ∧ (∀ now d : Int, isExpired now d = true ↔ now - d > 7 * 24 * 60 * 60 * 1000)
    ∧ (∀ now : Int, isExpired now (now - 7 * 24 * 60 * 60 * 1000) = false) := by
  refine ⟨?_, ?_, ?_, ?_⟩
  · rintro (hflag | ⟨d, hd, hle⟩)
    · simp [sendHostname, hflag]
    · have hexp : isExpired b.now d = false := by
        simp only [isExpired, ms7days, decide_eq_false_iff_not]
        omega
      by_cases hflag : b.usageStatistics = .boolean false
      · simp [sendHostname, hflag]
      · simp [sendHostname, hflag, hd, hexp]
  · intro hnot
    have hflag : ¬ b.usageStatistics = .boolean false := fun h => hnot (Or.inl h)
    cases hd : b.localStorage (applicationKeyForStorage b.hostname applicationId) with
    | none =>
      simp only [sendHostname, hflag, if_false, hd]
      exact ⟨by simp [setItem], fun k hk => by simp [setItem, hk], rfl⟩
    | some d =>
      have hexp : isExpired b.now d = true := by
        simp only [isExpired, ms7days, decide_eq_true_eq]
        have : ¬ b.now - d ≤ 604800000 := fun h => hnot (Or.inr ⟨d, hd, h⟩)
        omega
      simp only [sendHostname, hflag, if_false, hd, hexp, Bool.not_true, Bool.false_eq_true]
      exact ⟨by simp [setItem], fun k hk => by simp [setItem, hk], rfl⟩
  · intro now d
    simp [isExpired, ms7days]
  · intro now
    simp [isExpired, ms7days]

/-- C17 (witness): on `example.com` with no stored timestamp and with one
exactly 7 days old. -/
theorem sendHostname_gated_witness :
    (sendHostname ⟨"example.com", .undefined, fun _ => some 1000, 1000 + 604800000⟩
        "grid").scheduled = none
    ∧ (sendHostname ⟨"example.com", .undefined, fun _ => none, 5000⟩ "grid").localStorage
        (applicationKeyForStorage "example.com" "grid") = some 5000 :=
  ⟨((sendHostname_gated ⟨"example.com", .undefined, fun _ => some 1000, 1000 + 604800000⟩
      "grid").1 (Or.inr ⟨1000, rfl, by decide⟩)).2,
   ((sendHostname_gated ⟨"example.com", .undefined, fun _ => none, 5000⟩ "grid").2.1
      (by
        rintro (h | ⟨d, hd, _⟩)
        · cases h
        · cases hd)).1⟩

theorem join_cons (a : String) (l : List String) : String.join (a :: l) = a ++ String.join l := by
  apply String.ext
  simp [String.data_join, String.data_append]

theorem getInfo_of_mem (trackingInfo : List (String × String))
    (hobj : (propertyNames trackingInfo).Nodup) :
    ∀ p ∈ trackingInfo, getInfo trackingInfo p.1 = p.2 := by
  induction trackingInfo with
  | nil => intro p hp; cases hp
  | cons q rest ih =>
    simp only [propertyNames, List.map_cons, List.nodup_cons] at hobj
    intro p hp
    rcases List.mem_cons.1 hp with e | hr
    · subst e
      simp [getInfo, List.find?]
    · have hne : q.1 ≠ p.1 := fun e => hobj.1 (e ▸ List.mem_map_of_mem Prod.fst hr)
      have hb : (q.1 == p.1) = false := by simpa using hne
      have := ih hobj.2 p hr
      simpa [getInfo, List.find?, hb] using this

/-- The pieces that the iteratee of `imagePing` returns from the index `n > 0`
on. -/
theorem pieces_from (trackingInfo l : List (String × String))
    (hl : ∀ p ∈ l, getInfo trackingInfo p.1 = p.2) :
    ∀ n, 0 < n →
      ((propertyNames l).enumFrom n).map (fun q =>
        (fun (key : String) (index : Nat) =>
          (if index = 0 then "" else "&") ++ key ++ "=" ++ getInfo trackingInfo key) q.2 q.1)
      = l.map fun p => "&" ++ p.1 ++ "=" ++ p.2 := by
  induction l with
  | nil => intro n _; rfl
  | cons p rest ih =>
    intro n hn
    have hn0 : n ≠ 0 := by omega
    simp only [propertyNames, List.map_cons, List.enumFrom_cons, hn0, if_false,
      hl p (by simp)]
    congr 1
    exact ih (fun q hq => hl q (by simp [hq])) (n + 1) (by omega)

theorem queryOf_cons (p : String × String) (rest : List (String × String)) :
    queryOf (p :: rest)
      = p.1 ++ "=" ++ p.2 ++ String.join (rest.map fun q => "&" ++ q.1 ++ "=" ++ q.2) := by
  induction rest generalizing p with
  | nil => simp [queryOf, String.join]
  | cons q r ih =>
    rw [queryOf, ih q, List.map_cons, join_cons]
    simp [String.append_assoc]
    simp

/-- C23: `imagePing` builds the request URL as `url + '?' + query`.  With
`object.keys` returning the own property names of `trackingInfo` in
enumeration order and `collection.map` mapping an array with the index, the
`src` of the element that `imagePing` returns is `url`, `?` and the query
`k1=v1&k2=v2&...&kn=vn` of the properties in that order, with one `&` between
two pairs, none before the first or after the last, the values as they are;
for an object without properties it is `url` and `?`. -/
theorem imagePing_url (keys : List (String × String) → List String)
    (map : List String → (String → Nat → String) → List String)
    (url : String) (trackingInfo : List (String × String))
    (hobj : (propertyNames trackingInfo).Nodup)
    (hkeys : keys trackingInfo = propertyNames trackingInfo)
    (hmap : ∀ f, map (propertyNames trackingInfo) f = mapWithIndex (propertyNames trackingInfo) f) :
    (imagePing keys map url trackingInfo).src = url ++ "?" ++ queryOf trackingInfo := by
  simp only [imagePing, hkeys, hmap, mapWithIndex, List.enum]
  congr 1
  cases trackingInfo with
  | nil => rfl
  | cons p rest =>
    have hget := getInfo_of_mem (p :: rest) hobj
    rw [queryOf_cons]
    simp only [propertyNames, List.map_cons, List.enumFrom_cons, if_true, hget p (by simp),
      join_cons]
    have := pieces_from (p :: rest) rest (fun q hq => hget q (by simp [hq])) 1 (by omega)
    simp only [propertyNames] at this
    rw [this, String.empty_append]

/-- C23 (witness): the documented call, and an object without properties. -/
theorem imagePing_url_witness :
    (imagePing propertyNames mapWithIndex "https://www.google-analytics.com/collect"
        [("v", "1"), ("t", "event"), ("tid", "trackingid"), ("cid", "cid"), ("dp", "dp"),
          ("dh", "dh")]).src
      = "https://www.google-analytics.com/collect?v=1&t=event&tid=trackingid&cid=cid&dp=dp&dh=dh"
    ∧ (imagePing propertyNames mapWithIndex "https://www.google-analytics.com/collect" []).src
      = "https://www.google-analytics.com/collect?" :=
  ⟨(imagePing_url propertyNames mapWithIndex "https://www.google-analytics.com/collect"
      [("v", "1"), ("t", "event"), ("tid", "trackingid"), ("cid", "cid"), ("dp", "dp"),
        ("dh", "dh")] (by decide) rfl (fun _ => rfl)).trans (by decide),
   (imagePing_url propertyNames mapWithIndex "https://www.google-analytics.com/collect" []
      (by decide) rfl (fun _ => rfl)).trans (by decide)⟩

end Request
